import Mathlib

/-!
Verification of the mir9cc C compiler (Rust sources) against its
natural-language specification.

The development shallowly embeds the relevant parts of the sources:

* `src/parse.rs`   — types, struct layout, scope environment, the
  recursive-descent parser (tokens, expression and statement grammar);
* `src/sema.rs`    — the semantic walk with the array-decay flag;
* `src/gen_ir.rs`  — AST-to-IR lowering with virtual registers and kills;
* `src/gen_x86.rs` — the assembly emitter;
* `src/main.rs`    — the command-line dispatch.

Rust `usize` is modelled as `Nat`, `i32` as `Int` (two's-complement
bitwise operations are modelled with `Int.land` / `Int.lnot`, which agree
with `i32` arithmetic in the absence of overflow; casts where wrapping
matters are taken modulo `2 ^ 64`).  Code that can `panic!` or call
`std::process::exit` is modelled in an error monad.  Recursive procedures
take an explicit fuel argument; exhausted fuel is reported as an error,
so every equation proved about a run with concrete fuel is an equation
about the source procedure.
-/

/-! # Part 1: definitions -/

/-! ## Bit-level helpers shared by `parse.rs` and `sema.rs` -/

/-- Bitwise not on two's-complement integers (Rust `!` on `i32`):
flipping all bits of `x` gives `-x - 1`. -/
def lnotI : Int → Int
  | .ofNat m => .negSucc m
  | .negSucc m => .ofNat m

/-- Bitwise and on two's-complement integers (Rust `&` on `i32`).  A
negative number `.negSucc n` has the bit pattern of the complement of
`n`, so and-ing with it clears the bits of `n` from the other operand:
`m - (m &&& n)`. -/
def landI : Int → Int → Int
  | .ofNat m, .ofNat n => .ofNat (m &&& n)
  | .ofNat m, .negSucc n => .ofNat (m - (m &&& n))
  | .negSucc m, .ofNat n => .ofNat (n - (n &&& m))
  | .negSucc m, .negSucc n => .negSucc (m ||| n)

/-- `roundup` from src/parse.rs: `(x + align - 1) & !(align - 1)` on `i32`
(`&` is bitwise and, `!` is bitwise not; arbitrary-precision
two's-complement arithmetic, which agrees with `i32` in the absence of
overflow). -/
def roundup (x align : Int) : Int :=
  landI (x + align - 1) (lnotI (align - 1))

/-! ## Types and struct layout (src/parse.rs) -/

mutual

/-- `Ty` from src/parse.rs (the `STRUCT` member map is modelled as an
association list in insertion order). -/
inductive Ty : Type where
  | INT : Ty
  | PTR : Ty
  | ARY : Ty
  | CHAR : Ty
  | STRUCT : String → List (String × Ctype) → Ty
  | VOID : Ty
  | BOOL : Ty
  | NULL : Ty

/-- `Type` from src/parse.rs (named `Ctype` because `Type` is reserved in
Lean): fields `ty`, `ptr_to`, `ary_to`, `size`, `align`, `offset`, `len`. -/
inductive Ctype : Type where
  | mk : Ty → Option Ctype → Option Ctype → Int → Int → Int → Int → Ctype

end

/-- Field accessor: `Type.ty`. -/
def Ctype.ty : Ctype → Ty
  | .mk t _ _ _ _ _ _ => t

/-- Field accessor: `Type.ptr_to`. -/
def Ctype.ptr_to : Ctype → Option Ctype
  | .mk _ p _ _ _ _ _ => p

/-- Field accessor: `Type.ary_to`. -/
def Ctype.ary_to : Ctype → Option Ctype
  | .mk _ _ a _ _ _ _ => a

/-- Field accessor: `Type.size`. -/
def Ctype.size : Ctype → Int
  | .mk _ _ _ s _ _ _ => s

/-- Field accessor: `Type.align`. -/
def Ctype.align : Ctype → Int
  | .mk _ _ _ _ a _ _ => a

/-- Field accessor: `Type.offset`. -/
def Ctype.offset : Ctype → Int
  | .mk _ _ _ _ _ o _ => o

/-- Field accessor: `Type.len`. -/
def Ctype.len : Ctype → Int
  | .mk _ _ _ _ _ _ l => l

/-- Functional update of the `offset` field (`ctype.offset = off` in
`new_struct`). -/
def Ctype.withOffset : Ctype → Int → Ctype
  | .mk t p a s al _ l, o => .mk t p a s al o l

/-- `Type::ptr_to(self)` from src/parse.rs: the pointer type to `self`. -/
def Ctype.ptrTo (t : Ctype) : Ctype :=
  .mk .PTR (some t) none 8 8 0 0

/-- `Type::ary_of(self, len)` from src/parse.rs. -/
def Ctype.aryOf (t : Ctype) (len : Int) : Ctype :=
  .mk .ARY none (some t) (t.size * len) t.align 0 len

/-- `INT_TY` from src/parse.rs. -/
def INT_TY : Ctype := .mk .INT none none 4 4 0 0

/-- `CHAR_TY` from src/parse.rs. -/
def CHAR_TY : Ctype := .mk .CHAR none none 1 1 0 0

/-- `VOID_TY` from src/parse.rs. -/
def VOID_TY : Ctype := .mk .VOID none none 0 0 0 0

/-- `NULL_TY` from src/parse.rs. -/
def NULL_TY : Ctype := .mk .NULL none none 0 0 0 0

/-- `BOOL_TY` from src/parse.rs. -/
def BOOL_TY : Ctype := .mk .BOOL none none 1 1 0 0

/-- `LinkedHashMap::insert`: replace in place when the key is present,
append otherwise. -/
def lhmInsert {α : Type} (k : String) (v : α) : List (String × α) → List (String × α)
  | [] => [(k, v)]
  | (k2, v2) :: rest => if k2 = k then (k2, v) :: rest else (k2, v2) :: lhmInsert k v rest

/-- The member-layout loop of `new_struct` from src/parse.rs.  Walks the
member vector in original order (the source reverses the vector and then
pops from its end), threading the running offset `off` and the running
maximal alignment `ty_align`, and inserting each member with its resolved
offset into the member map `mb_map` with `LinkedHashMap::insert`
semantics (`lhmInsert`: a repeated member name overwrites the earlier
entry in place, keeping its position).  Returns the member map, the final
running offset and the final alignment. -/
def structLayout : Int → Int → List (String × Ctype) → List (String × Ctype) →
    List (String × Ctype) × Int × Int
  | off, tyAlign, mb_map, [] => (mb_map, off, tyAlign)
  | off, tyAlign, mb_map, p :: rest =>
    let off1 := roundup off p.2.align
    structLayout (off1 + p.2.size) (max tyAlign p.2.align)
      (lhmInsert p.1 (p.2.withOffset off1) mb_map) rest

/-- Specification device (not a source function): the member layout as a
plain list in member order.  For member vectors with pairwise distinct
member names this is exactly the member map `structLayout` builds
(`structLayout_eq_nodup`); with a repeated member name `structLayout`
collapses the entries via `lhmInsert` and the two differ. -/
def structLayoutNodup : Int → Int → List (String × Ctype) →
    List (String × Ctype) × Int × Int
  | off, tyAlign, [] => ([], off, tyAlign)
  | off, tyAlign, p :: rest =>
    let off1 := roundup off p.2.align
    let r := structLayoutNodup (off1 + p.2.size) (max tyAlign p.2.align) rest
    ((p.1, p.2.withOffset off1) :: r.1, r.2)

/-- `new_struct` from src/parse.rs: lay out the members and build the
struct type, whose size is the final running offset rounded up to the
struct alignment (the maximum member alignment). -/
def new_struct (tag : String) (mb_vec : List (String × Ctype)) : Ctype :=
  let r := structLayout 0 0 [] mb_vec
  .mk (.STRUCT tag r.1) none none (roundup r.2.1 r.2.2) r.2.2 0 0

/-- The list of member types (with resolved offsets) of a struct type;
`[]` for non-struct types. -/
def Ctype.memberTypes : Ctype → List Ctype
  | .mk (.STRUCT _ ms) _ _ _ _ _ _ => ms.map (fun p => p.2)
  | _ => []

/-- The relation between two adjacent struct members stated by the spec:
the successor starts at or after the predecessor's end, within one
alignment unit of it (i.e. at the end rounded up to the successor's
alignment), and at a multiple of its own alignment. -/
def structStep (a b : Ctype) : Prop :=
  a.offset + a.size ≤ b.offset ∧
  b.offset < a.offset + a.size + b.align ∧
  b.offset % b.align = 0

instance : DecidableRel structStep := fun a b =>
  inferInstanceAs (Decidable (a.offset + a.size ≤ b.offset ∧
    b.offset < a.offset + a.size + b.align ∧ b.offset % b.align = 0))

/-! ## The scope environment (src/parse.rs) -/

/-- `Var` from src/parse.rs. -/
structure Var where
  ctype : Ctype
  offset : Int
  is_local : Bool
  labelname : Option String
  strname : Option String
  init : Option (List String)

/-- `NULL_VAR` from src/parse.rs. -/
def NULL_VAR : Var :=
  { ctype := NULL_TY, offset := 0, is_local := true,
    labelname := none, strname := none, init := none }

/-- `Env` from src/parse.rs: a frame of four name tables plus the link to
the enclosing frame (`LinkedHashMap`s and the `HashMap` are modelled as
association lists). -/
inductive Env where
  | mk : List (String × Ctype) → List (String × Ctype) → List (String × Int) →
      List (String × Var) → Option Env → Env

/-- Field accessor: `Env.tags`. -/
def Env.tags : Env → List (String × Ctype)
  | .mk t _ _ _ _ => t

/-- Field accessor: `Env.typedefs`. -/
def Env.typedefs : Env → List (String × Ctype)
  | .mk _ t _ _ _ => t

/-- Field accessor: `Env.enums`. -/
def Env.enums : Env → List (String × Int)
  | .mk _ _ e _ _ => e

/-- Field accessor: `Env.vars`. -/
def Env.vars : Env → List (String × Var)
  | .mk _ _ _ v _ => v

/-- Field accessor: `Env.next`. -/
def Env.next : Env → Option Env
  | .mk _ _ _ _ n => n

/-- `Env::new_env(env)` from src/parse.rs. -/
def Env.new_env (env : Option Env) : Env :=
  .mk [] [] [] [] env

/-- `Env::env_inc` from src/parse.rs: the global environment is replaced
by a fresh frame whose `next` is the previous environment. -/
def Env.env_inc (e : Env) : Env :=
  Env.new_env (some e)

/-- `Env::env_dec` from src/parse.rs: the global environment is replaced
by `env.next.unwrap()`; the `unwrap` panics when there is no enclosing
frame, hence the `Option` result. -/
def Env.env_dec (e : Env) : Option Env :=
  e.next

/-! ## Command-line dispatch (src/main.rs) -/

/-- What `main` in src/main.rs does with the argument vector before
compiling: either it prints the usage line and exits with the given
status, or it proceeds to compile with the two dump flags. -/
inductive CliAct where
  | usage : String → Nat → CliAct
  | run : Bool → Bool → String → CliAct
deriving DecidableEq

/-- The argument dispatch at the top of `main` in src/main.rs.  `args`
includes the program name at index 0; `args.pop()` takes the last
argument as the input file. -/
def cliMain (args : List String) : CliAct :=
  let file := (args.getLast?).getD ("")
  if args.length = 4 ∧ args.get? 1 = some ("-dump-ir1") ∧ args.get? 2 = some ("-dump-ir2") then
    .run true true file
  else if args.length = 3 ∧ args.get? 1 = some ("-dump-ir1") then
    .run true false file
  else if args.length = 3 then
    .run false true file
  else if args.length = 2 then
    .run false false file
  else
    .usage ("Usage: mir9cc [-dump-ir1] [-dump-ir2] <file>") 1

/-- The four documented invocation shapes of the CLI (spec section 6):
source file only, `-dump-ir1` plus file, `-dump-ir2` plus file, or both
flags in that order plus file. -/
def docShape (args : List String) : Prop :=
  args.length = 2 ∨
  (args.length = 3 ∧ (args.get? 1 = some ("-dump-ir1") ∨ args.get? 1 = some ("-dump-ir2"))) ∨
  (args.length = 4 ∧ args.get? 1 = some ("-dump-ir1") ∧ args.get? 2 = some ("-dump-ir2"))

instance (args : List String) : Decidable (docShape args) := by
  unfold docShape; infer_instance

/-! ## The assembly emitter (src/gen_x86.rs) -/

namespace GenX86

/-- The IR opcode set consumed by src/gen_x86.rs (the defining module
`mir.rs` is not part of the sources; the constructors and their payloads
are exactly those matched by `emit_ir`). -/
inductive IrOp : Type where
  | IrImm : IrOp
  | IrMov : IrOp
  | IrAdd : IrOp
  | IrSub : IrOp
  | IrBpRel : IrOp
  | IrMul : IrOp
  | IrDiv : IrOp
  | IrRet : IrOp
  | IrStore : Int → IrOp
  | IrLoad : Int → IrOp
  | IrBr : IrOp
  | IrJmp : IrOp
  | IrCall : String → Nat → List Nat → IrOp
  | IrStoreArg : Int → IrOp
  | IrLt : IrOp
  | IrLe : IrOp
  | IrEqual : IrOp
  | IrNe : IrOp
  | IrLabelAddr : String → IrOp
  | IrOr : IrOp
  | IrXor : IrOp
  | IrAnd : IrOp
  | IrShl : IrOp
  | IrShr : IrOp
  | IrMod : IrOp
  | IrNeg : IrOp
deriving DecidableEq

/-- The IR instruction record consumed by src/gen_x86.rs, with the fields
`emit_ir` reads (`r0`/`r2` are used as register indices after allocation,
hence `Nat`). -/
structure Ir where
  op : IrOp
  r0 : Nat
  r2 : Nat
  imm : Int
  imm2 : Int
  bb1_label : Nat
  bb2_label : Nat
deriving DecidableEq

/-- `REG8` from src/gen_x86.rs. -/
def REG8 : List String := [("r10b"), ("r11b"), ("bl"), ("r12b"), ("r13b"), ("r14b"), ("r15b")]

/-- `REG32` from src/gen_x86.rs. -/
def REG32 : List String := [("r10d"), ("r11d"), ("ebx"), ("r12d"), ("r13d"), ("r14d"), ("r15d")]

/-- `REG64` from src/gen_x86.rs. -/
def REG64 : List String := [("r10"), ("r11"), ("rbx"), ("r12"), ("r13"), ("r14"), ("r15")]

/-- `ARGREG8` from src/gen_x86.rs. -/
def ARGREG8 : List String := [("dil"), ("sil"), ("dl"), ("cl"), ("r8b"), ("r9b")]

/-- `ARGREG32` from src/gen_x86.rs. -/
def ARGREG32 : List String := [("edi"), ("esi"), ("edx"), ("ecx"), ("r8d"), ("r9d")]

/-- `ARGREG64` from src/gen_x86.rs. -/
def ARGREG64 : List String := [("rdi"), ("rsi"), ("rdx"), ("rcx"), ("r8"), ("r9")]

/-- Array indexing `REGS[r]` (Rust panics when out of range; callers only
use allocated indices `< 7`, and the claims below bind indices by `Fin`). -/
def regAt (l : List String) (r : Nat) : String := l.getD r ("")

/-- `reg(size, r)` from src/gen_x86.rs. -/
def reg (size : Int) (r : Nat) : String :=
  if size = 1 then regAt REG8 r
  else if size = 4 then regAt REG32 r
  else regAt REG64 r

/-- `argreg(size, r)` from src/gen_x86.rs. -/
def argreg (size : Int) (r : Nat) : String :=
  if size = 1 then regAt ARGREG8 r
  else if size = 4 then regAt ARGREG32 r
  else regAt ARGREG64 r

/-- `emit_cmp` from src/gen_x86.rs. -/
def emit_cmp (ir : Ir) (insn : String) : List String :=
  [("\tcmp ") ++ regAt REG64 ir.r0 ++ (", ") ++ regAt REG64 ir.r2,
   ("\t") ++ insn ++ (" ") ++ regAt REG8 ir.r0,
   ("\tmovzb ") ++ regAt REG64 ir.r0 ++ (", ") ++ regAt REG8 ir.r0]

/-- `emit_ir` from src/gen_x86.rs: the lines printed for one IR
instruction (each `emit!` line carries the leading tab of the macro). -/
def emit_ir (ir : Ir) (ret : String) : List String :=
  match ir.op with
  | .IrImm => [("\tmov ") ++ regAt REG64 ir.r0 ++ (", ") ++ toString ir.imm]
  | .IrMov => [("\tmov ") ++ regAt REG64 ir.r0 ++ (", ") ++ regAt REG64 ir.r2]
  | .IrAdd => [("\tadd ") ++ regAt REG64 ir.r0 ++ (", ") ++ regAt REG64 ir.r2]
  | .IrSub => [("\tsub ") ++ regAt REG64 ir.r0 ++ (", ") ++ regAt REG64 ir.r2]
  | .IrBpRel => [("\tlea ") ++ regAt REG64 ir.r0 ++ (", [rbp-") ++ toString ir.imm ++ ("]")]
  | .IrMul =>
    [("\tmov rax, ") ++ regAt REG64 ir.r2,
     ("\timul ") ++ regAt REG64 ir.r0,
     ("\tmov ") ++ regAt REG64 ir.r0 ++ (", rax")]
  | .IrDiv =>
    [("\tmov rax, ") ++ regAt REG64 ir.r0,
     ("\tcqo"),
     ("\tidiv ") ++ regAt REG64 ir.r2,
     ("\tmov ") ++ regAt REG64 ir.r0 ++ (", rax")]
  | .IrRet =>
    [("\tmov rax, ") ++ regAt REG64 ir.r0,
     ("\tjmp ") ++ ret]
  | .IrStore size =>
    [("\tmov [") ++ regAt REG64 ir.r0 ++ ("], ") ++ reg size ir.r2]
  | .IrLoad size =>
    (("\tmov ") ++ reg size ir.r0 ++ (", [") ++ regAt REG64 ir.r2 ++ ("]")) ::
    (if size = 1 then [("\tmovzb ") ++ regAt REG64 ir.r0 ++ (", ") ++ regAt REG8 ir.r2] else [])
  | .IrBr =>
    [("\tcmp ") ++ regAt REG64 ir.r0 ++ (", 0"),
     ("\tjne .L") ++ toString ir.bb1_label,
     ("\tjmp .L") ++ toString ir.bb2_label]
  | .IrJmp => [("\tjmp .L") ++ toString ir.bb1_label]
  | .IrCall name len args =>
    ((List.range len).map (fun i =>
      ("\tmov ") ++ regAt ARGREG64 i ++ (", ") ++ regAt REG64 (args.getD i 0))) ++
    [("\tpush r10"), ("\tpush r11"), ("\tmov rax, 0"),
     ("\tcall ") ++ name,
     ("\tpop r11"), ("\tpop r10"),
     ("\tmov ") ++ regAt REG64 ir.r0 ++ (", rax")]
  | .IrStoreArg size =>
    [("\tmov [rbp-") ++ toString ir.imm ++ ("], ") ++ argreg size ir.imm2.toNat]
  | .IrLt => emit_cmp ir ("setl")
  | .IrLe => emit_cmp ir ("setle")
  | .IrEqual => emit_cmp ir ("sete")
  | .IrNe => emit_cmp ir ("setne")
  | .IrLabelAddr label => [("\tlea ") ++ regAt REG64 ir.r0 ++ (", ") ++ label]
  | .IrOr => [("\tor ") ++ regAt REG64 ir.r0 ++ (", ") ++ regAt REG64 ir.r2]
  | .IrXor => [("\txor ") ++ regAt REG64 ir.r0 ++ (", ") ++ regAt REG64 ir.r2]
  | .IrAnd => [("\tand ") ++ regAt REG64 ir.r0 ++ (", ") ++ regAt REG64 ir.r2]
  | .IrShl =>
    [("\tmov cl, ") ++ regAt REG8 ir.r2,
     ("\tshl ") ++ regAt REG64 ir.r0 ++ (", cl")]
  | .IrShr =>
    [("\tmov cl, ") ++ regAt REG8 ir.r2,
     ("\tshr ") ++ regAt REG64 ir.r0 ++ (", cl")]
  | .IrMod =>
    [("\tmov rax, ") ++ regAt REG64 ir.r0,
     ("\tcqo"),
     ("\tidiv ") ++ regAt REG64 ir.r2,
     ("\tmov ") ++ regAt REG64 ir.r0 ++ (", rdx")]
  | .IrNeg => [("\tneg ") ++ regAt REG64 ir.r0]

/-- `BACKSLASH_ESCAPED` from src/gen_x86.rs, as a lookup on character
codes: the characters escaped with a backslash and their replacements. -/
def backslashEscaped (c : Char) : Option Char :=
  if c = Char.ofNat 10 then some ('n')
  else if c = Char.ofNat 13 then some ('r')
  else if c = Char.ofNat 9 then some ('t')
  else if c = '\\' then some ('\\')
  else if c = Char.ofNat 39 then some (Char.ofNat 39)
  else if c = Char.ofNat 34 then some (Char.ofNat 34)
  else none

/-- Octal digits of a natural number, as Rust's `{:o}` format prints
them. -/
def octalStr (n : Nat) : String := String.mk (Nat.toDigits 8 n)

/-- One step of `escape` from src/gen_x86.rs: how a single character of
the payload is rendered (`is_ascii_graphic` is `'!'..='~'`; other bytes
are rendered as a backslash followed by the octal of the byte, the
two's-complement `as i8` cast notwithstanding since payload bytes are
below 256). -/
def escapeChar (c : Char) : String :=
  match backslashEscaped c with
  | some c2 => String.mk ['\\', c2]
  | none =>
    if (33 ≤ c.toNat ∧ c.toNat ≤ 126) ∨ c = ' ' then String.mk [c]
    else ("\\") ++ octalStr (c.toNat % 256)

/-- `escape` from src/gen_x86.rs: render `len` characters of the payload
(missing characters beyond the payload render as `\000`), then append the
terminating `\000`. -/
def escape (strname : String) (len : Int) : String :=
  String.join (((List.range len.toNat).map (fun i =>
    match strname.data.get? i with
    | some c => escapeChar c
    | none => ("\\000"))) ++ [("\\000")])

/-- The per-global emission of `gen_x86` from src/gen_x86.rs (lines
234-245): a global with a string payload is emitted as `.data` with an
`.ascii` directive; any other global — its `init` directive list
included — is emitted as `.bss` with `.zero`.  `labelname.unwrap()`
panics on `None`, hence the `Option`. -/
def gvarLines (gvar : Var) : Option (List String) :=
  match gvar.strname with
  | some s =>
    match gvar.labelname with
    | some l => some [(".data"), l ++ (":"),
        ("\t.ascii \"") ++ escape s gvar.ctype.size ++ ("\"")]
    | none => none
  | none =>
    match gvar.labelname with
    | some l => some [(".bss"), l ++ (":"),
        ("\t.zero ") ++ toString gvar.ctype.size]
    | none => none

/-- A machine state for reading the emitted load sequence: 64-bit
register values indexed by physical register number, and a byte
memory. -/
structure X86State where
  regs : Nat → Nat
  mem : Nat → Nat

/-- x86 semantics of `mov REG8[r0], [REG64[r2]]`: an 8-bit load replaces
the low byte of `r0` with the addressed byte and preserves the upper 56
bits. -/
def semMovLoad8 (r0 r2 : Nat) (s : X86State) : X86State :=
  { s with regs := fun r =>
      if r = r0 then (s.regs r0 / 256) * 256 + (s.mem (s.regs r2)) % 256
      else s.regs r }

/-- x86 semantics of `movzb REG64[r0], REG8[rsrc]`: the destination is
replaced by the zero-extension of the source's low byte. -/
def semMovzb (r0 rsrc : Nat) (s : X86State) : X86State :=
  { s with regs := fun r => if r = r0 then (s.regs rsrc) % 256 else s.regs r }

/-- A concrete machine state for the C4 failing input: register `r11`
(index 1) holds the address 8, memory holds the byte 42 at address 8. -/
def c4State : X86State :=
  { regs := fun r => if r = 1 then 8 else 0,
    mem := fun a => if a = 8 then 42 else 0 }

end GenX86

/-! ## Tokens (src/token.rs) -/

/-- `TokenType` from src/token.rs. -/
inductive TokenType : Type where
  | TokenNum | TokenAdd | TokenSub | TokenStar | TokenDiv | TokenRet
  | TokenSemi | TokenIdent | TokenAssign | TokenRightBrac | TokenLeftBrac
  | TokenIf | TokenElse | TokenComma | TokenRightCurlyBrace
  | TokenLeftCurlyBrace | TokenLogAnd | TokenLogOr | TokenLt | TokenRt
  | TokenRightmiddleBrace | TokenLeftmiddleBrace | TokenAmpersand
  | TokenSizeof | TokenFor | TokenInt | TokenChar | TokenDoubleQuo
  | TokenString (s : String)
  | TokenEqual | TokenNe | TokenDo | TokenWhile | TokenExtern
  | TokenAlignof | TokenStruct | TokenDot | TokenArrow | TokenTypedef
  | TokenVoid | TokenNot | TokenQuestion | TokenColon | TokenOr
  | TokenXor | TokenLe | TokenGe | TokenShl | TokenShr | TokenMod
  | TokenInc | TokenDec | TokenBreak | TokenAddEq | TokenSubEq
  | TokenMulEq | TokenDivEq | TokenModEq | TokenShlEq | TokenShrEq
  | TokenAndEq | TokenOrEq | TokenXorEq | TokenTilde | TokenSharp
  | TokenInclude | TokenDefine | TokenNewLine
  | TokenParam (stringize : Bool)
  | TokenTypeof | TokenContinue | TokenBool | TokenSwitch | TokenCase
  | TokenEnum | TokenNoSignal | TokenEof

/-- A numeric tag for each `TokenType` constructor, for the equality
test. -/
def TokenType.tag : TokenType → Nat
  | .TokenNum => 0 | .TokenAdd => 1 | .TokenSub => 2 | .TokenStar => 3
  | .TokenDiv => 4 | .TokenRet => 5 | .TokenSemi => 6 | .TokenIdent => 7
  | .TokenAssign => 8 | .TokenRightBrac => 9 | .TokenLeftBrac => 10
  | .TokenIf => 11 | .TokenElse => 12 | .TokenComma => 13
  | .TokenRightCurlyBrace => 14 | .TokenLeftCurlyBrace => 15
  | .TokenLogAnd => 16 | .TokenLogOr => 17 | .TokenLt => 18 | .TokenRt => 19
  | .TokenRightmiddleBrace => 20 | .TokenLeftmiddleBrace => 21
  | .TokenAmpersand => 22 | .TokenSizeof => 23 | .TokenFor => 24
  | .TokenInt => 25 | .TokenChar => 26 | .TokenDoubleQuo => 27
  | .TokenString _ => 28 | .TokenEqual => 29 | .TokenNe => 30
  | .TokenDo => 31 | .TokenWhile => 32 | .TokenExtern => 33
  | .TokenAlignof => 34 | .TokenStruct => 35 | .TokenDot => 36
  | .TokenArrow => 37 | .TokenTypedef => 38 | .TokenVoid => 39
  | .TokenNot => 40 | .TokenQuestion => 41 | .TokenColon => 42
  | .TokenOr => 43 | .TokenXor => 44 | .TokenLe => 45 | .TokenGe => 46
  | .TokenShl => 47 | .TokenShr => 48 | .TokenMod => 49 | .TokenInc => 50
  | .TokenDec => 51 | .TokenBreak => 52 | .TokenAddEq => 53
  | .TokenSubEq => 54 | .TokenMulEq => 55 | .TokenDivEq => 56
  | .TokenModEq => 57 | .TokenShlEq => 58 | .TokenShrEq => 59
  | .TokenAndEq => 60 | .TokenOrEq => 61 | .TokenXorEq => 62
  | .TokenTilde => 63 | .TokenSharp => 64 | .TokenInclude => 65
  | .TokenDefine => 66 | .TokenNewLine => 67 | .TokenParam _ => 68
  | .TokenTypeof => 69 | .TokenContinue => 70 | .TokenBool => 71
  | .TokenSwitch => 72 | .TokenCase => 73 | .TokenEnum => 74
  | .TokenNoSignal => 75 | .TokenEof => 76

/-- The derived `PartialEq for TokenType` from src/token.rs: constructor
equality, with payloads compared in the two payload-carrying variants. -/
def ttBeq : TokenType → TokenType → Bool
  | .TokenString s1, .TokenString s2 => s1 = s2
  | .TokenParam b1, .TokenParam b2 => b1 = b2
  | a, b => a.tag = b.tag

/-- `Token` from src/token.rs (`end` is a reserved word in Lean, hence
`end_`). -/
structure Token where
  ty : TokenType
  val : Int
  program_id : Nat
  pos : Nat
  end_ : Nat
  line : Nat

/-! ## The AST (src/parse.rs) -/

/-- `NodeType` from src/parse.rs.  The Rust `Node` is a single-field
wrapper `Node { op: NodeType }`; the embedding flattens the wrapper and
uses one inductive for both. -/
inductive Node : Type where
  | Num (val : Int)
  | BinaryTree (ctype : Ctype) (tk_ty : TokenType) (lhs rhs : Node)
  | Ret (lhs : Node)
  | Expr (lhs : Node)
  | CompStmt (stmts : List Node)
  | StmtExpr (ctype : Ctype) (body : Node)
  | Ident (s : String)
  | Assign (ctype : Ctype) (lhs rhs : Node)
  | IfThen (cond thenN : Node) (elthen : Option Node)
  | Call (ctype : Ctype) (ident : String) (args : List Node)
  | Func (ctype : Ctype) (ident : String) (args : List Var) (body : Node) (stacksize : Int)
  | For (init cond inc body : Node)
  | VarDef (name : String) (var : Var) (init : Option Node)
  | Deref (ctype : Ctype) (lhs : Node)
  | Addr (ctype : Ctype) (lhs : Node)
  | Equal (lhs rhs : Node)
  | Ne (lhs rhs : Node)
  | DoWhile (body cond : Node)
  | Dot (ctype : Ctype) (expr : Node) (name : String)
  | Not (expr : Node)
  | Ternary (ctype : Ctype) (cond thenN els : Node)
  | TupleExpr (ctype : Ctype) (lhs rhs : Node)
  | IncDec (ctype : Ctype) (selector : Int) (expr : Node)
  | Decl (ctype : Ctype) (ident : String) (args : List Node)
  | VarRef (var : Var)
  | Break
  | Continue
  | Cast (ctype : Ctype) (expr : Node)
  | Switch (cond body : Node) (case_conds : List Node)
  | Case (val body : Node)
  | ArrIni (arrini : List (Node × Node))
  | NULL

/-- `Node::nodesctype(basetype)` from src/parse.rs. -/
def Node.nodesctype (node : Node) (basetype : Option Ctype) : Ctype :=
  match node with
  | .BinaryTree ctype _ _ _ => ctype
  | .Deref ctype _ => ctype
  | .Addr ctype _ => ctype
  | .Dot ctype _ _ => ctype
  | .Ternary ctype _ _ _ => ctype
  | .IncDec ctype _ _ => ctype
  | .Assign ctype _ _ => ctype
  | .VarRef var => var.ctype
  | .VarDef _ var _ => var.ctype
  | .Num _ => INT_TY
  | .Equal lhs _ => lhs.nodesctype none
  | _ =>
    match basetype with
    | some ty => ty
    | none => VOID_TY

/-- Modelled from the spec: `get_type` (its defining module is not under
src/) computes the static type of a parsed expression for `sizeof`,
`_Alignof` and `typeof`; per the data model of spec section 3 every
expression node carries its type, which `Node::nodesctype` reads off. -/
def get_type (n : Node) : Ctype := n.nodesctype none

/-- The custom `PartialEq for Ty` from src/parse.rs: structs compare by
tag only; every other variant compares by constructor. -/
def tyBeq : Ty → Ty → Bool
  | .INT, .INT => true
  | .PTR, .PTR => true
  | .ARY, .ARY => true
  | .CHAR, .CHAR => true
  | .VOID, .VOID => true
  | .NULL, .NULL => true
  | .BOOL, .BOOL => true
  | .STRUCT tag1 _, .STRUCT tag2 _ => tag1 = tag2
  | _, _ => false

mutual

/-- The derived `PartialEq for Type` from src/parse.rs: field-wise, with
the custom `Ty` comparison. -/
def ctypeBeq : Ctype → Ctype → Bool
  | .mk t1 p1 a1 s1 al1 o1 l1, .mk t2 p2 a2 s2 al2 o2 l2 =>
    tyBeq t1 t2 && optCtypeBeq p1 p2 && optCtypeBeq a1 a2 &&
    s1 = s2 && al1 = al2 && o1 = o2 && l1 = l2

/-- `PartialEq` on `Option<Box<Type>>`. -/
def optCtypeBeq : Option Ctype → Option Ctype → Bool
  | none, none => true
  | some a, some b => ctypeBeq a b
  | _, _ => false

end

/-- The derived `PartialEq for Var` from src/parse.rs. -/
def varBeq (a b : Var) : Bool :=
  ctypeBeq a.ctype b.ctype && a.offset = b.offset && a.is_local = b.is_local &&
  a.labelname = b.labelname && a.strname = b.strname && a.init = b.init

/-- `LinkedHashMap::get` / `HashMap::get`. -/
def lhmGet {α : Type} (k : String) : List (String × α) → Option α
  | [] => none
  | (k2, v2) :: rest => if k2 = k then some v2 else lhmGet k rest

namespace Parse

/-- How an embedded run of the parser can abort: a Rust `panic!` (or an
out-of-fuel marker, reported as a panic on the fuel), or
`std::process::exit(code)` after printing `msg` to stderr. -/
inductive PErr : Type where
  | panicE (msg : String)
  | exitE (code : Nat) (msg : String)
deriving DecidableEq

/-- The parser state: the `TokenSet` (tokens plus cursor) and the
module-level mutable globals of src/parse.rs (`ENV`, `GVARS`, `LABEL`,
`SWITCHES`, `STACKSIZE`, `ARRINI`), plus the `PROGRAMS` source-text table
from src/token.rs that `ident()` slices names out of. -/
structure PSt where
  tokens : List Token
  pos : Nat
  env : Env
  gvars : List Var
  label : Int
  switches : List (List Node)
  stacksize : Int
  arrini : Var
  programs : List String

/-- The parser monad: state plus abort. -/
abbrev PM (α : Type) := StateT PSt (Except PErr) α

/-- Rust byte-slice `s[a..b]` (ASCII source text, so bytes coincide with
characters). -/
def strSlice (s : String) (a b : Nat) : String :=
  String.mk ((s.data.drop a).take (b - a))

/-- `tokenset.tokens[tokenset.pos]` (a Rust index panic when out of
range). -/
def curToken : PM Token := do
  let st ← get
  match st.tokens.get? st.pos with
  | some t => pure t
  | none => throw (.panicE ("token index out of range"))

/-- The token at an absolute index. -/
def tokenAt (i : Nat) : PM Token := do
  let st ← get
  match st.tokens.get? i with
  | some t => pure t
  | none => throw (.panicE ("token index out of range"))

/-- `TokenSet::consume_ty` from src/token.rs.  Note the string-literal
quirk of the source: a `TokenString` pattern matches without advancing
the cursor. -/
def consume_ty (ty : TokenType) : PM Bool := do
  let token ← curToken
  match token.ty, ty with
  | .TokenString _, .TokenString _ => pure true
  | _, _ =>
    if ttBeq token.ty ty then do
      modify (fun st => { st with pos := st.pos + 1 })
      pure true
    else
      pure false

/-- `TokenSet::assert_ty` from src/token.rs. -/
def assert_ty (ty : TokenType) : PM Unit := do
  if ← consume_ty ty then pure () else throw (.panicE ("assertion failed"))

/-- `TokenSet::is_typename` from src/token.rs: `int`, `char`, `void`,
`struct` or `typeof` (consuming on success). -/
def is_typename : PM Bool := do
  let token ← curToken
  match token.ty with
  | .TokenInt | .TokenChar | .TokenVoid | .TokenStruct | .TokenTypeof =>
    modify (fun st => { st with pos := st.pos + 1 })
    pure true
  | _ => pure false

/-- `PROGRAMS[pid]` (a Rust index panic when out of range). -/
def getProgram (pid : Nat) : PM String := do
  let st ← get
  match st.programs.get? pid with
  | some p => pure p
  | none => throw (.panicE ("program index out of range"))

/-- `TokenSet::ident` from src/token.rs: slice the identifier's text out
of the source, then insist the token is an identifier. -/
def identTS : PM String := do
  let token ← curToken
  let prog ← getProgram token.program_id
  let name := strSlice prog token.pos token.end_
  if ← consume_ty .TokenIdent then pure name
  else throw (.panicE ("should be identifier"))

/-- `TokenSet::getstring` from src/token.rs. -/
def getstringTS : PM String := do
  let token ← curToken
  match token.ty with
  | .TokenString sb => pure sb
  | _ => throw (.panicE ("getstring type error"))

/-- `TokenSet::getval` from src/token.rs. -/
def getval : PM Int := do
  let token ← curToken
  pure token.val

/-- `new_label` from src/parse.rs. -/
def new_label : PM Int := do
  modify (fun st => { st with label := st.label + 1 })
  let st ← get
  pure st.label

/-- `Env::env_inc` acting on the global environment. -/
def envInc : PM Unit :=
  modify (fun st => { st with env := Env.env_inc st.env })

/-- `Env::env_dec` acting on the global environment (panics at the
outermost frame). -/
def envDec : PM Unit := do
  let st ← get
  match st.env.next with
  | some e => set { st with env := e }
  | none => throw (.panicE ("env_dec"))

/-- `Var::calc_offset` from src/parse.rs: round the running stack size up
to the variable's alignment, add its size, and store the result as the
variable's offset (the caller decides whether the running stack size is
updated). -/
def calc_offset (stacksize : Int) (var : Var) : Var :=
  { var with offset := roundup stacksize var.ctype.align + var.ctype.size }

/-- `Env::add_var` from src/parse.rs: a local variable gets its offset
from `calc_offset` and the new running stack size is recorded; the
(possibly updated) variable is inserted into the innermost frame.
Returns the updated variable (the source mutates it through `&mut`). -/
def envAddVar (ident : String) (var : Var) : PM Var := do
  let st ← get
  let var := if var.is_local then calc_offset st.stacksize var else var
  let st := if var.is_local then { st with stacksize := var.offset } else st
  let newEnv := Env.mk st.env.tags st.env.typedefs st.env.enums
    (lhmInsert ident var st.env.vars) st.env.next
  set { st with env := newEnv }
  pure var

/-- `Env::add_typedef` from src/parse.rs. -/
def add_typedef (ident : String) (ctype : Ctype) : PM Unit :=
  modify (fun st =>
    { st with env := (Env.mk st.env.tags (lhmInsert ident ctype st.env.typedefs)
        st.env.enums st.env.vars st.env.next) })

/-- `Env::add_tags` from src/parse.rs. -/
def add_tags (tag : String) (ctype : Ctype) : PM Unit :=
  modify (fun st =>
    { st with env := (Env.mk (lhmInsert tag ctype st.env.tags) st.env.typedefs
        st.env.enums st.env.vars st.env.next) })

/-- Walk a frame and its outer frames for a typedef, as the `env_find!`
macro of src/parse.rs does along `env.next`. -/
def envChainFindTypedefE : Env → String → Option Ctype
  | .mk _ td _ _ nx, n =>
    match lhmGet n td with
    | some t => some t
    | none =>
      match nx with
      | some e => envChainFindTypedefE e n
      | none => none
  termination_by structural e _ => e

/-- Walk the outer frames (from `env.next` on) for a typedef. -/
def envChainFindTypedef : Option Env → String → Option Ctype
  | none, _ => none
  | some e, n => envChainFindTypedefE e n

/-- Walk a frame and its outer frames for a struct tag. -/
def envChainFindTagE : Env → String → Option Ctype
  | .mk tg _ _ _ nx, n =>
    match lhmGet n tg with
    | some t => some t
    | none =>
      match nx with
      | some e => envChainFindTagE e n
      | none => none
  termination_by structural e _ => e

/-- Walk the outer frames for a struct tag. -/
def envChainFindTag : Option Env → String → Option Ctype
  | none, _ => none
  | some e, n => envChainFindTagE e n

/-- Walk a frame and its outer frames for a variable. -/
def envChainFindVarE : Env → String → Option Var
  | .mk _ _ _ vs nx, n =>
    match lhmGet n vs with
    | some v => some v
    | none =>
      match nx with
      | some e => envChainFindVarE e n
      | none => none
  termination_by structural e _ => e

/-- Walk the outer frames for a variable. -/
def envChainFindVar : Option Env → String → Option Var
  | none, _ => none
  | some e, n => envChainFindVarE e n

/-- The `env_find!` macro of src/parse.rs on the `typedefs` table:
consult the innermost frame; if the result is (still equal to) the null
type, take the first hit along the outer frames. -/
def env_find_typedefs (name : String) : PM Ctype := do
  let st ← get
  let target := match lhmGet name st.env.typedefs with
    | some t => t
    | none => NULL_TY
  if ctypeBeq target NULL_TY then
    match envChainFindTypedef st.env.next name with
    | some t => pure t
    | none => pure target
  else
    pure target

/-- The `env_find!` macro on the `tags` table. -/
def env_find_tags (name : String) : PM Ctype := do
  let st ← get
  let target := match lhmGet name st.env.tags with
    | some t => t
    | none => NULL_TY
  if ctypeBeq target NULL_TY then
    match envChainFindTag st.env.next name with
    | some t => pure t
    | none => pure target
  else
    pure target

/-- The `env_find!` macro on the `vars` table. -/
def env_find_vars (name : String) : PM Var := do
  let st ← get
  let target := match lhmGet name st.env.vars with
    | some v => v
    | none => NULL_VAR
  if varBeq target NULL_VAR then
    match envChainFindVar st.env.next name with
    | some v => pure v
    | none => pure target
  else
    pure target

/-- The frame walk of `Env::find_enum` from src/parse.rs: innermost
frame first; `-1` when absent. -/
def findEnumChainE : Env → String → Int
  | .mk _ _ en _ nx, n =>
    match lhmGet n en with
    | some v => v
    | none =>
      match nx with
      | some e => findEnumChainE e n
      | none => -1
  termination_by structural e _ => e

/-- `Env::find_enum` from src/parse.rs: walk all frames, innermost
first; `-1` when absent. -/
def find_enum (name : String) : PM Int := do
  let st ← get
  pure (findEnumChainE st.env name)

/-- `switch_loop_inc` from src/parse.rs (the switch stack grows at the
head in this embedding; the head is the innermost switch). -/
def switch_loop_inc : PM Unit :=
  modify (fun st => { st with switches := [] :: st.switches })

/-- `switch_loop_dec` from src/parse.rs: pop the innermost case list;
prints to stderr and exits with status 0 when there is none. -/
def switch_loop_dec : PM (List Node) := do
  let st ← get
  match st.switches with
  | top :: rest =>
    set { st with switches := rest }
    pure top
  | [] => throw (.exitE 0 ("cannot find jmp point of switch."))

/-- `case_emit` from src/parse.rs: append the case value to the innermost
case list; prints to stderr and exits with status 0 when there is no
enclosing switch. -/
def case_emit (val : Node) : PM Unit := do
  let st ← get
  match st.switches with
  | top :: rest => set { st with switches := (top ++ [val]) :: rest }
  | [] => throw (.exitE 0 ("cannot find jmp point of switch."))

/-- Functional update of the `size` field (`var.ctype.size = ...` in
`primary`). -/
def sizeUpd (c : Ctype) (s : Int) : Ctype :=
  match c with
  | .mk t p a _ al o l => .mk t p a s al o l

/-- `assignment_op` from src/parse.rs. -/
def assignment_op : PM (Option TokenType) := do
  if ← consume_ty .TokenAddEq then pure (some .TokenAdd)
  else if ← consume_ty .TokenSubEq then pure (some .TokenSub)
  else if ← consume_ty .TokenMulEq then pure (some .TokenStar)
  else if ← consume_ty .TokenDivEq then pure (some .TokenDiv)
  else if ← consume_ty .TokenModEq then pure (some .TokenMod)
  else if ← consume_ty .TokenShlEq then pure (some .TokenShl)
  else if ← consume_ty .TokenShrEq then pure (some .TokenShr)
  else if ← consume_ty .TokenAndEq then pure (some .TokenAmpersand)
  else if ← consume_ty .TokenOrEq then pure (some .TokenOr)
  else if ← consume_ty .TokenXorEq then pure (some .TokenXor)
  else if ← consume_ty .TokenAssign then pure (some .TokenAssign)
  else pure none

/-- `string_literal` from src/parse.rs: an anonymous char-array global
labelled `.L.str<N>`, appended to the globals. -/
def string_literal : PM Node := do
  let strname ← getstringTS
  let ctype := CHAR_TY.aryOf (strname.length + 1)
  modify (fun st => { st with pos := st.pos + 1 })
  let l ← new_label
  let labelname := (".L.str") ++ toString l
  let var : Var := ⟨ctype, 0, false, some labelname, some strname, none⟩
  modify (fun st => { st with gvars := st.gvars ++ [var] })
  pure (Node.VarRef var)

/-- `local_variable` from src/parse.rs: resolve an identifier to a
variable, falling back to an enum constant. -/
def local_variable : PM Node := do
  let name ← identTS
  let var ← env_find_vars name
  match var.ctype.ty with
  | .NULL =>
    let enum_num ← find_enum name
    if enum_num ≠ -1 then pure (Node.Num enum_num)
    else throw (.panicE ("is not defined."))
  | _ => pure (Node.VarRef var)

/-- `new_ptr_to_replace_type` from src/parse.rs (the `unwrap` of a
missing `ptr_to` is the `none` case). -/
def new_ptr_to_replace_type : Ctype → Ctype → Option Ctype
  | .mk .NULL _ _ _ _ _ _, true_ty => some true_ty
  | .mk t p a s al o l, true_ty =>
    match p with
    | none => none
    | some inner =>
      match new_ptr_to_replace_type inner true_ty with
      | none => none
      | some r => some (.mk t (some r) a s al o l)

/-- The `for rhs in arrrhs` loop at the end of the array-initializer
branch of `primary` from src/parse.rs. -/
def buildArrIni (var : Var) : List Node → Int → List (Node × Node)
  | [], _ => []
  | rhs :: rest, i =>
    let bit := Node.BinaryTree INT_TY .TokenAdd (Node.VarRef var) (Node.Num i)
    let lhs := Node.Deref INT_TY bit
    (lhs, rhs) :: buildArrIni var rest (i + 1)

/-- The body of the `loop` in `Env::add_enum` from src/parse.rs. -/
def enumLoop : Nat → Int → PM Unit
  | 0, _ => throw (.panicE ("fuel"))
  | f+1, assign_num => do
    let enum_mem ← identTS
    let an ← (do
      if ← consume_ty .TokenAssign then
        let v ← getval
        assert_ty .TokenNum
        pure v
      else pure assign_num)
    assert_ty .TokenComma
    modify (fun st =>
      { st with env := (Env.mk st.env.tags st.env.typedefs
          (lhmInsert enum_mem an st.env.enums) st.env.vars st.env.next) })
    if ← consume_ty .TokenLeftCurlyBrace then pure ()
    else enumLoop f (an + 1)

/-- `Env::add_enum` from src/parse.rs. -/
def add_enum (f : Nat) : PM Unit := do
  assert_ty .TokenRightCurlyBrace
  enumLoop f 0
  assert_ty .TokenSemi

mutual

/-- `primary` from src/parse.rs. -/
def primary : Nat → PM Node
  | 0 => throw (.panicE ("fuel"))
  | f+1 => do
    if ← consume_ty .TokenRightBrac then
      if ← consume_ty .TokenRightCurlyBrace then do
        modify (fun st => { st with pos := st.pos - 1 })
        let b ← compound_stmt f true
        let body := Node.StmtExpr VOID_TY b
        assert_ty .TokenLeftBrac
        pure body
      else do
        let lhs ← expr f
        assert_ty .TokenLeftBrac
        pure lhs
    else if ← consume_ty .TokenNum then do
      let st ← get
      let t ← tokenAt (st.pos - 1)
      pure (Node.Num t.val)
    else if ← consume_ty .TokenIdent then do
      if !(← consume_ty .TokenRightBrac) then do
        modify (fun st => { st with pos := st.pos - 1 })
        local_variable
      else function_call f
    else if ← consume_ty (.TokenString ("")) then string_literal
    else if ← consume_ty .TokenRightCurlyBrace then do
      let st ← get
      let var := st.arrini
      set { st with arrini := NULL_VAR }
      match var.ctype.ty with
      | .ARY => do
        let arrrhs ← arrIniRhs f []
        assert_ty .TokenLeftCurlyBrace
        let aryTo ← (match var.ctype.ary_to with
          | some a => pure a
          | none => throw (.panicE ("unwrap")))
        let var := { var with ctype := sizeUpd var.ctype (aryTo.size * arrrhs.length) }
        let st2 ← get
        let var := calc_offset st2.stacksize var
        let arrini := buildArrIni var arrrhs 0
        modify (fun st => { st with arrini := var })
        pure (Node.ArrIni arrini)
      | _ => throw (.panicE ("array init error."))
    else throw (.panicE ("primary parse fail"))

/-- The rhs-collecting `loop` of the array-initializer branch of
`primary`. -/
def arrIniRhs : Nat → List Node → PM (List Node)
  | 0, _ => throw (.panicE ("fuel"))
  | f+1, acc => do
    let r ← logor f
    let acc := acc ++ [r]
    if ← consume_ty .TokenComma then arrIniRhs f acc else pure acc

/-- `function_call` from src/parse.rs (the name is sliced from the
source text of the token two positions back). -/
def function_call : Nat → PM Node
  | 0 => throw (.panicE ("fuel"))
  | f+1 => do
    let st ← get
    let token ← tokenAt (st.pos - 2)
    let prog ← getProgram token.program_id
    let name := strSlice prog token.pos token.end_
    let var ← env_find_vars name
    let args ← callArgs f []
    pure (Node.Call var.ctype name args)

/-- The argument-collecting loop of `function_call`. -/
def callArgs : Nat → List Node → PM (List Node)
  | 0, _ => throw (.panicE ("fuel"))
  | f+1, acc => do
    if ← consume_ty .TokenLeftBrac then pure acc
    else do
      if !acc.isEmpty then assert_ty .TokenComma
      let a ← assign f
      callArgs f (acc ++ [a])

/-- `postfix` from src/parse.rs. -/
def postfixP : Nat → PM Node
  | 0 => throw (.panicE ("fuel"))
  | f+1 => do
    let lhs ← primary f
    postfixLoop f lhs

/-- The `loop` of `postfix` from src/parse.rs: the two `if`s for `++`
and `--` run in the same iteration as the member/index chain, whose
`else` returns. -/
def postfixLoop : Nat → Node → PM Node
  | 0, _ => throw (.panicE ("fuel"))
  | f+1, lhs0 => do
    let lhs ← (do
      if ← consume_ty .TokenInc then pure (Node.IncDec NULL_TY 1 lhs0) else pure lhs0)
    let lhs ← (do
      if ← consume_ty .TokenDec then pure (Node.IncDec NULL_TY 2 lhs) else pure lhs)
    if ← consume_ty .TokenDot then do
      let name ← identTS
      postfixLoop f (Node.Dot NULL_TY lhs name)
    else if ← consume_ty .TokenArrow then do
      let name ← identTS
      postfixLoop f (Node.Dot NULL_TY (Node.Deref INT_TY lhs) name)
    else if ← consume_ty .TokenRightmiddleBrace then do
      let id ← assign f
      let lhs2 := Node.BinaryTree INT_TY .TokenAdd lhs id
      let newl := Node.Deref INT_TY lhs2
      assert_ty .TokenLeftmiddleBrace
      postfixLoop f newl
    else pure lhs

/-- `unary` from src/parse.rs. -/
def unary : Nat → PM Node
  | 0 => throw (.panicE ("fuel"))
  | f+1 => do
    if ← consume_ty .TokenInc then do
      let lhs ← unary f
      let rhs := Node.BinaryTree NULL_TY .TokenAdd lhs (Node.Num 1)
      pure (Node.Assign NULL_TY lhs rhs)
    else if ← consume_ty .TokenDec then do
      let lhs ← unary f
      let rhs := Node.BinaryTree NULL_TY .TokenSub lhs (Node.Num 1)
      pure (Node.Assign NULL_TY lhs rhs)
    else if ← consume_ty .TokenSub then do
      let rhs ← unary f
      pure (Node.BinaryTree NULL_TY .TokenSub (Node.Num 0) rhs)
    else if ← consume_ty .TokenStar then do
      let rhs ← unary f
      pure (Node.Deref INT_TY rhs)
    else if ← consume_ty .TokenAmpersand then do
      let rhs ← unary f
      pure (Node.Addr INT_TY rhs)
    else if ← consume_ty .TokenSizeof then do
      let e ← unary f
      pure (Node.Num (get_type e).size)
    else if ← consume_ty .TokenAlignof then do
      let e ← unary f
      pure (Node.Num (get_type e).align)
    else if ← consume_ty .TokenNot then do
      let e ← unary f
      pure (Node.Not e)
    else if ← consume_ty .TokenTilde then do
      let e ← unary f
      pure (Node.BinaryTree NULL_TY .TokenXor e (Node.Num (-1)))
    else postfixP f

/-- `mul` from src/parse.rs. -/
def mul : Nat → PM Node
  | 0 => throw (.panicE ("fuel"))
  | f+1 => do
    let lhs ← unary f
    mulLoop f lhs

/-- The `loop` of `mul`. -/
def mulLoop : Nat → Node → PM Node
  | 0, _ => throw (.panicE ("fuel"))
  | f+1, lhs => do
    if ← consume_ty .TokenStar then do
      let r ← unary f
      mulLoop f (Node.BinaryTree NULL_TY .TokenStar lhs r)
    else if ← consume_ty .TokenDiv then do
      let r ← unary f
      mulLoop f (Node.BinaryTree NULL_TY .TokenDiv lhs r)
    else if ← consume_ty .TokenMod then do
      let r ← unary f
      mulLoop f (Node.BinaryTree NULL_TY .TokenMod lhs r)
    else pure lhs

/-- `add` from src/parse.rs. -/
def addP : Nat → PM Node
  | 0 => throw (.panicE ("fuel"))
  | f+1 => do
    let lhs ← mul f
    addLoop f lhs

/-- The `loop` of `add` (note the short-circuit `&&` of the source: the
second `consume_ty` only runs when the first failed, and the operator is
read back from the token before the cursor). -/
def addLoop : Nat → Node → PM Node
  | 0, _ => throw (.panicE ("fuel"))
  | f+1, lhs => do
    let a ← consume_ty .TokenAdd
    let b ← (if a then pure false else consume_ty .TokenSub)
    if !a && !b then pure lhs
    else do
      let st ← get
      let t ← tokenAt (st.pos - 1)
      let rhs ← mul f
      addLoop f (Node.BinaryTree NULL_TY t.ty lhs rhs)

/-- `shift` from src/parse.rs. -/
def shift : Nat → PM Node
  | 0 => throw (.panicE ("fuel"))
  | f+1 => do
    let lhs ← addP f
    shiftLoop f lhs

/-- The `loop` of `shift`. -/
def shiftLoop : Nat → Node → PM Node
  | 0, _ => throw (.panicE ("fuel"))
  | f+1, lhs => do
    if ← consume_ty .TokenShl then do
      let r ← addP f
      shiftLoop f (Node.BinaryTree NULL_TY .TokenShl lhs r)
    else if ← consume_ty .TokenShr then do
      let r ← addP f
      shiftLoop f (Node.BinaryTree NULL_TY .TokenShr lhs r)
    else pure lhs

/-- `relational` from src/parse.rs: `<` and `<=` keep the operand order;
`>` and `>=` swap the operands and reuse `TokenLt` / `TokenLe`. -/
def relational : Nat → PM Node
  | 0 => throw (.panicE ("fuel"))
  | f+1 => do
    let lhs ← shift f
    relationalLoop f lhs

/-- The `loop` of `relational`. -/
def relationalLoop : Nat → Node → PM Node
  | 0, _ => throw (.panicE ("fuel"))
  | f+1, lhs => do
    if ← consume_ty .TokenLt then do
      let r ← shift f
      relationalLoop f (Node.BinaryTree INT_TY .TokenLt lhs r)
    else if ← consume_ty .TokenRt then do
      let r ← shift f
      relationalLoop f (Node.BinaryTree INT_TY .TokenLt r lhs)
    else if ← consume_ty .TokenLe then do
      let r ← shift f
      relationalLoop f (Node.BinaryTree INT_TY .TokenLe lhs r)
    else if ← consume_ty .TokenGe then do
      let r ← shift f
      relationalLoop f (Node.BinaryTree INT_TY .TokenLe r lhs)
    else pure lhs

/-- `equarity` from src/parse.rs. -/
def equarity : Nat → PM Node
  | 0 => throw (.panicE ("fuel"))
  | f+1 => do
    let lhs ← relational f
    equarityLoop f lhs

/-- The `loop` of `equarity`. -/
def equarityLoop : Nat → Node → PM Node
  | 0, _ => throw (.panicE ("fuel"))
  | f+1, lhs => do
    if ← consume_ty .TokenEqual then do
      let r ← relational f
      equarityLoop f (Node.Equal lhs r)
    else if ← consume_ty .TokenNe then do
      let r ← relational f
      equarityLoop f (Node.Ne lhs r)
    else pure lhs

/-- `bitand` from src/parse.rs. -/
def bitand : Nat → PM Node
  | 0 => throw (.panicE ("fuel"))
  | f+1 => do
    let lhs ← equarity f
    bitandLoop f lhs

/-- The `while` of `bitand`. -/
def bitandLoop : Nat → Node → PM Node
  | 0, _ => throw (.panicE ("fuel"))
  | f+1, lhs => do
    if ← consume_ty .TokenAmpersand then do
      let r ← equarity f
      bitandLoop f (Node.BinaryTree INT_TY .TokenAmpersand lhs r)
    else pure lhs

/-- `bitxor` from src/parse.rs. -/
def bitxor : Nat → PM Node
  | 0 => throw (.panicE ("fuel"))
  | f+1 => do
    let lhs ← bitand f
    bitxorLoop f lhs

/-- The `while` of `bitxor`. -/
def bitxorLoop : Nat → Node → PM Node
  | 0, _ => throw (.panicE ("fuel"))
  | f+1, lhs => do
    if ← consume_ty .TokenXor then do
      let r ← bitand f
      bitxorLoop f (Node.BinaryTree INT_TY .TokenXor lhs r)
    else pure lhs

/-- `bitor` from src/parse.rs. -/
def bitor : Nat → PM Node
  | 0 => throw (.panicE ("fuel"))
  | f+1 => do
    let lhs ← bitxor f
    bitorLoop f lhs

/-- The `while` of `bitor`. -/
def bitorLoop : Nat → Node → PM Node
  | 0, _ => throw (.panicE ("fuel"))
  | f+1, lhs => do
    if ← consume_ty .TokenOr then do
      let r ← bitxor f
      bitorLoop f (Node.BinaryTree INT_TY .TokenOr lhs r)
    else pure lhs

/-- `logand` from src/parse.rs. -/
def logand : Nat → PM Node
  | 0 => throw (.panicE ("fuel"))
  | f+1 => do
    let lhs ← bitor f
    logandLoop f lhs

/-- The `while` of `logand`. -/
def logandLoop : Nat → Node → PM Node
  | 0, _ => throw (.panicE ("fuel"))
  | f+1, lhs => do
    if ← consume_ty .TokenLogAnd then do
      let r ← bitor f
      logandLoop f (Node.BinaryTree INT_TY .TokenLogAnd lhs r)
    else pure lhs

/-- `logor` from src/parse.rs. -/
def logor : Nat → PM Node
  | 0 => throw (.panicE ("fuel"))
  | f+1 => do
    let lhs ← logand f
    logorLoop f lhs

/-- The `while` of `logor`. -/
def logorLoop : Nat → Node → PM Node
  | 0, _ => throw (.panicE ("fuel"))
  | f+1, lhs => do
    if ← consume_ty .TokenLogOr then do
      let r ← logand f
      logorLoop f (Node.BinaryTree INT_TY .TokenLogOr lhs r)
    else pure lhs

/-- `conditional` from src/parse.rs. -/
def conditional : Nat → PM Node
  | 0 => throw (.panicE ("fuel"))
  | f+1 => do
    let cond ← logor f
    if ← consume_ty .TokenQuestion then do
      let thenN ← expr f
      assert_ty .TokenColon
      let els ← conditional f
      pure (Node.Ternary NULL_TY cond thenN els)
    else pure cond

/-- `assign` from src/parse.rs: compound assignments duplicate the lhs
subtree into the rhs binary node. -/
def assign : Nat → PM Node
  | 0 => throw (.panicE ("fuel"))
  | f+1 => do
    let lhs ← conditional f
    match ← assignment_op with
    | some op =>
      let rhs ← assign f
      match op with
      | .TokenAssign => pure (Node.Assign NULL_TY lhs rhs)
      | _ => pure (Node.Assign NULL_TY lhs (Node.BinaryTree NULL_TY op lhs rhs))
    | none => pure lhs

/-- `expr` from src/parse.rs. -/
def expr : Nat → PM Node
  | 0 => throw (.panicE ("fuel"))
  | f+1 => do
    let lhs ← assign f
    if ← consume_ty .TokenComma then do
      let r ← expr f
      pure (Node.TupleExpr NULL_TY lhs r)
    else pure lhs

/-- `const_expr` from src/parse.rs: a non-`Num` expression prints
`expected Number.` to stderr and exits with status 0. -/
def const_expr : Nat → PM Node
  | 0 => throw (.panicE ("fuel"))
  | f+1 => do
    let e ← expr f
    match e with
    | .Num _ => pure e
    | _ => throw (.exitE 0 ("expected Number."))

/-- `decl_specifiers` from src/parse.rs. -/
def decl_specifiers : Nat → PM Ctype
  | 0 => throw (.panicE ("fuel"))
  | f+1 => do
    if ← consume_ty .TokenIdent then do
      modify (fun st => { st with pos := st.pos - 1 })
      let name ← identTS
      env_find_typedefs name
    else if ← consume_ty .TokenInt then pure INT_TY
    else if ← consume_ty .TokenChar then pure CHAR_TY
    else if ← consume_ty .TokenStruct then do
      let tag ← (do
        if ← consume_ty .TokenIdent then do
          modify (fun st => { st with pos := st.pos - 1 })
          identTS
        else pure (""))
      let mb_vec ← (do
        if ← consume_ty .TokenRightCurlyBrace then structMembers f []
        else pure [])
      if mb_vec.isEmpty then
        if tag.isEmpty then throw (.panicE ("bat struct definition."))
        else env_find_tags tag
      else do
        let struct_type := new_struct tag mb_vec
        if !tag.isEmpty then add_tags tag struct_type
        pure struct_type
    else if ← consume_ty .TokenTypeof then do
      assert_ty .TokenRightBrac
      let e ← assign f
      assert_ty .TokenLeftBrac
      pure (get_type e)
    else if ← consume_ty .TokenBool then pure BOOL_TY
    else if ← consume_ty .TokenVoid then pure VOID_TY
    else pure NULL_TY

/-- The member loop of the `struct` branch of `decl_specifiers`. -/
def structMembers : Nat → List (String × Ctype) → PM (List (String × Ctype))
  | 0, _ => throw (.panicE ("fuel"))
  | f+1, acc => do
    if ← consume_ty .TokenLeftCurlyBrace then pure acc
    else do
      let d ← declaration f false
      let acc := (match d with
        | .VarDef name var _ => acc ++ [(name, var.ctype)]
        | _ => acc)
      structMembers f acc

/-- `declarator` from src/parse.rs. -/
def declarator : Nat → Ctype → PM Node
  | 0, _ => throw (.panicE ("fuel"))
  | f+1, ty => do
    if ← consume_ty .TokenStar then declarator f ty.ptrTo
    else direct_decl f ty

/-- The bracket loop of `read_array` from src/parse.rs. -/
def readArraySizes : Nat → List Int → PM (List Int)
  | 0, _ => throw (.panicE ("fuel"))
  | f+1, acc => do
    if ← consume_ty .TokenRightmiddleBrace then
      if ← consume_ty .TokenLeftmiddleBrace then readArraySizes f (acc ++ [0])
      else do
        let len ← expr f
        match len with
        | .Num v => do
          assert_ty .TokenLeftmiddleBrace
          readArraySizes f (acc ++ [v])
        | _ => throw (.panicE ("array declaration is invalid"))
    else pure acc

/-- `read_array` from src/parse.rs: collect the bracketed sizes, then
apply them innermost-last (the source folds over the indices in reverse
order). -/
def read_array : Nat → Ctype → PM Ctype
  | 0, _ => throw (.panicE ("fuel"))
  | f+1, ty => do
    let sizes ← readArraySizes f []
    pure (sizes.reverse.foldl (fun t s => t.aryOf s) ty)

/-- `decl_init` from src/parse.rs: an `=` initializer is parsed by
`assign`; an array declaration stashes the variable in `ARRINI` first. -/
def decl_init : Nat → Node → PM Node
  | 0, _ => throw (.panicE ("fuel"))
  | f+1, node =>
    match node with
    | .VarDef name var init => do
      if ← consume_ty .TokenAssign then do
        (match var.ctype.ty with
          | .ARY => modify (fun st => { st with arrini := var })
          | _ => pure ())
        let rhs ← assign f
        pure (Node.VarDef name var (some rhs))
      else pure (Node.VarDef name var init)
    | _ => pure node

/-- `direct_decl` from src/parse.rs. -/
def direct_decl : Nat → Ctype → PM Node
  | 0, _ => throw (.panicE ("fuel"))
  | f+1, ty => do
    let ident_node ← (do
      if ← consume_ty .TokenIdent then do
        modify (fun st => { st with pos := st.pos - 1 })
        let name ← identTS
        let ct ← read_array f ty
        let var := { NULL_VAR with ctype := ct }
        pure (Node.VarDef name var none)
      else if ← consume_ty .TokenRightBrac then do
        let inner ← declarator f NULL_TY
        assert_ty .TokenLeftBrac
        let true_ty ← read_array f ty
        match new_ptr_to_replace_type (inner.nodesctype none) true_ty with
        | none => throw (.panicE ("unwrap"))
        | some t2 =>
          match inner with
          | .VarDef name var init => pure (Node.VarDef name { var with ctype := t2 } init)
          | _ => throw (.panicE ("direct_decl fun error."))
      else throw (.panicE ("bad direct declarator")))
    decl_init f ident_node

/-- `declaration` from src/parse.rs. -/
def declaration : Nat → Bool → PM Node
  | 0, _ => throw (.panicE ("fuel"))
  | f+1, newvar => do
    let ty ← decl_specifiers f
    let ident_node ← declarator f ty
    assert_ty .TokenSemi
    if !newvar then pure ident_node
    else
      match ident_node with
      | .VarDef name var none => do
        let _ ← envAddVar name var
        pure Node.NULL
      | .VarDef name var (some init) => do
        let st ← get
        let var2 := st.arrini
        set { st with arrini := NULL_VAR }
        let var := (match var2.ctype.ty with
          | .ARY => var2
          | _ => var)
        let var ← envAddVar name var
        let varnode := Node.VarRef var
        pure (Node.Expr (Node.Assign NULL_TY varnode init))
      | _ => throw (.panicE ("declaration node type must be VarDef."))

/-- `expr_stmt` from src/parse.rs. -/
def expr_stmt : Nat → PM Node
  | 0 => throw (.panicE ("fuel"))
  | f+1 => do
    let lhs ← expr f
    let _ ← consume_ty .TokenSemi
    pure (Node.Expr lhs)

/-- `stmt` from src/parse.rs. -/
def stmt : Nat → PM Node
  | 0 => throw (.panicE ("fuel"))
  | f+1 => do
    let t ← curToken
    match t.ty with
    | .TokenRet => do
      modify (fun st => { st with pos := st.pos + 1 })
      let lhs ← expr f
      assert_ty .TokenSemi
      pure (Node.Ret lhs)
    | .TokenIf => do
      modify (fun st => { st with pos := st.pos + 1 })
      assert_ty .TokenRightBrac
      let cond ← expr f
      assert_ty .TokenLeftBrac
      let thenN ← stmt f
      if ← consume_ty .TokenElse then
        if ← consume_ty .TokenIf then do
          modify (fun st => { st with pos := st.pos - 1 })
          let elifthen ← stmt f
          pure (Node.IfThen cond thenN (some elifthen))
        else do
          let elthen ← stmt f
          pure (Node.IfThen cond thenN (some elthen))
      else pure (Node.IfThen cond thenN none)
    | .TokenFor => do
      modify (fun st => { st with pos := st.pos + 1 })
      assert_ty .TokenRightBrac
      envInc
      let init ← (do
        if ← is_typename then do
          modify (fun st => { st with pos := st.pos - 1 })
          declaration f true
        else if !(← consume_ty .TokenSemi) then expr_stmt f
        else pure Node.NULL)
      let cond ← (do
        if !(← consume_ty .TokenSemi) then do
          let c ← expr f
          assert_ty .TokenSemi
          pure c
        else pure Node.NULL)
      let inc ← (do
        if !(← consume_ty .TokenLeftBrac) then do
          let i ← expr_stmt f
          assert_ty .TokenLeftBrac
          pure i
        else pure Node.NULL)
      let body ← stmt f
      envDec
      pure (Node.For init cond inc body)
    | .TokenWhile => do
      modify (fun st => { st with pos := st.pos + 1 })
      assert_ty .TokenRightBrac
      let cond ← expr f
      assert_ty .TokenLeftBrac
      let body ← stmt f
      pure (Node.For Node.NULL cond Node.NULL body)
    | .TokenDo => do
      modify (fun st => { st with pos := st.pos + 1 })
      let body ← stmt f
      assert_ty .TokenWhile
      assert_ty .TokenRightBrac
      let cond ← expr f
      assert_ty .TokenLeftBrac
      assert_ty .TokenSemi
      pure (Node.DoWhile body cond)
    | .TokenSwitch => do
      modify (fun st => { st with pos := st.pos + 1 })
      switch_loop_inc
      assert_ty .TokenRightBrac
      let cond ← expr f
      assert_ty .TokenLeftBrac
      let body ← stmt f
      let case_conds ← switch_loop_dec
      pure (Node.Switch cond body case_conds)
    | .TokenCase => do
      modify (fun st => { st with pos := st.pos + 1 })
      let val ← const_expr f
      assert_ty .TokenColon
      let body ← stmt f
      case_emit val
      pure (Node.Case val body)
    | .TokenRightCurlyBrace => compound_stmt f true
    | .TokenInt | .TokenChar | .TokenStruct | .TokenTypeof | .TokenBool =>
      declaration f true
    | .TokenSemi => do
      modify (fun st => { st with pos := st.pos + 1 })
      pure Node.NULL
    | .TokenTypedef => do
      modify (fun st => { st with pos := st.pos + 1 })
      let lhs ← declaration f false
      match lhs with
      | .VarDef name var none => do
        add_typedef name var.ctype
        pure Node.NULL
      | _ => throw (.panicE ("typedef error."))
    | .TokenEnum => do
      modify (fun st => { st with pos := st.pos + 1 })
      add_enum f
      pure Node.NULL
    | .TokenBreak => do
      modify (fun st => { st with pos := st.pos + 1 })
      pure Node.Break
    | .TokenContinue => do
      modify (fun st => { st with pos := st.pos + 1 })
      pure Node.Continue
    | _ => do
      if ← consume_ty .TokenIdent then
        if ← consume_ty .TokenIdent then do
          modify (fun st => { st with pos := st.pos - 2 })
          declaration f true
        else do
          modify (fun st => { st with pos := st.pos - 1 })
          expr_stmt f
      else expr_stmt f

/-- `compound_stmt` from src/parse.rs (note the asymmetry of the source:
the frame is pushed only when `newenv` holds, but always popped). -/
def compound_stmt : Nat → Bool → PM Node
  | 0, _ => throw (.panicE ("fuel"))
  | f+1, newenv => do
    assert_ty .TokenRightCurlyBrace
    if newenv then envInc
    let stmts ← compLoop f []
    envDec
    pure (Node.CompStmt stmts)

/-- The statement loop of `compound_stmt`. -/
def compLoop : Nat → List Node → PM (List Node)
  | 0, _ => throw (.panicE ("fuel"))
  | f+1, acc => do
    if ← consume_ty .TokenLeftCurlyBrace then pure acc
    else do
      let s ← stmt f
      compLoop f (acc ++ [s])

end

mutual

/-- `calc_gvarinit` from src/parse.rs: the assembler directives a global
initializer expression denotes (`none` models the `unwrap` panic on a
label-less variable reference). -/
def calc_gvarinit : Node → Option (List String)
  | .Num num =>
    let sz := (Node.nodesctype (.Num num) none).size
    if sz = 8 then some [(".quad ") ++ toString num]
    else if sz = 4 then some [(".long ") ++ toString num]
    else some [(".byte ") ++ toString num]
  | .ArrIni arrini => calcArrIni arrini
  | _ => some []

/-- The `for` over the array-initializer pairs in `calc_gvarinit`. -/
def calcArrIni : List (Node × Node) → Option (List String)
  | [] => some []
  | (_, rhs) :: rest =>
    let head := (match rhs with
      | .VarRef var => var.labelname.map (fun l => [(".quad ") ++ l])
      | _ => calc_gvarinit rhs)
    match head, calcArrIni rest with
    | some h, some t => some (h ++ t)
    | _, _ => none

end

/-- The first-token set that the `match` in `stmt` (src/parse.rs)
handles by a dedicated arm — the statement keywords, the
declaration-starting type keywords, and `TokenIdent` (whose arm is the
two-identifier lookahead); every token outside this set reaches the
default arm's expression-statement path directly. -/
def stmtTokens : TokenType → Bool
  | .TokenRet | .TokenIf | .TokenFor | .TokenWhile | .TokenDo
  | .TokenSwitch | .TokenCase | .TokenRightCurlyBrace
  | .TokenInt | .TokenChar | .TokenStruct | .TokenTypeof | .TokenBool
  | .TokenSemi | .TokenTypedef | .TokenEnum | .TokenBreak
  | .TokenContinue | .TokenIdent => true
  | _ => false

end Parse

/-! ## IR generation (src/gen_ir.rs)

The AST consumed by src/gen_ir.rs is the `Node`/`NodeType` of mir.rs,
which is not part of this snapshot (the parser of the snapshot is a
different compiler version); the `GNode`, `GType` and `GVar` types below
are modelled from their use in src/gen_ir.rs. -/

namespace GenIr

/-- `IrOp` from src/gen_ir.rs. -/
inductive IrOp : Type where
  | IrImm
  | IrMov
  | IrAdd (is_imm : Bool)
  | IrBpRel
  | IrSub (is_imm : Bool)
  | IrMul (is_imm : Bool)
  | IrDiv
  | IrRet
  | IrExpr
  | IrStore (size : Nat)
  | IrLoad (size : Nat)
  | IrLabel
  | IrUnless
  | IrJmp
  | IrCall (name : String) (len : Nat) (args : List Nat)
  | IrStoreArg (size : Nat)
  | IrLt
  | IrEqEq
  | IrNe
  | IrIf
  | IrLabelAddr (name : String)
  | IrOr
  | IrXor (is_imm : Bool) (val : Int)
  | IrAnd
  | IrLe
  | IrShl
  | IrShr
  | IrMod
  | IrNeg
  | IrKill
  | IrNop

/-- `Ir` from src/gen_ir.rs (`lhs`/`rhs` are register numbers, labels,
offsets or immediates depending on `op`, as in the `usize` fields of the
source). -/
structure Ir where
  op : IrOp
  lhs : Nat
  rhs : Nat

/-- `Ir::new`. -/
def Ir.new (ty : IrOp) (lhs rhs : Nat) : Ir := ⟨ty, lhs, rhs⟩

/-- `Ir::bittype` from src/gen_ir.rs: the IR opcode of a binary-tree
token; `none` models both panic arms (`tokeneof!!!` for `TokenEof` and
`bittype error.` for every other token — in particular there is no
arm for `TokenRt` or `TokenGe`). -/
def bittype : TokenType → Option IrOp
  | .TokenAdd => some (.IrAdd false)
  | .TokenSub => some (.IrSub false)
  | .TokenStar => some (.IrMul false)
  | .TokenDiv => some .IrDiv
  | .TokenLt => some .IrLt
  | .TokenLe => some .IrLe
  | .TokenShl => some .IrShl
  | .TokenShr => some .IrShr
  | .TokenMod => some .IrMod
  | .TokenAmpersand => some .IrAnd
  | .TokenOr => some .IrOr
  | .TokenXor => some (.IrXor false 1)
  | _ => none

/-- The `Ty` of mir.rs as used by src/gen_ir.rs (`gen_inc_scale`
matches on `Ty::PTR`). -/
inductive GTy : Type where
  | INT
  | PTR
  | ARY
  | CHAR
  | STRUCT
  | VOID
  | BOOL
  | NULL

/-- The `Type` of mir.rs as used by src/gen_ir.rs: fields `ty`,
`ptr_to`, `size`, `offset` and is_extern. -/
inductive GType : Type where
  | mk : GTy → Option GType → Nat → Nat → Bool → GType

/-- Field accessor: `ty`. -/
def GType.ty : GType → GTy
  | .mk t _ _ _ _ => t

/-- Field accessor: `ptr_to`. -/
def GType.ptr_to : GType → Option GType
  | .mk _ p _ _ _ => p

/-- Field accessor: `size`. -/
def GType.size : GType → Nat
  | .mk _ _ s _ _ => s

/-- Field accessor: `offset`. -/
def GType.offset : GType → Nat
  | .mk _ _ _ o _ => o

/-- Field accessor: is_extern. -/
def GType.is_extern : GType → Bool
  | .mk _ _ _ _ e => e

/-- The `int` type of mir.rs (size 4). -/
def INT_G : GType := .mk .INT none 4 0 false

/-- The `Var` of mir.rs as used by src/gen_ir.rs: fields `ctype`,
`offset`, `is_local` and `labelname`. -/
structure GVar where
  ctype : GType
  offset : Nat
  is_local : Bool
  labelname : Option String

/-- The `NodeType` of mir.rs, restricted to the constructors
src/gen_ir.rs matches on (every other constructor reaches a panic
arm, which the catch-all `throw`s of the generator model). -/
inductive GNode : Type where
  | Num (val : Int)
  | LogAnd (lhs rhs : GNode)
  | LogOr (lhs rhs : GNode)
  | BinaryTree (ctype : GType) (ty : TokenType) (lhs rhs : GNode)
  | Var (var : GVar)
  | Dot (ctype : GType) (expr : GNode) (name : String)
  | EqTree (ctype : GType) (lhs rhs : GNode)
  | Call (ctype : GType) (name : String) (args : List GNode)
  | Deref (ctype : GType) (lhs : GNode)
  | Addr (ctype : GType) (lhs : GNode)
  | EqEq (lhs rhs : GNode)
  | Ne (lhs rhs : GNode)
  | Not (expr : GNode)
  | Ternary (ctype : GType) (cond thenN els : GNode)
  | TupleExpr (ctype : GType) (lhs rhs : GNode)
  | Neg (expr : GNode)
  | IncDec (ctype : GType) (selector : Nat) (lhs : GNode)
  | StmtExpr (ctype : GType) (body : GNode)
  | NULL
  | Ret (lhs : GNode)
  | Expr (lhs : GNode)
  | IfThen (cond thenN : GNode) (elthen : Option GNode)
  | CompStmt (stmts : List GNode)
  | For (init cond inc body : GNode) (break_label : Nat)
  | DoWhile (body cond : GNode) (break_label : Nat)
  | VarDef (name : String) (var : GVar) (init : Option GNode)
  | Break (jmp_point : Nat)
  | Func (ctype : GType) (name : String) (args : List GNode) (body : GNode)
      (stacksize : Nat)

/-- `Node::nodesctype(None)` of mir.rs as used by the `Deref` arm of
`gen_expr`: the node's carried type, the null type when the node
carries none. -/
def GNode.nodesctype : GNode → GType
  | .BinaryTree c _ _ _ => c
  | .Dot c _ _ => c
  | .EqTree c _ _ => c
  | .Call c _ _ => c
  | .Deref c _ => c
  | .Addr c _ => c
  | .Ternary c _ _ _ => c
  | .TupleExpr c _ _ => c
  | .IncDec c _ _ => c
  | .StmtExpr c _ => c
  | .Var v => v.ctype
  | _ => .mk .NULL none 0 0 false

/-- The mutable globals of src/gen_ir.rs (`REGNO`, `RETURN_LABEL`,
`RETURN_REG`) together with the `LABEL` counter of src/parse.rs that
`new_label` increments. -/
structure GSt where
  regno : Nat
  label : Nat
  return_label : Nat
  return_reg : Nat

/-- `new_regno` from src/gen_ir.rs: pre-increment, returning the new
value. -/
def new_regno (s : GSt) : Nat × GSt :=
  (s.regno + 1, { s with regno := s.regno + 1 })

/-- `new_label` from src/parse.rs as called by the generator:
pre-increment, returning the new value. -/
def new_labelG (s : GSt) : Nat × GSt :=
  (s.label + 1, { s with label := s.label + 1 })

/-- Rust `as usize` on an `i32` (two's-complement reinterpretation into
64 bits). -/
def usizeOfI (v : Int) : Nat :=
  (v % (2:Int)^64).toNat

/-- `gen_inc_scale` from src/gen_ir.rs (`none` models the `unwrap`
panic on a pointer type without `ptr_to`). -/
def gen_inc_scale (ctype : GType) : Option Nat :=
  match ctype.ty with
  | .PTR =>
    match ctype.ptr_to with
    | some p => some p.size
    | none => none
  | _ => some 1

mutual

/-- `gen_binop` from src/gen_ir.rs.  Throughout the generator, the
`&mut Vec<Ir>` accumulator is modelled by returning the list of
instructions the call pushes, in push order; callers concatenate. -/
def gen_binop : Nat → IrOp → GNode → GNode → GSt →
    Except String (Nat × GSt × List Ir)
  | 0, _, _, _, _ => throw ("fuel")
  | f+1, irop, lhs, rhs, s => do
    let (r1, s1, d1) ← gen_expr f lhs s
    let (r2, s2, d2) ← gen_expr f rhs s1
    pure (r1, s2, d1 ++ d2 ++ [Ir.new irop r1 r2, Ir.new .IrKill r2 0])

/-- `gen_pre_inc` from src/gen_ir.rs. -/
def gen_pre_inc : Nat → GType → GNode → Int → GSt →
    Except String (Nat × GSt × List Ir)
  | 0, _, _, _, _ => throw ("fuel")
  | f+1, ctype, lhs, num, s => do
    let (r1, s1, d1) ← gen_lval f lhs s
    let (r2, s2) := new_regno s1
    match gen_inc_scale ctype with
    | none => throw ("unwrap none")
    | some scale =>
      pure (r2, s2, d1 ++ [Ir.new (.IrLoad ctype.size) r2 r1,
        Ir.new (.IrAdd true) r2 ((usizeOfI num * scale) % 2^64),
        Ir.new (.IrStore ctype.size) r1 r2, Ir.new .IrKill r1 0])

/-- `gen_post_inc` from src/gen_ir.rs. -/
def gen_post_inc : Nat → GType → GNode → Int → GSt →
    Except String (Nat × GSt × List Ir)
  | 0, _, _, _, _ => throw ("fuel")
  | f+1, ctype, lhs, num, s => do
    let (r, s1, d1) ← gen_pre_inc f ctype lhs num s
    match gen_inc_scale ctype with
    | none => throw ("unwrap none")
    | some scale =>
      pure (r, s1, d1 ++ [Ir.new (.IrSub true) r ((usizeOfI num * scale) % 2^64)])

/-- `gen_lval` from src/gen_ir.rs. -/
def gen_lval : Nat → GNode → GSt → Except String (Nat × GSt × List Ir)
  | 0, _, _ => throw ("fuel")
  | f+1, node, s =>
    match node with
    | .Deref _ e => gen_expr f e s
    | .Var var =>
      let (r, s1) := new_regno s
      if var.is_local then
        pure (r, s1, [Ir.new .IrBpRel r var.offset])
      else
        match var.labelname with
        | some l => pure (r, s1, [Ir.new (.IrLabelAddr l) r 0])
        | none => throw ("unwrap none")
    | .Dot ctype e _ => do
      let (r1, s1, d1) ← gen_lval f e s
      pure (r1, s1, d1 ++ [Ir.new (.IrAdd true) r1 ctype.offset])
    | _ => throw ("not an lvalue")

/-- `gen_expr` from src/gen_ir.rs. -/
def gen_expr : Nat → GNode → GSt → Except String (Nat × GSt × List Ir)
  | 0, _, _ => throw ("fuel")
  | f+1, node, s =>
    match node with
    | .Num val =>
      let (r, s1) := new_regno s
      pure (r, s1, [Ir.new .IrImm r (usizeOfI val)])
    | .LogAnd lhs rhs => do
      let (r1, s1, d1) ← gen_expr f lhs s
      let (x, s2) := new_labelG s1
      let (r2, s3, d2) ← gen_expr f rhs s2
      pure (r1, s3, d1 ++ [Ir.new .IrUnless r1 x] ++ d2 ++
        [Ir.new .IrMov r1 r2, Ir.new .IrKill r2 0, Ir.new .IrUnless r1 x,
         Ir.new .IrImm r1 1, Ir.new .IrLabel x 0])
    | .LogOr lhs rhs => do
      let (r1, s1, d1) ← gen_expr f lhs s
      let (x, s2) := new_labelG s1
      let (y, s3) := new_labelG s2
      let (r2, s4, d2) ← gen_expr f rhs s3
      pure (r1, s4, d1 ++
        [Ir.new .IrUnless r1 x, Ir.new .IrImm r1 1, Ir.new .IrJmp y 0,
         Ir.new .IrLabel x 0] ++ d2 ++
        [Ir.new .IrMov r1 r2, Ir.new .IrKill r2 0, Ir.new .IrUnless r1 y,
         Ir.new .IrImm r1 1, Ir.new .IrLabel y 0])
    | .BinaryTree _ ty lhs rhs => do
      let (lhi, s1, d1) ← gen_expr f lhs s
      let (rhi, s2, d2) ← gen_expr f rhs s1
      if ttBeq ty .TokenTilde then
        pure (lhi, s2, d1 ++ d2 ++
          [Ir.new .IrKill rhi 0, Ir.new (.IrXor true (-1)) lhi 1])
      else
        match bittype ty with
        | some op => pure (lhi, s2, d1 ++ d2 ++
            [Ir.new op lhi rhi, Ir.new .IrKill rhi 0])
        | none => throw ("bittype error.")
    | .Var var => do
      let (lhi, s1, d1) ← gen_lval f (.Var var) s
      pure (lhi, s1, d1 ++ [Ir.new (.IrLoad var.ctype.size) lhi lhi])
    | .Dot ctype e nm => do
      let (lhi, s1, d1) ← gen_lval f (.Dot ctype e nm) s
      pure (lhi, s1, d1 ++ [Ir.new (.IrLoad ctype.size) lhi lhi])
    | .EqTree ctype lhs rhs => do
      let (lhi, s1, d1) ← gen_lval f lhs s
      let (rhi, s2, d2) ← gen_expr f rhs s1
      pure (rhi, s2, d1 ++ d2 ++
        [Ir.new (.IrStore ctype.size) lhi rhi, Ir.new .IrKill lhi 0])
    | .Call _ ident callarg => do
      let (args, s1, d1) ← gen_expr_list f callarg s
      let (r, s2) := new_regno s1
      pure (r, s2, d1 ++ [Ir.new (.IrCall ident args.length args) r 0] ++
        args.map (fun a => Ir.new .IrKill a 0))
    | .Deref _ lhs => do
      let (r, s1, d1) ← gen_expr f lhs s
      match (GNode.nodesctype lhs).ptr_to with
      | some pt => pure (r, s1, d1 ++ [Ir.new (.IrLoad pt.size) r r])
      | none => throw ("unwrap none")
    | .Addr _ lhs => gen_lval f lhs s
    | .EqEq lhs rhs => gen_binop f .IrEqEq lhs rhs s
    | .Ne lhs rhs => gen_binop f .IrNe lhs rhs s
    | .Not e => do
      let (r1, s1, d1) ← gen_expr f e s
      let (r2, s2) := new_regno s1
      pure (r1, s2, d1 ++
        [Ir.new .IrImm r2 0, Ir.new .IrEqEq r1 r2, Ir.new .IrKill r2 0])
    | .Ternary _ cond thenN els => do
      let (x, s1) := new_labelG s
      let (y, s2) := new_labelG s1
      let (r, s3, d1) ← gen_expr f cond s2
      let (r2, s4, d2) ← gen_expr f thenN s3
      let (r3, s5, d3) ← gen_expr f els s4
      pure (r, s5, d1 ++ [Ir.new .IrUnless r x] ++ d2 ++
        [Ir.new .IrMov r r2, Ir.new .IrKill r2 0, Ir.new .IrJmp y 0,
         Ir.new .IrLabel x 0] ++ d3 ++
        [Ir.new .IrMov r r3, Ir.new .IrKill r3 0, Ir.new .IrLabel y 0])
    | .TupleExpr _ lhs rhs => do
      let (rl, s1, d1) ← gen_expr f lhs s
      let (rr, s2, d2) ← gen_expr f rhs s1
      pure (rr, s2, d1 ++ [Ir.new .IrKill rl 0] ++ d2)
    | .Neg e => do
      let (r, s1, d1) ← gen_expr f e s
      pure (r, s1, d1 ++ [Ir.new .IrNeg r 0])
    | .IncDec ctype selector lhs =>
      if selector = 1 then gen_post_inc f ctype lhs 1 s
      else gen_post_inc f ctype lhs (-1) s
    | .StmtExpr _ body => do
      let orig_label := s.return_label
      let orig_reg := s.return_reg
      let s1 : GSt := { s with label := s.label + 1, regno := s.regno + 1 }
      let s2 : GSt := { s1 with return_label := s1.label, return_reg := s1.regno }
      let r := s2.return_reg
      let (s3, d1) ← gen_stmt f body s2
      pure (r, { s3 with return_label := orig_label, return_reg := orig_reg },
        d1 ++ [Ir.new .IrLabel s3.return_label 0])
    | _ => throw ("gen_expr NodeType error.")

/-- `gen_stmt` from src/gen_ir.rs. -/
def gen_stmt : Nat → GNode → GSt → Except String (GSt × List Ir)
  | 0, _, _ => throw ("fuel")
  | f+1, node, s =>
    match node with
    | .NULL => pure (s, [])
    | .Ret lhs => do
      let (lhi, s1, d1) ← gen_expr f lhs s
      if s1.return_label > 0 then
        pure (s1, d1 ++ [Ir.new .IrMov s1.return_reg lhi, Ir.new .IrKill lhi 0,
          Ir.new .IrJmp s1.return_label 0])
      else
        pure (s1, d1 ++ [Ir.new .IrRet lhi 0, Ir.new .IrKill lhi 0])
    | .Expr lhs => do
      let (r, s1, d1) ← gen_expr f lhs s
      pure (s1, d1 ++ [Ir.new .IrKill r 0])
    | .IfThen cond thenN elthen => do
      let (lhi, s1, d1) ← gen_expr f cond s
      let (x1, s2) := new_labelG s1
      let (x2, s3) := new_labelG s2
      let (s4, d2) ← gen_stmt f thenN s3
      match elthen with
      | some elnode => do
        let (s5, d3) ← gen_stmt f elnode s4
        pure (s5, d1 ++ [Ir.new .IrUnless lhi x1, Ir.new .IrKill lhi 0] ++ d2 ++
          [Ir.new .IrJmp x2 0, Ir.new .IrLabel x1 0] ++ d3 ++
          [Ir.new .IrLabel x2 0])
      | none =>
        pure (s4, d1 ++ [Ir.new .IrUnless lhi x1, Ir.new .IrKill lhi 0] ++ d2 ++
          [Ir.new .IrLabel x1 0])
    | .CompStmt stmts => gen_stmt_list f stmts s
    | .For init cond inc body break_label => do
      let (x, s1) := new_labelG s
      let (y, s2) := new_labelG s1
      let (s3, dInit) ← gen_stmt f init s2
      let (s4, dCond) ← gen_for_cond f cond s3 y
      let (s5, dBody) ← gen_stmt f body s4
      let (s6, dInc) ← gen_stmt f inc s5
      pure (s6, dInit ++ [Ir.new .IrLabel x 0] ++ dCond ++ dBody ++ dInc ++
        [Ir.new .IrJmp x 0, Ir.new .IrLabel y 0, Ir.new .IrLabel break_label 0])
    | .DoWhile body cond break_label => do
      let (x, s1) := new_labelG s
      let (s2, dBody) ← gen_stmt f body s1
      let (r, s3, dCond) ← gen_expr f cond s2
      pure (s3, [Ir.new .IrLabel x 0] ++ dBody ++ dCond ++
        [Ir.new .IrIf r x, Ir.new .IrKill r 0, Ir.new .IrLabel break_label 0])
    | .VarDef _ var ini =>
      match ini with
      | some rhs => do
        let (r2, s1, d1) ← gen_expr f rhs s
        let (r1, s2) := new_regno s1
        pure (s2, d1 ++ [Ir.new .IrBpRel r1 var.offset,
          Ir.new (.IrStore var.ctype.size) r1 r2, Ir.new .IrKill r1 0,
          Ir.new .IrKill r2 0])
      | none => pure (s, [])
    | .Break jmp_point => pure (s, [Ir.new .IrJmp jmp_point 0])
    | _ => throw ("unexpeceted node")

/-- The match on `cond.op` inside the `For` arm of `gen_stmt` from
src/gen_ir.rs: a `NULL` condition emits nothing, any other condition is
evaluated, tested with `IrUnless` against the exit label, and its
register killed. -/
def gen_for_cond : Nat → GNode → GSt → Nat → Except String (GSt × List Ir)
  | 0, _, _, _ => throw ("fuel")
  | f+1, cond, s, y =>
    match cond with
    | .NULL => pure (s, [])
    | c => do
      let (r2, s4, dc) ← gen_expr f c s
      pure (s4, dc ++ [Ir.new .IrUnless r2 y, Ir.new .IrKill r2 0])

/-- The `for arg in callarg` loop of the `Call` arm of `gen_expr`. -/
def gen_expr_list : Nat → List GNode → GSt →
    Except String (List Nat × GSt × List Ir)
  | 0, _, _ => throw ("fuel")
  | _+1, [], s => pure ([], s, [])
  | f+1, a :: rest, s => do
    let (r, s1, d1) ← gen_expr f a s
    let (rs, s2, d2) ← gen_expr_list f rest s1
    pure (r :: rs, s2, d1 ++ d2)

/-- The `for stmt in lhs` loop of the `CompStmt` arm of `gen_stmt`. -/
def gen_stmt_list : Nat → List GNode → GSt → Except String (GSt × List Ir)
  | 0, _, _ => throw ("fuel")
  | _+1, [], s => pure (s, [])
  | f+1, a :: rest, s => do
    let (s1, d1) ← gen_stmt f a s
    let (s2, d2) ← gen_stmt_list f rest s1
    pure (s2, d1 ++ d2)

end

/-- The `store_arg` loop of `gen_ir` from src/gen_ir.rs. -/
def store_args : List GNode → Nat → Except String (List Ir)
  | [], _ => pure []
  | a :: rest, i =>
    match a with
    | .VarDef _ var _ => do
      let d ← store_args rest (i+1)
      pure (Ir.new (.IrStoreArg var.ctype.size) var.offset i :: d)
    | _ => throw ("Illegal function parameter.")

/-- The per-function body of the `for funode` loop of `gen_ir` from
src/gen_ir.rs: reset `REGNO` to 1, skip extern functions, store the
arguments, then generate the body (`none` models the `continue`). -/
def gen_ir_fun (f : Nat) (funode : GNode) (s : GSt) :
    Except String (Option (String × List Ir × Nat) × GSt) :=
  let s0 : GSt := { s with regno := 1 }
  match funode with
  | .Func ctype name args body stacksize =>
    if GType.is_extern ctype then pure (none, s)
    else do
      let dArgs ← store_args args 0
      let (s1, dBody) ← gen_stmt f body s0
      pure (some (name, dArgs ++ dBody, stacksize), s1)
  | _ => throw ("should be func node at gen_ir")

/-! ### Register accounting over the emitted IR -/

/-- Does the opcode write its `lhs` register?  (`IrStore`'s `lhs` is the
address register, which is only read; `IrKill` is bookkeeping, not a
write.) -/
def lhsRegW : IrOp → Bool
  | .IrImm | .IrMov | .IrBpRel | .IrLabelAddr _ | .IrCall _ _ _
  | .IrLoad _ | .IrNeg
  | .IrAdd _ | .IrSub _ | .IrMul _ | .IrDiv
  | .IrLt | .IrLe | .IrEqEq | .IrNe
  | .IrOr | .IrXor _ _ | .IrAnd | .IrShl | .IrShr | .IrMod => true
  | _ => false

/-- Does the opcode read its `lhs` register?  (The two-address binary
opcodes read and write `lhs`; `IrStore` reads it as the store address;
`IrRet`, `IrUnless` and `IrIf` read it as an operand.) -/
def lhsRegR : IrOp → Bool
  | .IrAdd _ | .IrSub _ | .IrMul _ | .IrDiv
  | .IrLt | .IrLe | .IrEqEq | .IrNe
  | .IrOr | .IrXor _ _ | .IrAnd | .IrShl | .IrShr | .IrMod | .IrNeg
  | .IrStore _ | .IrRet | .IrUnless | .IrIf => true
  | _ => false

/-- Is the `rhs` field a register operand for this opcode?  (For the
immediate forms of `IrAdd`/`IrSub`/`IrMul`/`IrXor` it is an immediate;
for `IrUnless`/`IrIf`/`IrLoad`... the register-`rhs` opcodes are exactly
the register-register arithmetic, `IrMov`, and the memory pair.) -/
def rhsReg : IrOp → Bool
  | .IrMov | .IrLoad _ | .IrStore _
  | .IrAdd false | .IrSub false | .IrMul false | .IrXor false _
  | .IrDiv | .IrLt | .IrLe | .IrEqEq | .IrNe
  | .IrOr | .IrAnd | .IrShl | .IrShr | .IrMod => true
  | _ => false

/-- Is the instruction `Kill(r)`? -/
def isKillI (i : Ir) (r : Nat) : Bool :=
  match i.op with
  | .IrKill => i.lhs = r
  | _ => false

/-- Does the instruction define (write) register `r`? -/
def writesTo (i : Ir) (r : Nat) : Bool :=
  lhsRegW i.op && i.lhs = r

/-- Does the instruction mention register `r` in any register position
(written, read, a call argument, or killed)? -/
def touches (i : Ir) (r : Nat) : Bool :=
  ((lhsRegW i.op || lhsRegR i.op) && i.lhs = r) || (rhsReg i.op && i.rhs = r) ||
  (match i.op with
   | .IrCall _ _ args => r ∈ args
   | _ => false) ||
  isKillI i r

/-- No instruction of the list kills `r`. -/
def noKill (c : List Ir) (r : Nat) : Bool := c.all (fun i => !isKillI i r)

/-- No instruction of the list mentions `r`. -/
def noTouch (c : List Ir) (r : Nat) : Bool := c.all (fun i => !touches i r)

/-- The number of instructions of the list that define `r`. -/
def defCount (c : List Ir) (r : Nat) : Nat :=
  (c.filter (fun i => writesTo i r)).length

/-- The number of `Kill(r)` instructions of the list. -/
def killCount (c : List Ir) (r : Nat) : Nat :=
  (c.filter (fun i => isKillI i r)).length

/-- Register `r` is killed exactly once in the list, and never mentioned
again after its kill: the list splits as `pre ++ Kill(r) :: post` with no
kill of `r` in `pre` and no mention of `r` in `post`. -/
def killedOnceLast (c : List Ir) (r : Nat) : Prop :=
  ∃ pre post, c = pre ++ Ir.new .IrKill r 0 :: post ∧
    noKill pre r = true ∧ noTouch post r = true

/-- The state well-formedness the generator maintains: whenever a
statement-expression return label is live, the corresponding return
register is one of the already-allocated registers. -/
def GoodSt (s : GSt) : Prop := 0 < s.return_label → s.return_reg ≤ s.regno

/-- The concrete body `{ int a; return a; }` of the C1 counterexample:
a local `int a` at stack offset 4, declared and then returned. -/
def aVar : GVar := ⟨INT_G, 4, true, none⟩

/-- The C1 counterexample function node: `int main() { int a; return a; }`. -/
def mainNode : GNode :=
  .Func INT_G ("main") []
    (.CompStmt [.VarDef ("a") aVar none, .Ret (.Var aVar)]) 4

/-- The IR the generator emits for `mainNode`. -/
def mainIrs : List Ir :=
  [Ir.new .IrBpRel 2 4, Ir.new (.IrLoad 4) 2 2, Ir.new .IrRet 2 0,
   Ir.new .IrKill 2 0]

/-- The register contract of one expression-generation call: the result
register is freshly allocated; the return label/register globals are
restored; already-allocated registers are never mentioned (when a
statement-expression return label is live, its return register excepted) (and none is
ever killed, the return register included); registers beyond the final
allocation point are never mentioned; every register allocated during
the call other than the result is killed exactly once, with no mention
after its kill; the result register is not killed. -/
def ExprSpec (s : GSt) (rr : Nat) (s' : GSt) (d : List Ir) : Prop :=
  s.regno < rr ∧ rr ≤ s'.regno ∧
  s.label ≤ s'.label ∧
  s'.return_label = s.return_label ∧ s'.return_reg = s.return_reg ∧
  noKill d rr = true ∧
  (∀ r, r ≤ s.regno → noKill d r = true) ∧
  (∀ r, r ≤ s.regno → (0 < s.return_label → r ≠ s.return_reg) →
    noTouch d r = true) ∧
  (∀ r, s'.regno < r → noTouch d r = true) ∧
  (∀ r, s.regno < r → r ≤ s'.regno → r ≠ rr → killedOnceLast d r)

/-- The register contract of one statement-generation call: as for
expressions, but with no result register — every register allocated
during the call is killed exactly once, with no mention after its
kill. -/
def StmtSpec (s : GSt) (s' : GSt) (d : List Ir) : Prop :=
  s.regno ≤ s'.regno ∧ s.label ≤ s'.label ∧
  s'.return_label = s.return_label ∧ s'.return_reg = s.return_reg ∧
  (∀ r, r ≤ s.regno → noKill d r = true) ∧
  (∀ r, r ≤ s.regno → (0 < s.return_label → r ≠ s.return_reg) →
    noTouch d r = true) ∧
  (∀ r, s'.regno < r → noTouch d r = true) ∧
  (∀ r, s.regno < r → r ≤ s'.regno → killedOnceLast d r)

/-- The register contract of the call-argument loop: the argument
result registers are pairwise distinct, freshly allocated and not yet
killed; every other register allocated during the loop is killed
exactly once, with no mention after its kill. -/
def ListSpec (s : GSt) (rs : List Nat) (s' : GSt) (d : List Ir) : Prop :=
  s.regno ≤ s'.regno ∧ s.label ≤ s'.label ∧
  s'.return_label = s.return_label ∧ s'.return_reg = s.return_reg ∧
  List.Pairwise (fun a b => a ≠ b) rs ∧
  (∀ a ∈ rs, s.regno < a ∧ a ≤ s'.regno ∧ noKill d a = true) ∧
  (∀ r, r ≤ s.regno → noKill d r = true) ∧
  (∀ r, r ≤ s.regno → (0 < s.return_label → r ≠ s.return_reg) →
    noTouch d r = true) ∧
  (∀ r, s'.regno < r → noTouch d r = true) ∧
  (∀ r, s.regno < r → r ≤ s'.regno → r ∉ rs → killedOnceLast d r)

/-- The register contracts of all generator functions at a given fuel. -/
def SpecAll (f : Nat) : Prop :=
  (∀ op n1 n2 s rr s' d, (op = .IrEqEq ∨ op = .IrNe) → GoodSt s →
    gen_binop f op n1 n2 s = .ok (rr, s', d) → ExprSpec s rr s' d) ∧
  (∀ ct n num s rr s' d, GoodSt s →
    gen_pre_inc f ct n num s = .ok (rr, s', d) → ExprSpec s rr s' d) ∧
  (∀ ct n num s rr s' d, GoodSt s →
    gen_post_inc f ct n num s = .ok (rr, s', d) → ExprSpec s rr s' d) ∧
  (∀ n s rr s' d, GoodSt s → gen_lval f n s = .ok (rr, s', d) →
    ExprSpec s rr s' d) ∧
  (∀ n s rr s' d, GoodSt s → gen_expr f n s = .ok (rr, s', d) →
    ExprSpec s rr s' d) ∧
  (∀ n s s' d, GoodSt s → gen_stmt f n s = .ok (s', d) → StmtSpec s s' d) ∧
  (∀ c s y s' d, GoodSt s → gen_for_cond f c s y = .ok (s', d) →
    StmtSpec s s' d) ∧
  (∀ ns s rs s' d, GoodSt s → gen_expr_list f ns s = .ok (rs, s', d) →
    ListSpec s rs s' d) ∧
  (∀ ns s s' d, GoodSt s → gen_stmt_list f ns s = .ok (s', d) →
    StmtSpec s s' d)

end GenIr


/-! ## Semantic analysis (src/sema.rs)

The src/sema.rs of the snapshot operates on the `Node`/`Type` of an
older compiler version than the snapshot's parse.rs; `SType`, `SVar`,
`SNode` and `SEnv` below are modelled from their use in src/sema.rs.
`size_of`/`align_of` are modelled from the spec: `int` has size and
alignment 4, `char` 1 and 1, a pointer 8 and 8, an array of `n`
elements the element alignment and `n` times the element size. -/

namespace Sema

/-- The `Ty` of the sema-side `Type`. -/
inductive STy : Type where
  | INT
  | CHAR
  | PTR
  | ARY
  | VOID
deriving DecidableEq

/-- The sema-side `Type`: `ty`, `ptr_to`, `ary_to` and the array
length. -/
inductive SType : Type where
  | mk : STy → Option SType → Option SType → Nat → SType

/-- Field accessor: `ty`. -/
def SType.ty : SType → STy
  | .mk t _ _ _ => t

/-- Field accessor: `ptr_to`. -/
def SType.ptr_to : SType → Option SType
  | .mk _ p _ _ => p

/-- Field accessor: `ary_to`. -/
def SType.ary_to : SType → Option SType
  | .mk _ _ a _ => a

/-- Field accessor: the array length. -/
def SType.len : SType → Nat
  | .mk _ _ _ l => l

/-- `Type::ptr_to(self)`: the pointer type to `self`. -/
def SType.ptrTo (t : SType) : SType := .mk .PTR (some t) none 0

/-- The `int` type. -/
def INT_S : SType := .mk .INT none none 0

/-- `Type::size_of`, modelled from the spec (see the section comment). -/
def SType.size_of : SType → Nat
  | .mk t _ a l =>
    match t with
    | .INT => 4
    | .CHAR => 1
    | .PTR => 8
    | .VOID => 0
    | .ARY =>
      match a with
      | some e => l * SType.size_of e
      | none => 0
  termination_by structural t => t

/-- `Type::align_of`, modelled from the spec (see the section comment). -/
def SType.align_of : SType → Nat
  | .mk t _ a _ =>
    match t with
    | .INT => 4
    | .CHAR => 1
    | .PTR => 8
    | .VOID => 0
    | .ARY =>
      match a with
      | some e => SType.align_of e
      | none => 0
  termination_by structural t => t

/-- `sema::Var`. -/
structure SVar where
  ctype : SType
  offset : Nat
  is_local : Bool
  ident : String
  strname : String
  is_extern : Bool

/-- The `NodeType` of the sema-side `Node`, restricted to the
constructors src/sema.rs matches on. -/
inductive SNode : Type where
  | Num (val : Int)
  | BinaryTree (ctype : SType) (op : TokenType) (lhs rhs : SNode)
  | Ret (lhs : SNode)
  | Expr (lhs : SNode)
  | CompStmt (stmts : List SNode)
  | StmtExpr (ctype : SType) (body : SNode)
  | Ident (name : String)
  | Lvar (ctype : SType) (offset : Nat)
  | Gvar (ctype : SType) (name : String)
  | EqTree (ctype : SType) (lhs rhs : SNode)
  | IfThen (cond thenN : SNode) (elthen : Option SNode)
  | Call (name : String) (args : List SNode)
  | Func (name : String) ( is_extern : Bool) (args : List SNode)
      (body : SNode) (stacksize : Nat)
  | LogAnd (lhs rhs : SNode)
  | LogOr (lhs rhs : SNode)
  | For (init cond inc body : SNode)
  | VarDef (ctype : SType) ( is_extern : Bool) (ident : String)
      (offset : Nat) (init : Option SNode)
  | Deref (ctype : SType) (lhs : SNode)
  | Addr (ctype : SType) (lhs : SNode)
  | Sizeof (ctype : SType) (val : Int) (lhs : SNode)
  | Str (ctype : SType) (strname : String) (label : Nat)
  | EqEq (lhs rhs : SNode)
  | Ne (lhs rhs : SNode)
  | DoWhile (body cond : SNode)
  | Alignof (expr : SNode)
  | NULL

/-- `Node::hasctype` of the sema-side node (modelled from its use: the
constructors that carry a type). -/
def SNode.hasctype : SNode → Bool
  | .BinaryTree _ _ _ _ | .StmtExpr _ _ | .Lvar _ _ | .Gvar _ _
  | .EqTree _ _ _ | .VarDef _ _ _ _ _ | .Deref _ _ | .Addr _ _
  | .Sizeof _ _ _ | .Str _ _ _ => true
  | _ => false

/-- `Node::nodesctype` of the sema-side node: the carried type
(`void` when the node carries none). -/
def SNode.nodesctype : SNode → SType
  | .BinaryTree c _ _ _ => c
  | .StmtExpr c _ => c
  | .Lvar c _ => c
  | .Gvar c _ => c
  | .EqTree c _ _ => c
  | .VarDef c _ _ _ _ => c
  | .Deref c _ => c
  | .Addr c _ => c
  | .Sizeof c _ _ => c
  | .Str c _ _ => c
  | _ => .mk .VOID none none 0

/-- Is the node an `Addr` wrapper? -/
def SNode.isAddr : SNode → Bool
  | .Addr _ _ => true
  | _ => false

/-- `Node::checklval` (the old node type's lvalues: `Lvar`, `Gvar` and
`Deref`, as in the snapshot parse.rs's `checklval` for the newer node
type; everything else panics `not an lvalue`). -/
def checklval : SNode → Except String Unit
  | .Lvar _ _ | .Gvar _ _ | .Deref _ _ => pure ()
  | _ => throw ("not an lvalue")

/-- `sema::Env`: a hash table of variables plus the enclosing
environment. -/
inductive SEnv : Type where
  | mk : List (String × SVar) → Option SEnv → SEnv

/-- Field accessor: `vars`. -/
def SEnv.vars : SEnv → List (String × SVar)
  | .mk v _ => v

/-- Field accessor: `next`. -/
def SEnv.next : SEnv → Option SEnv
  | .mk _ n => n

/-- `Env::find`: innermost frame first, then the chain. -/
def SEnv.find : SEnv → String → Option SVar
  | .mk vs nx, n =>
    match lhmGet n vs with
    | some v => some v
    | none =>
      match nx with
      | some e => SEnv.find e n
      | none => none
  termination_by structural e _ => e

/-- Insert into the innermost frame (`env.vars.insert`). -/
def SEnv.insert (e : SEnv) (n : String) (v : SVar) : SEnv :=
  .mk (lhmInsert n v e.vars) e.next

/-- The mutable globals of src/sema.rs: `STACKSIZE`, `STRLABEL` and
`GVARS`. -/
structure SSt where
  stacksize : Nat
  strlabel : Nat
  gvars : List SVar

/-- `sema::roundup` (the `usize` variant of the parser's `roundup`:
`(x + align - 1) & !(align - 1)` on 64 bits). -/
def roundupN (x align : Nat) : Nat :=
  ((x + align - 1) % 2^64) &&& ((2^64 - 1) ^^^ ((align - 1) % 2^64))

/-- `maybe_decay` from src/sema.rs: under the decay flag, an
array-typed variable reference is wrapped in an `Addr` node whose type
is the pointer to the element type (the `unwrap` of a missing `ary_to`
is the `none` throw); a non-variable node panics. -/
def maybe_decay (node : SNode) (decay : Bool) : Except String SNode :=
  match node with
  | .Lvar ctype _ | .Gvar ctype _ =>
    if decay && ctype.ty = .ARY then
      match ctype.ary_to with
      | some at2 => pure (.Addr (SType.ptrTo at2) node)
      | none => throw ("unwrap none")
    else pure node
  | _ => throw ("maybe_decay type error")

/-- `new_global` from src/sema.rs. -/
def new_global (ctype : SType) (ident : String) (strname : Option String)
    ( is_extern : Bool) : SVar :=
  ⟨ctype, 0, false, ident, strname.getD (""), is_extern⟩

mutual

/-- `walk` from src/sema.rs, with the `&mut Env` and the module globals
threaded explicitly. -/
def walk : Nat → SNode → SEnv → Bool → SSt →
    Except String (SNode × SEnv × SSt)
  | 0, _, _, _, _ => throw ("fuel")
  | f+1, node, env, decay, st =>
    match node with
    | .Num val => pure (.Num val, env, st)
    | .BinaryTree _ op lhs rhs => do
      let (lhs2, env1, st1) ← walk f lhs env true st
      let (rhs2, env2, st2) ← walk f rhs env1 true st1
      let ctype := if lhs2.hasctype then lhs2.nodesctype else INT_S
      if ttBeq op .TokenAdd || ttBeq op .TokenSub then
        if rhs2.hasctype && rhs2.nodesctype.ty = .PTR then
          if lhs2.hasctype && lhs2.nodesctype.ty = .PTR then
            throw ("pointer +- pointer is not defind.")
          else
            pure (.BinaryTree rhs2.nodesctype op lhs2 rhs2, env2, st2)
        else pure (.BinaryTree ctype op lhs2 rhs2, env2, st2)
      else pure (.BinaryTree ctype op lhs2 rhs2, env2, st2)
    | .Ret lhs => do
      let (l2, env1, st1) ← walk f lhs env true st
      pure (.Ret l2, env1, st1)
    | .Expr lhs => do
      let (l2, env1, st1) ← walk f lhs env true st
      pure (.Expr l2, env1, st1)
    | .CompStmt stmts => do
      let (v, _, st1) ← walkList f stmts (.mk [] (some env)) st
      pure (.CompStmt v, env, st1)
    | .StmtExpr ctype body => do
      let (b2, env1, st1) ← walk f body env true st
      pure (.StmtExpr ctype b2, env1, st1)
    | .Ident name =>
      match env.find name with
      | some var =>
        if var.is_local then do
          let r ← maybe_decay (.Lvar var.ctype var.offset) decay
          pure (r, env, st)
        else do
          let r ← maybe_decay (.Gvar var.ctype var.ident) decay
          pure (r, env, st)
      | none => throw ("is not defined.")
    | .EqTree _ lhs rhs => do
      let (lhs2, env1, st1) ← walk f lhs env false st
      checklval lhs2
      let (rhs2, env2, st2) ← walk f rhs env1 true st1
      pure (.EqTree lhs2.nodesctype lhs2 rhs2, env2, st2)
    | .IfThen cond thenN elthen => do
      let (c2, env1, st1) ← walk f cond env true st
      let (t2, env2, st2) ← walk f thenN env1 true st1
      match elthen with
      | some elth => do
        let (e2, env3, st3) ← walk f elth env2 true st2
        pure (.IfThen c2 t2 (some e2), env3, st3)
      | none => pure (.IfThen c2 t2 none, env2, st2)
    | .Call name args => do
      let (v, env1, st1) ← walkArgs f args env st
      pure (.Call name v, env1, st1)
    | .Func name is_extern args body _ => do
      let (argv, env1, st1) ← walkArgs f args env st
      let (b2, env2, st2) ← walk f body env1 true st1
      pure (.Func name is_extern argv b2 0, env2, st2)
    | .LogAnd lhs rhs => do
      let (l2, env1, st1) ← walk f lhs env true st
      let (r2, env2, st2) ← walk f rhs env1 true st1
      pure (.LogAnd l2 r2, env2, st2)
    | .LogOr lhs rhs => do
      let (l2, env1, st1) ← walk f lhs env true st
      let (r2, env2, st2) ← walk f rhs env1 true st1
      pure (.LogOr l2 r2, env2, st2)
    | .For init cond inc body => do
      let (i2, env1, st1) ← walk f init env true st
      let (c2, env2, st2) ← walk f cond env1 true st1
      let (n2, env3, st3) ← walk f inc env2 true st2
      let (b2, env4, st4) ← walk f body env3 true st3
      pure (.For i2 c2 n2 b2, env4, st4)
    | .VarDef ctype is_extern ident _ ini => do
      let (rexpr, env1, st1) ← (match ini with
        | some rhs => do
          let (r2, env1, st1) ← walk f rhs env true st
          pure (some r2, env1, st1)
        | none =>
          pure (none, env, st) :
        Except String (Option SNode × SEnv × SSt))
      let ss1 := roundupN st1.stacksize ctype.align_of + ctype.size_of
      let offset := ss1
      let env2 := env1.insert ident
        ⟨ctype, offset, true, ident, ("dummy"), is_extern⟩
      pure (.VarDef ctype is_extern ident offset rexpr, env2,
        { st1 with stacksize := ss1 })
    | .Deref _ lhs => do
      let (l2, env1, st1) ← walk f lhs env true st
      if l2.hasctype && l2.nodesctype.ty = .PTR then
        match l2.nodesctype.ptr_to with
        | some p => pure (.Deref p l2, env1, st1)
        | none => throw ("unwrap none")
      else throw ("operand must be a pointer.")
    | .Addr _ lhs => do
      let (l2, env1, st1) ← walk f lhs env true st
      checklval l2
      pure (.Addr (SType.ptrTo l2.nodesctype) l2, env1, st1)
    | .Sizeof _ _ lhs => do
      let (l2, env1, st1) ← walk f lhs env false st
      if l2.hasctype then
        pure (.Num (l2.nodesctype.size_of), env1, st1)
      else throw ("The size of an untyped value cannot be calculated.")
    | .Str ctype strname _ => do
      let labelname := (".L.str") ++ toString (st.strlabel + 1)
      let gv2 := st.gvars ++ [new_global ctype labelname (some strname) false]
      let st1 : SSt := ⟨st.stacksize, st.strlabel + 1, gv2⟩
      let r ← maybe_decay (.Gvar ctype labelname) decay
      pure (r, env, st1)
    | .EqEq lhs rhs => do
      let (l2, env1, st1) ← walk f lhs env true st
      let (r2, env2, st2) ← walk f rhs env1 true st1
      pure (.EqEq l2 r2, env2, st2)
    | .Ne lhs rhs => do
      let (l2, env1, st1) ← walk f lhs env true st
      let (r2, env2, st2) ← walk f rhs env1 true st1
      pure (.Ne l2 r2, env2, st2)
    | .DoWhile body cond => do
      let (b2, env1, st1) ← walk f body env true st
      let (c2, env2, st2) ← walk f cond env1 true st1
      pure (.DoWhile b2 c2, env2, st2)
    | .Alignof expr => do
      let (e2, env1, st1) ← walk f expr env false st
      if e2.hasctype then
        pure (.Num (e2.nodesctype.align_of), env1, st1)
      else throw ("_Alignof should be used for Node has Ctype.")
    | .NULL => pure (.NULL, env, st)
    | .Lvar _ _ => throw ("sema error")
    | .Gvar _ _ => throw ("sema error")

/-- The `for lhs in lhsv` loop of the `CompStmt` arm. -/
def walkList : Nat → List SNode → SEnv → SSt →
    Except String (List SNode × SEnv × SSt)
  | 0, _, _, _ => throw ("fuel")
  | _+1, [], env, st => pure ([], env, st)
  | f+1, a :: rest, env, st => do
    let (a2, env1, st1) ← walk f a env true st
    let (v, env2, st2) ← walkList f rest env1 st1
    pure (a2 :: v, env2, st2)

/-- The argument loops of the `Call` and `Func` arms (decay set). -/
def walkArgs : Nat → List SNode → SEnv → SSt →
    Except String (List SNode × SEnv × SSt)
  | 0, _, _, _ => throw ("fuel")
  | _+1, [], env, st => pure ([], env, st)
  | f+1, a :: rest, env, st => do
    let (a2, env1, st1) ← walk f a env true st
    let (v, env2, st2) ← walkArgs f rest env1 st1
    pure (a2 :: v, env2, st2)

end

/-- An `int a[2]` array type. -/
def ARY2_S : SType := .mk .ARY none (some INT_S) 2

/-- An environment binding the local array `a` at offset 8. -/
def c3Env : SEnv := .mk [(("a"), ⟨ARY2_S, 8, true, ("a"), (""), false⟩)] none

/-- The initial sema globals. -/
def c3St : SSt := ⟨0, 0, []⟩

end Sema

/-! ## Concrete inputs for the claims -/

/-- A token with the given type and value (positions unused). -/
def tok (t : TokenType) (v : Int) : Token := ⟨t, v, 0, 0, 0, 1⟩

/-- A token with the given type and source span in program 0. -/
def tokSpan (t : TokenType) (a b : Nat) : Token := ⟨t, 0, 0, a, b, 1⟩

/-- An initial parser state over the given tokens and source texts:
cursor 0, empty environment, no globals, counters 0. -/
def initSt (ts : List Token) (progs : List String) : Parse.PSt :=
  ⟨ts, 0, Env.new_env none, [], 0, [], 0, NULL_VAR, progs⟩

/-- Token stream of `case 1: ;` (statement context, no enclosing
switch). -/
def c7CaseSt : Parse.PSt :=
  initSt [tok .TokenCase 0, tok .TokenNum 1, tok .TokenColon 0,
    tok .TokenSemi 0, tok .TokenEof 0] [("case 1: ;")]

/-- Token stream of the constant context `1+2:` (a non-literal constant
expression). -/
def c7ConstSt : Parse.PSt :=
  initSt [tok .TokenNum 1, tok .TokenAdd 0, tok .TokenNum 2,
    tok .TokenColon 0, tok .TokenEof 0] [("")]

/-- Token stream of `void x;` in statement context (the identifier `x`
spans bytes 5..6 of the source text). -/
def c6VoidSt : Parse.PSt :=
  initSt [tok .TokenVoid 0, tokSpan .TokenIdent 5 6, tok .TokenSemi 0,
    tok .TokenEof 0] [("void x;")]

/-- Token stream of `a b;` in statement context, where `a` resolves to no
typedef (the environment is empty). -/
def c6IdIdSt : Parse.PSt :=
  initSt [tokSpan .TokenIdent 0 1, tokSpan .TokenIdent 2 3, tok .TokenSemi 0,
    tok .TokenEof 0] [("a b;")]

/-- Token stream of `1 > 2`. -/
def c10GtSt : Parse.PSt :=
  initSt [tok .TokenNum 1, tok .TokenRt 0, tok .TokenNum 2, tok .TokenEof 0]
    [("1>2")]

/-- Token stream of `2 < 1`. -/
def c10LtSt : Parse.PSt :=
  initSt [tok .TokenNum 2, tok .TokenLt 0, tok .TokenNum 1, tok .TokenEof 0]
    [("2<1")]

/-- Token stream of `1 >= 2`. -/
def c10GeSt : Parse.PSt :=
  initSt [tok .TokenNum 1, tok .TokenGe 0, tok .TokenNum 2, tok .TokenEof 0]
    [("1>=2")]

/-- Token stream of `2 <= 1`. -/
def c10LeSt : Parse.PSt :=
  initSt [tok .TokenNum 2, tok .TokenLe 0, tok .TokenNum 1, tok .TokenEof 0]
    [("2<=1")]

/-! # Part 2: theorems -/

/-- C9: pushing a scope frame and then popping it restores the
environment to exactly the original state. -/
theorem c9_env_push_pop : ∀ e : Env, Env.env_dec (Env.env_inc e) = some e := by
  intro e
  rfl

/-! ## Arithmetic of `roundup` -/

theorem roundup_pow_eq (x : Int) (k : Nat) (hx : 0 ≤ x) :
    roundup x ((2:Int)^k) = ((2^k * ((x.toNat + 2^k - 1) / 2^k) : Nat) : Int) := by
  have ha : (1:Nat) ≤ 2^k := Nat.one_le_two_pow
  have h2k : ((2^k : Nat) : Int) = (2:Int)^k := by push_cast; ring
  have hsum : x + (2:Int)^k - 1 = ((x.toNat + 2^k - 1 : Nat) : Int) := by omega
  have hm1 : (2:Int)^k - 1 = ((2^k - 1 : Nat) : Int) := by omega
  unfold roundup
  rw [hsum, hm1]
  have hlnot : lnotI ((2^k - 1 : Nat) : Int) = Int.negSucc (2^k - 1) := rfl
  rw [hlnot]
  have hland : landI ((x.toNat + 2^k - 1 : Nat) : Int) (Int.negSucc (2^k - 1)) =
      (((x.toNat + 2^k - 1) - ((x.toNat + 2^k - 1) &&& (2^k - 1)) : Nat) : Int) := rfl
  rw [hland, Nat.and_pow_two_sub_one_eq_mod]
  have hdm := Nat.div_add_mod (x.toNat + 2^k - 1) (2^k)
  omega

theorem roundup_pow_facts (x : Int) (k : Nat) (hx : 0 ≤ x) :
    x ≤ roundup x ((2:Int)^k) ∧ roundup x ((2:Int)^k) < x + (2:Int)^k ∧
    (2:Int)^k ∣ roundup x ((2:Int)^k) ∧ roundup x ((2:Int)^k) % ((2:Int)^k) = 0 := by
  have ha : (1:Nat) ≤ 2^k := Nat.one_le_two_pow
  rw [roundup_pow_eq x k hx]
  set m : Nat := x.toNat + 2^k - 1 with hm
  have hdm := Nat.div_add_mod m (2^k)
  have hmod := Nat.mod_lt m (show 0 < 2^k by omega)
  have hge : x.toNat ≤ 2^k * (m / 2^k) := by omega
  have hle : 2^k * (m / 2^k) ≤ m := by omega
  have hxx : ((x.toNat : Nat) : Int) = x := Int.toNat_of_nonneg hx
  have h2k : ((2^k : Nat) : Int) = (2:Int)^k := by push_cast; ring
  have hdvd : ((2:Int)^k) ∣ ((2^k * (m / 2^k) : Nat) : Int) :=
    ⟨((m / 2^k : Nat) : Int), by push_cast; ring⟩
  refine ⟨by omega, by omega, hdvd, Int.emod_eq_zero_of_dvd hdvd⟩

theorem roundup_pow_zero (k : Nat) : roundup 0 ((2:Int)^k) = 0 := by
  obtain ⟨hge, hlt, -, hmod⟩ := roundup_pow_facts 0 k le_rfl
  have h1 : roundup 0 ((2:Int)^k) < (2:Int)^k := by omega
  have h2 := Int.emod_eq_of_lt hge h1
  omega

/-! ## The struct layout invariants (C2) -/

@[simp] theorem Ctype.withOffset_size (c : Ctype) (o : Int) :
    (c.withOffset o).size = c.size := by
  cases c; rfl

@[simp] theorem Ctype.withOffset_align (c : Ctype) (o : Int) :
    (c.withOffset o).align = c.align := by
  cases c; rfl

@[simp] theorem Ctype.withOffset_offset (c : Ctype) (o : Int) :
    (c.withOffset o).offset = o := by
  cases c; rfl

theorem lhmInsert_fresh {α : Type} (k : String) (v : α) :
    ∀ acc : List (String × α), (∀ q ∈ acc, q.1 ≠ k) →
    lhmInsert k v acc = acc ++ [(k, v)] := by
  intro acc
  induction acc with
  | nil => intro _; rfl
  | cons hd tl ih =>
    intro h
    obtain ⟨k2, v2⟩ := hd
    have hne : k2 ≠ k := h (k2, v2) (List.mem_cons_self _ _)
    simp only [lhmInsert, if_neg hne, List.cons_append]
    exact congrArg _ (ih (fun q hq => h q (List.mem_cons_of_mem _ hq)))

theorem structLayout_eq_nodup (mb : List (String × Ctype)) :
    ∀ off al acc, (∀ q ∈ acc, q.1 ∉ mb.map Prod.fst) →
    (mb.map Prod.fst).Nodup →
    structLayout off al acc mb =
      (acc ++ (structLayoutNodup off al mb).1, (structLayoutNodup off al mb).2) := by
  induction mb with
  | nil =>
    intro off al acc _ _
    simp [structLayout, structLayoutNodup]
  | cons p rest ih =>
    intro off al acc hacc hnod
    simp only [List.map_cons, List.nodup_cons] at hnod
    have hfresh : ∀ q ∈ acc, q.1 ≠ p.1 := by
      intro q hq
      have := hacc q hq
      simp only [List.map_cons, List.mem_cons] at this
      tauto
    have hacc2 : ∀ q ∈ acc ++ [(p.1, p.2.withOffset (roundup off p.2.align))],
        q.1 ∉ rest.map Prod.fst := by
      intro q hq
      rcases List.mem_append.mp hq with hq | hq
      · have := hacc q hq
        simp only [List.map_cons, List.mem_cons] at this
        tauto
      · simp only [List.mem_singleton] at hq
        subst hq
        exact hnod.1
    simp only [structLayout, structLayoutNodup]
    rw [lhmInsert_fresh _ _ acc hfresh]
    rw [ih _ _ _ hacc2 hnod.2]
    simp [List.append_assoc]

theorem structLayoutNodup_maps (mb : List (String × Ctype)) :
    ∀ off al,
    (structLayoutNodup off al mb).1.map (fun p => p.2.size) = mb.map (fun p => p.2.size) ∧
    (structLayoutNodup off al mb).1.map (fun p => p.2.align) = mb.map (fun p => p.2.align) ∧
    (structLayoutNodup off al mb).2.2 = (mb.map (fun p => p.2.align)).foldl max al := by
  induction mb with
  | nil => intro off al; simp [structLayoutNodup]
  | cons hd tl ih =>
    intro off al
    obtain ⟨h1, h2, h3⟩ := ih (roundup off hd.2.align + hd.2.size) (max al hd.2.align)
    simp [structLayoutNodup, h1, h2, h3]

theorem foldl_max_pow (l : List Int) :
    ∀ al, (al = 0 ∨ ∃ k : Nat, al = (2:Int)^k) →
    (∀ a ∈ l, ∃ k : Nat, a = (2:Int)^k) →
    (l.foldl max al = 0 ∨ ∃ k : Nat, l.foldl max al = (2:Int)^k) := by
  induction l with
  | nil => intro al hal _; simpa using hal
  | cons hd tl ih =>
    intro al hal hmem
    obtain ⟨k, hk⟩ := hmem hd (List.mem_cons_self _ _)
    have hstep : max al hd = 0 ∨ ∃ j : Nat, max al hd = (2:Int)^j := by
      rcases hal with h0 | ⟨j, hj⟩
      · right; exact ⟨k, by rw [h0, hk]; exact max_eq_right (by positivity)⟩
      · right
        rcases le_total al hd with h | h
        · exact ⟨k, by rw [max_eq_right h, hk]⟩
        · exact ⟨j, by rw [max_eq_left h, hj]⟩
    simpa using ih (max al hd) hstep (fun a ha => hmem a (List.mem_cons_of_mem _ ha))

theorem le_foldl_max (l : List Int) : ∀ al, al ≤ l.foldl max al := by
  induction l with
  | nil => intro al; simp
  | cons hd tl ih =>
    intro al
    exact le_trans (le_max_left al hd) (ih (max al hd))

theorem mem_le_foldl_max (l : List Int) : ∀ al, ∀ a ∈ l, a ≤ l.foldl max al := by
  induction l with
  | nil => intro al a ha; cases ha
  | cons hd tl ih =>
    intro al a ha
    rcases List.mem_cons.mp ha with rfl | ha
    · exact le_trans (le_max_right al a) (le_foldl_max tl (max al a))
    · exact ih (max al hd) a ha

theorem structLayoutNodup_spec (mb : List (String × Ctype)) :
    ∀ off al, 0 ≤ off →
    (∀ p ∈ mb, (∃ k : Nat, p.2.align = (2:Int)^k) ∧ 0 ≤ p.2.size) →
    off ≤ (structLayoutNodup off al mb).2.1 ∧
    (∀ h0 ∈ (structLayoutNodup off al mb).1.head?,
      h0.2.offset = roundup off h0.2.align ∧ off ≤ h0.2.offset ∧
      h0.2.offset < off + h0.2.align) ∧
    (∀ m ∈ (structLayoutNodup off al mb).1, m.2.offset % m.2.align = 0 ∧ 0 ≤ m.2.offset) ∧
    List.Chain' (fun p q => structStep p.2 q.2) (structLayoutNodup off al mb).1 ∧
    (∀ lst ∈ (structLayoutNodup off al mb).1.getLast?,
      (structLayoutNodup off al mb).2.1 = lst.2.offset + lst.2.size) ∧
    (mb = [] → (structLayoutNodup off al mb).2.1 = off) := by
  induction mb with
  | nil =>
    intro off al hoff hmem
    simp [structLayoutNodup]
  | cons hd tl ih =>
    intro off al hoff hmem
    obtain ⟨⟨k, hk⟩, hsz⟩ := hmem hd (List.mem_cons_self _ _)
    have hmemtl : ∀ p ∈ tl, (∃ k : Nat, p.2.align = (2:Int)^k) ∧ 0 ≤ p.2.size :=
      fun p hp => hmem p (List.mem_cons_of_mem _ hp)
    obtain ⟨hge, hlt, hdvd, hmod⟩ := roundup_pow_facts off k hoff
    rw [← hk] at hge hlt hdvd hmod
    have hoff2 : 0 ≤ roundup off hd.2.align + hd.2.size := by omega
    obtain ⟨ihmono, ihhead, ihmem2, ihchain, ihlast, ihnil⟩ :=
      ih (roundup off hd.2.align + hd.2.size) (max al hd.2.align) hoff2 hmemtl
    refine ⟨?_, ?_, ?_, ?_, ?_, ?_⟩
    · simp only [structLayoutNodup]
      omega
    · simp only [structLayoutNodup, List.head?_cons, Option.mem_some_iff]
      rintro h0 rfl
      simp only [Ctype.withOffset_offset, Ctype.withOffset_align]
      exact ⟨trivial, hge, hlt⟩
    · simp only [structLayoutNodup, List.mem_cons]
      rintro m (rfl | hm)
      · simp only [Ctype.withOffset_offset, Ctype.withOffset_align]
        exact ⟨hmod, by omega⟩
      · exact ihmem2 m hm
    · simp only [structLayoutNodup]
      rw [List.chain'_cons']
      refine ⟨?_, ihchain⟩
      intro b hb
      obtain ⟨hbeq, hbge, hblt⟩ := ihhead b hb
      refine ⟨by simpa using hbge, by simpa using hblt,
        (ihmem2 b (List.mem_of_mem_head? hb)).1⟩
    · simp only [structLayoutNodup]
      intro lst hlst
      rcases htl : (structLayoutNodup (roundup off hd.2.align + hd.2.size) (max al hd.2.align) tl).1
        with _ | ⟨x, xs⟩
      · rw [htl] at hlst
        simp only [List.getLast?_singleton, Option.mem_some_iff] at hlst
        subst hlst
        have htlnil : tl = [] := by
          have hmm := (structLayoutNodup_maps tl (roundup off hd.2.align + hd.2.size)
            (max al hd.2.align)).1
          rw [htl] at hmm
          cases tl with
          | nil => rfl
          | cons a b => simp at hmm
        simp only [Ctype.withOffset_offset, Ctype.withOffset_size]
        exact ihnil htlnil
      · rw [htl] at hlst
        rw [List.getLast?_cons_cons] at hlst
        rw [← htl] at hlst
        exact ihlast lst hlst
    · intro h; cases h

theorem chain'_offset_mono (l : List Ctype) (hsz : ∀ m ∈ l, 0 ≤ m.size)
    (h : List.Chain' structStep l) :
    List.Chain' (fun a b => a.offset ≤ b.offset) l := by
  induction l with
  | nil => simp
  | cons hd tl ih =>
    rw [List.chain'_cons'] at h ⊢
    refine ⟨?_, ih (fun m hm => hsz m (List.mem_cons_of_mem _ hm)) h.2⟩
    intro b hb
    have := h.1 b hb
    have h0 := hsz hd (List.mem_cons_self _ _)
    unfold structStep at this
    omega

/-- C8 counterexample: the claim fails as stated.  The argument vector
`mir9cc -dump-irX f.c` is none of the four documented invocation shapes,
yet `main` does not print the usage line and exit: any three-argument
vector whose second entry is not `-dump-ir1` falls into the plain
`args.len() == 3` branch and is compiled with `dump_ir2` set. -/
theorem c8_counterexample :
    cliMain [("mir9cc"), ("-dump-irX"), ("f.c")] = .run false true ("f.c") ∧
    ¬ docShape [("mir9cc"), ("-dump-irX"), ("f.c")] := by
  constructor
  · decide
  · decide

/-- C8 (amended): an argument vector whose length is not 2 and not 3,
and which is not a four-argument vector with `-dump-ir1 -dump-ir2` as its
middle entries, makes `main` print the usage line to stdout and exit with
status 1.  (A three-argument vector is always accepted: a second argument
other than `-dump-ir1` is treated as the `-dump-ir2` invocation.) -/
theorem c8_amended (args : List String)
    (h2 : ¬ args.length = 2) (h3 : ¬ args.length = 3)
    (h4 : ¬ (args.length = 4 ∧ args.get? 1 = some ("-dump-ir1") ∧
      args.get? 2 = some ("-dump-ir2"))) :
    cliMain args = .usage ("Usage: mir9cc [-dump-ir1] [-dump-ir2] <file>") 1 := by
  unfold cliMain
  rw [if_neg h4, if_neg (fun hh => h3 hh.1), if_neg h3, if_neg h2]

/-- C8 witness: the amended statement applied to the one-element argument
vector `mir9cc` (no input file). -/
theorem c8_witness :
    (¬ ([("mir9cc")] : List String).length = 2 ∧
     ¬ ([("mir9cc")] : List String).length = 3 ∧
     ¬ (([("mir9cc")] : List String).length = 4 ∧
        ([("mir9cc")] : List String).get? 1 = some ("-dump-ir1") ∧
        ([("mir9cc")] : List String).get? 2 = some ("-dump-ir2"))) ∧
    cliMain [("mir9cc")] = .usage ("Usage: mir9cc [-dump-ir1] [-dump-ir2] <file>") 1 :=
  ⟨⟨by decide, by decide, by decide⟩,
   c8_amended [("mir9cc")] (by decide) (by decide) (by decide)⟩

/-! ## The byte-load emission (C4) -/

/-- C4: the emitter produces `mov reg_of_size, [addr]` for every `Load`,
and for size 1 it appends a `movzb` — but the `movzb` zero-extends
`REG8[r2]`, the low byte of the **address** register, not the loaded
byte, contradicting the claim that after the sequence the destination
holds the zero-extension of the byte read from memory (the code reads
`REG8[ir.r2]` where the idiom, as in `emit_cmp`, is `REG8[ir.r0]`).
At the failing input (`r0 = 0`, `r2 = 1`, address 8 in `r11`, memory
byte 42 at address 8) the sequence leaves 8, the low byte of the
address, in `r10` instead of the loaded byte 42. -/
theorem c4_load_bug :
    (∀ (size : Int) (r0 r2 : Fin 7) (imm imm2 : Int) (b1 b2 : Nat) (ret : String),
      (GenX86.emit_ir ⟨.IrLoad size, r0, r2, imm, imm2, b1, b2⟩ ret).head? =
        some (("\tmov ") ++ GenX86.reg size r0 ++ (", [") ++ GenX86.regAt GenX86.REG64 r2 ++ ("]")) ∧
      (size = 1 →
        GenX86.emit_ir ⟨.IrLoad size, r0, r2, imm, imm2, b1, b2⟩ ret =
          [("\tmov ") ++ GenX86.regAt GenX86.REG8 r0 ++ (", [") ++ GenX86.regAt GenX86.REG64 r2 ++ ("]"),
           ("\tmovzb ") ++ GenX86.regAt GenX86.REG64 r0 ++ (", ") ++ GenX86.regAt GenX86.REG8 r2])) ∧
    GenX86.emit_ir ⟨.IrLoad 1, 0, 1, 0, 0, 0, 0⟩ ("") =
      [("\tmov r10b, [r11]"), ("\tmovzb r10, r11b")] ∧
    (GenX86.semMovzb 0 1 (GenX86.semMovLoad8 0 1 GenX86.c4State)).regs 0 = 8 ∧
    (GenX86.c4State.mem (GenX86.c4State.regs 1)) % 256 = 42 ∧
    (8 : Nat) ≠ 42 := by
  refine ⟨?_, by decide, by decide, by decide, by decide⟩
  intro size r0 r2 imm imm2 b1 b2 ret
  constructor
  · simp [GenX86.emit_ir]
  · intro h
    subst h
    simp [GenX86.emit_ir, GenX86.reg]

/-! ## Running the parser monad one step at a time -/

theorem Parse.run_bind {α β : Type} (x : Parse.PM α) (g : α → Parse.PM β) (s : Parse.PSt) :
    (x >>= g).run s = Except.bind (x.run s) (fun p => (g p.1).run p.2) := rfl

theorem Parse.run_get (s : Parse.PSt) : (get : Parse.PM Parse.PSt).run s = Except.ok (s, s) := rfl

theorem Parse.run_curToken (st : Parse.PSt) (t : Token)
    (h : st.tokens.get? st.pos = some t) :
    (Parse.curToken).run st = Except.ok (t, st) := by
  unfold Parse.curToken
  rw [Parse.run_bind, Parse.run_get]
  simp only [Except.bind]
  rw [h]
  rfl

theorem Parse.run_consume_ident_true (st : Parse.PSt) (t : Token)
    (h : st.tokens.get? st.pos = some t) (hty : t.ty = .TokenIdent) :
    (Parse.consume_ty .TokenIdent).run st =
      Except.ok (true, { st with pos := st.pos + 1 }) := by
  unfold Parse.consume_ty
  rw [Parse.run_bind, Parse.run_curToken st t h]
  simp only [Except.bind]
  rw [hty]
  rfl

theorem Parse.run_consume_ident_false (st : Parse.PSt) (t : Token)
    (h : st.tokens.get? st.pos = some t) (hne : ttBeq t.ty .TokenIdent = false) :
    (Parse.consume_ty .TokenIdent).run st = Except.ok (false, st) := by
  unfold Parse.consume_ty
  rw [Parse.run_bind, Parse.run_curToken st t h]
  simp only [Except.bind]
  obtain ⟨tty, tv, tp, ta, tb, tl⟩ := t
  cases tty <;> first
    | rfl
    | simp [ttBeq, TokenType.tag] at hne

/-- C6 counterexample: the claim fails as stated, in both directions.
`void x;` in statement context: `void` is a type keyword, so the claim
requires a declaration, but the `match` in `stmt` has no `TokenVoid` arm
— the token falls through to the expression-statement path and the parse
panics, while `declaration` itself would have succeeded on the same
input.  `a b;` where `a` resolves to no typedef: the claim requires an
expression statement, but the lookahead accepts ANY two consecutive
identifiers without consulting the typedef table — the input is parsed
as a declaration (successfully: the unresolved typedef lookup falls back
to the null type), while the expression-statement path would have
panicked. -/
theorem c6_counterexample :
    (Parse.stmt 20).run c6VoidSt = Except.error (.panicE ("primary parse fail")) ∧
    ((Parse.declaration 20 true).run c6VoidSt).isOk = true ∧
    (Parse.stmt 20).run c6IdIdSt = (Parse.declaration 19 true).run c6IdIdSt ∧
    ((Parse.stmt 20).run c6IdIdSt).isOk = true ∧
    (Parse.expr_stmt 19).run c6IdIdSt = Except.error (.panicE ("is not defined.")) :=
  ⟨rfl, by decide, rfl, by decide, rfl⟩

/-- C6 (amended): in statement context the dispatch is: a first token
`int`, `char`, `struct`, `typeof` or `_Bool` (but NOT `void`) starts a
declaration; `enum` starts an enum declaration; an identifier followed
by a second identifier starts a declaration regardless of any typedef
resolution; an identifier not followed by an identifier, and every token
outside the `stmt` dispatch set (`void` included), starts an expression
statement. -/
theorem c6_amended :
    (∀ (f : Nat) (st : Parse.PSt) (t : Token), st.tokens.get? st.pos = some t →
      (t.ty = .TokenInt ∨ t.ty = .TokenChar ∨ t.ty = .TokenStruct ∨
       t.ty = .TokenTypeof ∨ t.ty = .TokenBool) →
      (Parse.stmt (f+1)).run st = (Parse.declaration f true).run st) ∧
    (∀ (f : Nat) (st : Parse.PSt) (t : Token), st.tokens.get? st.pos = some t →
      t.ty = .TokenEnum →
      (Parse.stmt (f+1)).run st =
        ((Parse.add_enum f >>= fun _ => pure Node.NULL : Parse.PM Node)).run
          { st with pos := st.pos + 1 }) ∧
    (∀ (f : Nat) (st : Parse.PSt) (t1 t2 : Token),
      st.tokens.get? st.pos = some t1 → t1.ty = .TokenIdent →
      st.tokens.get? (st.pos + 1) = some t2 → t2.ty = .TokenIdent →
      (Parse.stmt (f+1)).run st = (Parse.declaration f true).run st) ∧
    (∀ (f : Nat) (st : Parse.PSt) (t1 t2 : Token),
      st.tokens.get? st.pos = some t1 → t1.ty = .TokenIdent →
      st.tokens.get? (st.pos + 1) = some t2 → ttBeq t2.ty .TokenIdent = false →
      (Parse.stmt (f+1)).run st = (Parse.expr_stmt f).run st) ∧
    (∀ (f : Nat) (st : Parse.PSt) (t : Token), st.tokens.get? st.pos = some t →
      Parse.stmtTokens t.ty = false →
      (Parse.stmt (f+1)).run st = (Parse.expr_stmt f).run st) := by
  refine ⟨?_, ?_, ?_, ?_, ?_⟩
  · intro f st t h hty
    show ((Parse.curToken >>= _)).run st = _
    rw [Parse.run_bind, Parse.run_curToken st t h]
    simp only [Except.bind]
    rcases hty with hty | hty | hty | hty | hty <;> rw [hty]
  · intro f st t h hty
    show ((Parse.curToken >>= _)).run st = _
    rw [Parse.run_bind, Parse.run_curToken st t h]
    simp only [Except.bind]
    rw [hty]
    rfl
  · intro f st t1 t2 h1 hty1 h2 hty2
    show ((Parse.curToken >>= _)).run st = _
    rw [Parse.run_bind, Parse.run_curToken st t1 h1]
    simp only [Except.bind]
    rw [hty1]
    show ((Parse.consume_ty .TokenIdent >>= _)).run st = _
    rw [Parse.run_bind, Parse.run_consume_ident_true st t1 h1 hty1]
    simp only [Except.bind]
    show ((Parse.consume_ty .TokenIdent >>= _)).run ({ st with pos := st.pos + 1 }) = _
    rw [Parse.run_bind,
      Parse.run_consume_ident_true { st with pos := st.pos + 1 } t2 h2 hty2]
    simp only [Except.bind]
    rfl
  · intro f st t1 t2 h1 hty1 h2 hty2
    show ((Parse.curToken >>= _)).run st = _
    rw [Parse.run_bind, Parse.run_curToken st t1 h1]
    simp only [Except.bind]
    rw [hty1]
    show ((Parse.consume_ty .TokenIdent >>= _)).run st = _
    rw [Parse.run_bind, Parse.run_consume_ident_true st t1 h1 hty1]
    simp only [Except.bind]
    show ((Parse.consume_ty .TokenIdent >>= _)).run ({ st with pos := st.pos + 1 }) = _
    rw [Parse.run_bind,
      Parse.run_consume_ident_false { st with pos := st.pos + 1 } t2 h2 hty2]
    simp only [Except.bind]
    rfl
  · intro f st t h hnk
    obtain ⟨tty, tv, tp, ta, tb, tl⟩ := t
    show ((Parse.curToken >>= _)).run st = _
    rw [Parse.run_bind, Parse.run_curToken st ⟨tty, tv, tp, ta, tb, tl⟩ h]
    simp only [Except.bind]
    cases tty <;> first
      | (show ((Parse.consume_ty .TokenIdent >>= _)).run st = _
         rw [Parse.run_bind, Parse.run_consume_ident_false st _ h rfl]
         simp only [Except.bind]
         rfl)
      | simp [Parse.stmtTokens] at hnk

/-- C6 witness: the amended dispatch applied to concrete inputs — the
keyword case at an `int`-headed state and the fall-through case at the
`void`-headed state. -/
theorem c6_witness :
    ((initSt [tok .TokenInt 0] [("")]).tokens.get? (initSt [tok .TokenInt 0] [("")]).pos =
        some (tok .TokenInt 0) ∧
      (tok .TokenInt 0).ty = .TokenInt ∧
      (Parse.stmt 3).run (initSt [tok .TokenInt 0] [("")]) =
        (Parse.declaration 2 true).run (initSt [tok .TokenInt 0] [("")])) ∧
    (c6VoidSt.tokens.get? c6VoidSt.pos = some (tok .TokenVoid 0) ∧
      Parse.stmtTokens (tok .TokenVoid 0).ty = false ∧
      (Parse.stmt 8).run c6VoidSt = (Parse.expr_stmt 7).run c6VoidSt) :=
  ⟨⟨rfl, rfl,
    c6_amended.1 2 (initSt [tok .TokenInt 0] [("")]) (tok .TokenInt 0) rfl (.inl rfl)⟩,
   ⟨rfl, rfl,
    c6_amended.2.2.2.2 7 c6VoidSt (tok .TokenVoid 0) rfl rfl⟩⟩

/-- C7: the claim that every detected compilation error terminates the
process with exit status 1 is contradicted by the switch/case and
constant-expression diagnostics, which call `std::process::exit(0)`:
a `case` label outside any `switch` (`case 1: ;` in statement context)
exits with status 0 after printing `cannot find jmp point of switch.`,
and a non-literal constant expression (`1+2` where `const_expr` is
required) exits with status 0 after printing `expected Number.` — both
statuses differ from the documented status 1. -/
theorem c7_exit_zero :
    (Parse.stmt 20).run c7CaseSt =
      Except.error (.exitE 0 ("cannot find jmp point of switch.")) ∧
    (Parse.const_expr 20).run c7ConstSt =
      Except.error (.exitE 0 ("expected Number.")) ∧
    (0 : Nat) ≠ 1 :=
  ⟨rfl, rfl, by decide⟩

/-- C5: the string-payload and `.bss` cases behave as claimed, but the
claimed initializer case does not exist in the emitter: `gen_x86`
distinguishes only `strname`-present globals from the rest, so a global
carrying an explicit initializer directive list (e.g. `.long 5`, as
`calc_gvarinit` produces for an `int x = 5` initializer) is emitted as
`.bss` with `.zero`, and none of its directives appear in the output. -/
theorem c5_init_directives_dropped :
    Parse.calc_gvarinit (Node.Num 5) = some [(".long 5")] ∧
    (∀ (c : Ctype) (off : Int) (loc : Bool) (l : String) (ini : Option (List String)),
      GenX86.gvarLines ⟨c, off, loc, some l, none, ini⟩ =
        some [(".bss"), l ++ (":"), ("\t.zero ") ++ toString c.size]) ∧
    GenX86.gvarLines ⟨INT_TY, 0, false, some ("x"), none, some [(".long 5")]⟩ =
      some [(".bss"), ("x:"), ("\t.zero 4")] ∧
    ¬ (".long 5") ∈ (GenX86.gvarLines ⟨INT_TY, 0, false, some ("x"), none,
        some [(".long 5")]⟩).getD [] :=
  ⟨rfl, fun c off loc l ini => rfl, by decide, by decide⟩

/-! ## Register lifetime accounting (C1) -/

theorem GenIr.noKill_append (a b : List GenIr.Ir) (r : Nat) :
    GenIr.noKill (a ++ b) r = (GenIr.noKill a r && GenIr.noKill b r) := by
  simp [GenIr.noKill, List.all_append]

theorem GenIr.noTouch_append (a b : List GenIr.Ir) (r : Nat) :
    GenIr.noTouch (a ++ b) r = (GenIr.noTouch a r && GenIr.noTouch b r) := by
  simp [GenIr.noTouch, List.all_append]

theorem GenIr.noTouch_cons (i : GenIr.Ir) (d : List GenIr.Ir) (r : Nat) :
    GenIr.noTouch (i :: d) r = (!GenIr.touches i r && GenIr.noTouch d r) := by
  simp [GenIr.noTouch]

theorem GenIr.noKill_cons (i : GenIr.Ir) (d : List GenIr.Ir) (r : Nat) :
    GenIr.noKill (i :: d) r = (!GenIr.isKillI i r && GenIr.noKill d r) := by
  simp [GenIr.noKill]

theorem GenIr.noKill_of_noTouch {d : List GenIr.Ir} {r : Nat}
    (h : GenIr.noTouch d r = true) : GenIr.noKill d r = true := by
  simp only [GenIr.noTouch, List.all_eq_true] at h
  simp only [GenIr.noKill, List.all_eq_true]
  intro i hi
  have hh := h i hi
  simp only [Bool.not_eq_true'] at hh ⊢
  rcases ho : GenIr.isKillI i r with - | -
  · rfl
  · rw [GenIr.touches, ho, Bool.or_true] at hh
    exact hh

theorem GenIr.killedOnceLast_append_right {d1 : List GenIr.Ir} {r : Nat}
    (h1 : GenIr.killedOnceLast d1 r) {d2 : List GenIr.Ir}
    (h2 : GenIr.noTouch d2 r = true) : GenIr.killedOnceLast (d1 ++ d2) r := by
  obtain ⟨pre, post, he, hpre, hpost⟩ := h1
  exact ⟨pre, post ++ d2, by rw [he]; simp, hpre,
    by rw [GenIr.noTouch_append, hpost, h2]; rfl⟩

theorem GenIr.killedOnceLast_append_left {d1 : List GenIr.Ir} {r : Nat}
    (h1 : GenIr.noTouch d1 r = true) {d2 : List GenIr.Ir}
    (h2 : GenIr.killedOnceLast d2 r) : GenIr.killedOnceLast (d1 ++ d2) r := by
  obtain ⟨pre, post, he, hpre, hpost⟩ := h2
  exact ⟨d1 ++ pre, post, by rw [he]; simp,
    by rw [GenIr.noKill_append, GenIr.noKill_of_noTouch h1, hpre]; rfl, hpost⟩

theorem GenIr.killedOnceLast_mk {d1 : List GenIr.Ir} {r : Nat}
    (h1 : GenIr.noKill d1 r = true) {d2 : List GenIr.Ir}
    (h2 : GenIr.noTouch d2 r = true) :
    GenIr.killedOnceLast (d1 ++ GenIr.Ir.new .IrKill r 0 :: d2) r :=
  ⟨d1, d2, rfl, h1, h2⟩

theorem GenIr.GoodSt.mono {s s' : GenIr.GSt} (h : GenIr.GoodSt s)
    (hrl : s'.return_label = s.return_label) (hrr : s'.return_reg = s.return_reg)
    (hn : s.regno ≤ s'.regno) : GenIr.GoodSt s' := by
  intro hl
  rw [hrr]
  exact le_trans (h (by rwa [hrl] at hl)) hn

namespace GenIr

theorem touches_label (x b r : Nat) : touches (Ir.new .IrLabel x b) r = false := by
  simp [touches, lhsRegW, lhsRegR, rhsReg, isKillI, Ir.new]

theorem touches_jmp (x b r : Nat) : touches (Ir.new .IrJmp x b) r = false := by
  simp [touches, lhsRegW, lhsRegR, rhsReg, isKillI, Ir.new]

theorem touches_kill_ne (a r : Nat) (h : a ≠ r) :
    touches (Ir.new .IrKill a 0) r = false := by
  simp [touches, lhsRegW, lhsRegR, rhsReg, isKillI, Ir.new, h]

theorem noTouch_nil (r : Nat) : noTouch [] r = true := rfl

theorem noKill_nil (r : Nat) : noKill [] r = true := rfl

/-- Sequential composition of statement contracts, allowing label
allocations (which leave the register state untouched) between the two
segments. -/
theorem StmtSpec.seq {s1 s2 s2x s3 : GSt} {da db : List Ir} (hg : GoodSt s1)
    (ha : StmtSpec s1 s2 da) (hb : StmtSpec s2x s3 db)
    (hxn : s2x.regno = s2.regno) (hxl : s2.label ≤ s2x.label)
    (hxrl : s2x.return_label = s2.return_label)
    (hxrr : s2x.return_reg = s2.return_reg) :
    StmtSpec s1 s3 (da ++ db) := by
  obtain ⟨han, hal, harl, harr, hak, hat, hah, hakol⟩ := ha
  obtain ⟨hbn, hbl, hbrl, hbrr, hbk, hbt, hbh, hbkol⟩ := hb
  refine ⟨by omega, by omega, by rw [hbrl, hxrl, harl],
    by rw [hbrr, hxrr, harr], ?_, ?_, ?_, ?_⟩
  · intro r hr
    rw [noKill_append, hak r hr, hbk r (by omega)]
    rfl
  · intro r hr hex
    rw [noTouch_append, hat r hr hex, hbt r (by omega)
      (fun hl => by rw [hxrr, harr]; exact hex (by rwa [hxrl, harl] at hl))]
    rfl
  · intro r hr
    rw [noTouch_append, hah r (by omega), hbh r hr]
    rfl
  · intro r hr1 hr2
    rcases le_or_lt r s2.regno with hle | hgt
    · refine killedOnceLast_append_right (hakol r hr1 hle) ?_
      refine hbt r (by omega) ?_
      intro hl
      rw [hxrl, harl] at hl
      have := hg hl
      rw [hxrr, harr]
      omega
    · exact killedOnceLast_append_left (hah r hgt)
        (hbkol r (by omega) hr2)

/-- Weakening the initial state of a statement contract across label
allocations. -/
theorem StmtSpec.relaxPre {s0 s1 s2 : GSt} {d : List Ir}
    (h : StmtSpec s1 s2 d) (hn : s1.regno = s0.regno)
    (hl : s0.label ≤ s1.label) (hrl : s1.return_label = s0.return_label)
    (hrr : s1.return_reg = s0.return_reg) : StmtSpec s0 s2 d := by
  obtain ⟨han, hal, harl, harr, hak, hat, hah, hakol⟩ := h
  refine ⟨by omega, by omega, by rw [harl, hrl], by rw [harr, hrr],
    ?_, ?_, ?_, ?_⟩
  · intro r hr
    exact hak r (by omega)
  · intro r hr hex
    refine hat r (by omega) ?_
    intro hl2
    rw [hrr]
    exact hex (by rwa [hrl] at hl2)
  · exact hah
  · intro r hr1 hr2
    exact hakol r (by omega) hr2

/-- Weakening the initial state of an expression contract across label
allocations. -/
theorem ExprSpec.relaxPreE {s0 s1 s2 : GSt} {rr : Nat} {d : List Ir}
    (h : ExprSpec s1 rr s2 d) (hn : s1.regno = s0.regno)
    (hl : s0.label ≤ s1.label) (hrl : s1.return_label = s0.return_label)
    (hrr : s1.return_reg = s0.return_reg) : ExprSpec s0 rr s2 d := by
  obtain ⟨ha1, ha2, hal, harl, harr, hank, haok, haot, haoh, hakol⟩ := h
  refine ⟨by omega, ha2, by omega, by rw [harl, hrl], by rw [harr, hrr],
    hank, ?_, ?_, haoh, ?_⟩
  · intro r hr
    exact haok r (by omega)
  · intro r hr hex
    refine haot r (by omega) ?_
    intro hl2
    rw [hrr]
    exact hex (by rwa [hrl] at hl2)
  · intro r hr1 hr2 hne
    exact hakol r (by omega) hr2 hne

/-- Appending instruction lists that mention no register preserves a
statement contract. -/
theorem StmtSpec.append_inert {s1 s2 : GSt} {d : List Ir}
    (h : StmtSpec s1 s2 d) {t : List Ir} (ht : ∀ r, noTouch t r = true) :
    StmtSpec s1 s2 (d ++ t) := by
  obtain ⟨hn, hl, hrl, hrr, hk, htc, hh, hkol⟩ := h
  refine ⟨hn, hl, hrl, hrr, ?_, ?_, ?_, ?_⟩
  · intro r hr
    rw [noKill_append, hk r hr, noKill_of_noTouch (ht r)]
    rfl
  · intro r hr hex
    rw [noTouch_append, htc r hr hex, ht r]
    rfl
  · intro r hr
    rw [noTouch_append, hh r hr, ht r]
    rfl
  · intro r hr1 hr2
    exact killedOnceLast_append_right (hkol r hr1 hr2) (ht r)

/-- Prepending inert instructions preserves a statement contract. -/
theorem StmtSpec.prepend_inert {s1 s2 : GSt} {d : List Ir}
    (h : StmtSpec s1 s2 d) {t : List Ir} (ht : ∀ r, noTouch t r = true) :
    StmtSpec s1 s2 (t ++ d) := by
  obtain ⟨hn, hl, hrl, hrr, hk, htc, hh, hkol⟩ := h
  refine ⟨hn, hl, hrl, hrr, ?_, ?_, ?_, ?_⟩
  · intro r hr
    rw [noKill_append, hk r hr, noKill_of_noTouch (ht r)]
    rfl
  · intro r hr hex
    rw [noTouch_append, htc r hr hex, ht r]
    rfl
  · intro r hr
    rw [noTouch_append, hh r hr, ht r]
    rfl
  · intro r hr1 hr2
    exact killedOnceLast_append_left (ht r) (hkol r hr1 hr2)

/-- An expression whose result is immediately consumed (`mid`, which may
mention the result and — under a live return label — the return
register, but kills nothing) and then killed, followed by inert
instructions, forms a statement contract. -/
theorem ExprSpec.killAfter {s1 s2 : GSt} {rr : Nat} {d : List Ir}
    (hg : GoodSt s1) (h : ExprSpec s1 rr s2 d) {mid post : List Ir}
    (hmidK : ∀ r, noKill mid r = true)
    (hmidO : ∀ r, r ≠ rr → (0 < s1.return_label → r ≠ s1.return_reg) →
      noTouch mid r = true)
    (hpost : ∀ r, noTouch post r = true) :
    StmtSpec s1 s2 (d ++ mid ++ Ir.new .IrKill rr 0 :: post) := by
  obtain ⟨hb1, hb2, hl, hrl, hrr', hnk, hok, hot, hoh, hkol⟩ := h
  have hrrne : ∀ r, r ≤ s1.regno → r ≠ rr := fun r hr => by omega
  refine ⟨by omega, hl, hrl, hrr', ?_, ?_, ?_, ?_⟩
  · intro r hr
    rw [noKill_append, noKill_append, hok r hr, hmidK r]
    rw [noKill_cons, noKill_of_noTouch (hpost r)]
    have : isKillI (Ir.new .IrKill rr 0) r = false := by
      simp [isKillI, Ir.new]
      omega
    rw [this]
    rfl
  · intro r hr hex
    rw [noTouch_append, noTouch_append, hot r hr hex, hmidO r (hrrne r hr) hex]
    rw [noTouch_cons, touches_kill_ne rr r (by omega), hpost r]
    rfl
  · intro r hr
    have hrs1 : s1.regno < r := by omega
    rw [noTouch_append, noTouch_append, hoh r hr]
    rw [hmidO r (by omega) (fun hl2 => by have := hg hl2; omega)]
    rw [noTouch_cons, touches_kill_ne rr r (by omega), hpost r]
    rfl
  · intro r hr1 hr2
    rcases eq_or_ne r rr with rfl | hne
    · refine ⟨d ++ mid, post, by simp, ?_, hpost r⟩
      rw [noKill_append, hnk, hmidK r]
      rfl
    · have hkr := hkol r hr1 hr2 hne
      have hmt : noTouch (mid ++ Ir.new .IrKill rr 0 :: post) r = true := by
        rw [noTouch_append, hmidO r hne (fun hl2 => by have := hg hl2; omega)]
        rw [noTouch_cons, touches_kill_ne rr r (by omega), hpost r]
        rfl
      have := killedOnceLast_append_right hkr hmt
      rwa [← List.append_assoc] at this

/-- Appending instructions that only mention the (unkilled) result
register preserves an expression contract. -/
theorem ExprSpec.appendResultOps {s1 s2 : GSt} {rr : Nat} {d : List Ir}
    (h : ExprSpec s1 rr s2 d) {t : List Ir}
    (ht : ∀ r, r ≠ rr → noTouch t r = true) (htk : noKill t rr = true) :
    ExprSpec s1 rr s2 (d ++ t) := by
  obtain ⟨hb1, hb2, hl, hrl, hrr', hnk, hok, hot, hoh, hkol⟩ := h
  refine ⟨hb1, hb2, hl, hrl, hrr', ?_, ?_, ?_, ?_, ?_⟩
  · rw [noKill_append, hnk, htk]; rfl
  · intro r hr
    rw [noKill_append, hok r hr, noKill_of_noTouch (ht r (by omega))]
    rfl
  · intro r hr hex
    rw [noTouch_append, hot r hr hex, ht r (by omega)]
    rfl
  · intro r hr
    rw [noTouch_append, hoh r hr, ht r (by omega)]
    rfl
  · intro r hr1 hr2 hne
    exact killedOnceLast_append_right (hkol r hr1 hr2 hne) (ht r hne)


/-- Composition for a binary expression form: a left operand whose
result survives, label allocations, a right operand, glue instructions
(`mid` before the right operand touching only the surviving result,
`pre2` between the operands' results, the kill of the right result, and
`post2` touching only the surviving result). -/
theorem ExprSpec.binSeq {s0 s1 s1x s2 : GSt} {r1 r2 : Nat}
    {da db mid pre2 post2 : List Ir} (hg : GoodSt s0)
    (h1 : ExprSpec s0 r1 s1 da) (h2 : ExprSpec s1x r2 s2 db)
    (hn : s1x.regno = s1.regno) (hl : s1.label ≤ s1x.label)
    (hrl : s1x.return_label = s1.return_label)
    (hrr : s1x.return_reg = s1.return_reg)
    (hmidO : ∀ r, r ≠ r1 → noTouch mid r = true)
    (hmidK : ∀ r, noKill mid r = true)
    (hpreO : ∀ r, r ≠ r1 → r ≠ r2 → noTouch pre2 r = true)
    (hpreK : ∀ r, noKill pre2 r = true)
    (hpostO : ∀ r, r ≠ r1 → noTouch post2 r = true)
    (hpostK : ∀ r, noKill post2 r = true) :
    ExprSpec s0 r1 s2 (da ++ mid ++ db ++ pre2 ++ Ir.new .IrKill r2 0 :: post2) := by
  obtain ⟨ha1, ha2, hal, harl, harr, hank, haok, haot, haoh, hakol⟩ := h1
  obtain ⟨hb1, hb2, hbl, hbrl, hbrr, hbnk, hbok, hbot, hboh, hbkol⟩ := h2
  have hr12 : r1 < r2 := by omega
  have hexb : ∀ r, r ≤ s0.regno → (0 < s0.return_label → r ≠ s0.return_reg) →
      (0 < s1x.return_label → r ≠ s1x.return_reg) := by
    intro r hr hex hl2
    rw [hrr, harr]
    exact hex (by rwa [hrl, harl] at hl2)
  have hexhi : ∀ r, s0.regno < r → (0 < s1x.return_label → r ≠ s1x.return_reg) := by
    intro r hr hl2
    rw [hrl, harl] at hl2
    have := hg hl2
    rw [hrr, harr]
    omega
  have hkill_ne : ∀ r, r ≠ r2 → noKill (Ir.new .IrKill r2 0 :: post2) r = true := by
    intro r hne
    rw [noKill_cons, hpostK r]
    have : isKillI (Ir.new .IrKill r2 0) r = false := by
      simp [isKillI, Ir.new]
      omega
    rw [this]
    rfl
  refine ⟨ha1, by omega, by omega, by rw [hbrl, hrl, harl],
    by rw [hbrr, hrr, harr], ?_, ?_, ?_, ?_, ?_⟩
  · rw [noKill_append, noKill_append, noKill_append, noKill_append, hank,
      hmidK r1, noKill_of_noTouch (hbot r1 (by omega) (hexhi r1 (by omega))),
      hpreK r1, hkill_ne r1 (by omega)]
    rfl
  · intro r hr
    rw [noKill_append, noKill_append, noKill_append, noKill_append, haok r hr,
      hmidK r, hbok r (by omega), hpreK r, hkill_ne r (by omega)]
    rfl
  · intro r hr hex
    rw [noTouch_append, noTouch_append, noTouch_append, noTouch_append,
      haot r hr hex, hmidO r (by omega), hbot r (by omega) (hexb r hr hex),
      hpreO r (by omega) (by omega), noTouch_cons,
      touches_kill_ne r2 r (by omega), hpostO r (by omega)]
    rfl
  · intro r hr
    rw [noTouch_append, noTouch_append, noTouch_append, noTouch_append,
      haoh r (by omega), hmidO r (by omega), hboh r (by omega),
      hpreO r (by omega) (by omega), noTouch_cons,
      touches_kill_ne r2 r (by omega), hpostO r (by omega)]
    rfl
  · intro r hr1 hr2 hne
    rcases eq_or_ne r r2 with rfl | hne2
    · refine ⟨da ++ mid ++ db ++ pre2, post2, by simp, ?_, hpostO r (by omega)⟩
      rw [noKill_append, noKill_append, noKill_append,
        noKill_of_noTouch (haoh r (by omega)), hmidK r, hbnk, hpreK r]
      rfl
    · have htl : noTouch (pre2 ++ Ir.new .IrKill r2 0 :: post2) r = true := by
        rw [noTouch_append, hpreO r hne hne2, noTouch_cons,
          touches_kill_ne r2 r (by omega), hpostO r hne]
        rfl
      rcases le_or_lt r s1.regno with hle | hgt
      · have hk := hakol r hr1 hle hne
        have hnt : noTouch (mid ++ db ++ pre2 ++ Ir.new .IrKill r2 0 :: post2) r = true := by
          rw [noTouch_append, noTouch_append, noTouch_append, hmidO r hne,
            hbot r (by omega) (hexhi r (by omega)), hpreO r hne hne2,
            noTouch_cons, touches_kill_ne r2 r (by omega), hpostO r hne]
          rfl
        have := killedOnceLast_append_right hk hnt
        simpa [List.append_assoc] using this
      · have hk := hbkol r (by omega) (by omega) hne2
        have hpre : noTouch (da ++ mid) r = true := by
          rw [noTouch_append, haoh r (by omega), hmidO r hne]
          rfl
        have := killedOnceLast_append_right
          (killedOnceLast_append_left hpre hk) htl
        simpa [List.append_assoc] using this

/-- Composition for an assignment-like form: a left segment whose result
is killed at the end, then a right segment whose result survives, glue
`pre2` (touching only the two results) and the kill of the left
result. -/
theorem ExprSpec.binSeqR {s0 s1 s1x s2 : GSt} {r1 r2 : Nat}
    {da db pre2 : List Ir} (hg : GoodSt s0)
    (h1 : ExprSpec s0 r1 s1 da) (h2 : ExprSpec s1x r2 s2 db)
    (hn : s1x.regno = s1.regno) (hl : s1.label ≤ s1x.label)
    (hrl : s1x.return_label = s1.return_label)
    (hrr : s1x.return_reg = s1.return_reg)
    (hpreO : ∀ r, r ≠ r1 → r ≠ r2 → noTouch pre2 r = true)
    (hpreK : ∀ r, noKill pre2 r = true) :
    ExprSpec s0 r2 s2 (da ++ db ++ pre2 ++ [Ir.new .IrKill r1 0]) := by
  obtain ⟨ha1, ha2, hal, harl, harr, hank, haok, haot, haoh, hakol⟩ := h1
  obtain ⟨hb1, hb2, hbl, hbrl, hbrr, hbnk, hbok, hbot, hboh, hbkol⟩ := h2
  have hr12 : r1 < r2 := by omega
  have hexb : ∀ r, r ≤ s0.regno → (0 < s0.return_label → r ≠ s0.return_reg) →
      (0 < s1x.return_label → r ≠ s1x.return_reg) := by
    intro r hr hex hl2
    rw [hrr, harr]
    exact hex (by rwa [hrl, harl] at hl2)
  have hexhi : ∀ r, s0.regno < r → (0 < s1x.return_label → r ≠ s1x.return_reg) := by
    intro r hr hl2
    rw [hrl, harl] at hl2
    have := hg hl2
    rw [hrr, harr]
    omega
  have hkne : ∀ r, r ≠ r1 → noKill [Ir.new .IrKill r1 0] r = true := by
    intro r hne
    rw [noKill_cons]
    have : isKillI (Ir.new .IrKill r1 0) r = false := by
      simp [isKillI, Ir.new]
      omega
    rw [this]
    rfl
  refine ⟨by omega, hb2, by omega, by rw [hbrl, hrl, harl],
    by rw [hbrr, hrr, harr], ?_, ?_, ?_, ?_, ?_⟩
  · rw [noKill_append, noKill_append, noKill_append,
      noKill_of_noTouch (haoh r2 (by omega)), hbnk, hpreK r2,
      hkne r2 (by omega)]
    rfl
  · intro r hr
    rw [noKill_append, noKill_append, noKill_append, haok r hr,
      hbok r (by omega), hpreK r, hkne r (by omega)]
    rfl
  · intro r hr hex
    rw [noTouch_append, noTouch_append, noTouch_append, haot r hr hex,
      hbot r (by omega) (hexb r hr hex), hpreO r (by omega) (by omega),
      noTouch_cons, touches_kill_ne r1 r (by omega), noTouch_nil]
    rfl
  · intro r hr
    rw [noTouch_append, noTouch_append, noTouch_append, haoh r (by omega),
      hboh r (by omega), hpreO r (by omega) (by omega), noTouch_cons,
      touches_kill_ne r1 r (by omega), noTouch_nil]
    rfl
  · intro r hr1 hr2 hne
    rcases eq_or_ne r r1 with rfl | hne1
    · refine ⟨da ++ db ++ pre2, [], by simp, ?_, rfl⟩
      rw [noKill_append, noKill_append, hank,
        noKill_of_noTouch (hbot r (by omega) (hexhi r (by omega))), hpreK r]
      rfl
    · have htl : noTouch (pre2 ++ [Ir.new .IrKill r1 0]) r = true := by
        rw [noTouch_append, hpreO r hne1 hne, noTouch_cons,
          touches_kill_ne r1 r (by omega), noTouch_nil]
        rfl
      rcases le_or_lt r s1.regno with hle | hgt
      · have hk := hakol r hr1 hle hne1
        have hnt : noTouch (db ++ (pre2 ++ [Ir.new .IrKill r1 0])) r = true := by
          rw [noTouch_append, hbot r (by omega) (hexhi r (by omega)), htl]
          rfl
        have := killedOnceLast_append_right hk hnt
        simpa [List.append_assoc] using this
      · have hk := hbkol r (by omega) (by omega) hne
        have := killedOnceLast_append_right
          (killedOnceLast_append_left (haoh r (by omega)) hk) htl
        simpa [List.append_assoc] using this

/-- Composition for the comma expression: the left segment's result is
killed between the segments, the right segment's result survives. -/
theorem ExprSpec.seqKillBetween {s0 s1 s1x s2 : GSt} {r1 r2 : Nat}
    {da db : List Ir} (hg : GoodSt s0)
    (h1 : ExprSpec s0 r1 s1 da) (h2 : ExprSpec s1x r2 s2 db)
    (hn : s1x.regno = s1.regno) (hl : s1.label ≤ s1x.label)
    (hrl : s1x.return_label = s1.return_label)
    (hrr : s1x.return_reg = s1.return_reg) :
    ExprSpec s0 r2 s2 (da ++ Ir.new .IrKill r1 0 :: db) := by
  obtain ⟨ha1, ha2, hal, harl, harr, hank, haok, haot, haoh, hakol⟩ := h1
  obtain ⟨hb1, hb2, hbl, hbrl, hbrr, hbnk, hbok, hbot, hboh, hbkol⟩ := h2
  have hr12 : r1 < r2 := by omega
  have hexb : ∀ r, r ≤ s0.regno → (0 < s0.return_label → r ≠ s0.return_reg) →
      (0 < s1x.return_label → r ≠ s1x.return_reg) := by
    intro r hr hex hl2
    rw [hrr, harr]
    exact hex (by rwa [hrl, harl] at hl2)
  have hexhi : ∀ r, s0.regno < r → (0 < s1x.return_label → r ≠ s1x.return_reg) := by
    intro r hr hl2
    rw [hrl, harl] at hl2
    have := hg hl2
    rw [hrr, harr]
    omega
  refine ⟨by omega, hb2, by omega, by rw [hbrl, hrl, harl],
    by rw [hbrr, hrr, harr], ?_, ?_, ?_, ?_, ?_⟩
  · rw [noKill_append, noKill_of_noTouch (haoh r2 (by omega)), noKill_cons]
    have : isKillI (Ir.new .IrKill r1 0) r2 = false := by
      simp [isKillI, Ir.new]
      omega
    rw [this, hbnk]
    rfl
  · intro r hr
    rw [noKill_append, haok r hr, noKill_cons]
    have : isKillI (Ir.new .IrKill r1 0) r = false := by
      simp [isKillI, Ir.new]
      omega
    rw [this, hbok r (by omega)]
    rfl
  · intro r hr hex
    rw [noTouch_append, haot r hr hex, noTouch_cons,
      touches_kill_ne r1 r (by omega), hbot r (by omega) (hexb r hr hex)]
    rfl
  · intro r hr
    rw [noTouch_append, haoh r (by omega), noTouch_cons,
      touches_kill_ne r1 r (by omega), hboh r (by omega)]
    rfl
  · intro r hr1 hr2 hne
    rcases eq_or_ne r r1 with rfl | hne1
    · exact ⟨da, db, rfl, hank,
        hbot r (by omega) (hexhi r (by omega))⟩
    · rcases le_or_lt r s1.regno with hle | hgt
      · have hk := hakol r hr1 hle hne1
        have hnt : noTouch (Ir.new .IrKill r1 0 :: db) r = true := by
          rw [noTouch_cons, touches_kill_ne r1 r (by omega),
            hbot r (by omega) (hexhi r (by omega))]
          rfl
        have := killedOnceLast_append_right hk hnt
        simpa using this
      · have hpre : noTouch (da ++ [Ir.new .IrKill r1 0]) r = true := by
          rw [noTouch_append, haoh r (by omega), noTouch_cons,
            touches_kill_ne r1 r (by omega), noTouch_nil]
          rfl
        have := killedOnceLast_append_left hpre (hbkol r (by omega) hr2 hne)
        simpa [List.append_assoc] using this

/-- Appending a freshly-allocated helper register that is used and then
killed inside the appended tail (the `!` lowering). -/
theorem ExprSpec.appendFreshKilled {s0 s1 : GSt} {r1 : Nat} {d : List Ir}
    (h : ExprSpec s0 r1 s1 d) {pre2 : List Ir}
    (hpreO : ∀ r, r ≠ r1 → r ≠ s1.regno + 1 → noTouch pre2 r = true)
    (hpreK : ∀ r, noKill pre2 r = true) :
    ExprSpec s0 r1 { s1 with regno := s1.regno + 1 }
      (d ++ pre2 ++ [Ir.new .IrKill (s1.regno + 1) 0]) := by
  obtain ⟨ha1, ha2, hal, harl, harr, hank, haok, haot, haoh, hakol⟩ := h
  have hkne : ∀ r, r ≠ s1.regno + 1 → noKill [Ir.new .IrKill (s1.regno + 1) 0] r = true := by
    intro r hne
    rw [noKill_cons]
    have : isKillI (Ir.new .IrKill (s1.regno + 1) 0) r = false := by
      simp [isKillI, Ir.new]
      omega
    rw [this]
    rfl
  refine ⟨ha1, by simp; omega, hal, harl, harr, ?_, ?_, ?_, ?_, ?_⟩
  · rw [noKill_append, noKill_append, hank, hpreK r1, hkne r1 (by omega)]
    rfl
  · intro r hr
    rw [noKill_append, noKill_append, haok r hr, hpreK r, hkne r (by omega)]
    rfl
  · intro r hr hex
    rw [noTouch_append, noTouch_append, haot r hr hex,
      hpreO r (by omega) (by omega), noTouch_cons,
      touches_kill_ne (s1.regno + 1) r (by omega), noTouch_nil]
    rfl
  · intro r hr
    simp only [GSt.regno] at hr
    rw [noTouch_append, noTouch_append, haoh r (by omega),
      hpreO r (by omega) (by omega), noTouch_cons,
      touches_kill_ne (s1.regno + 1) r (by omega), noTouch_nil]
    rfl
  · intro r hr1 hr2 hne
    simp only [GSt.regno] at hr2
    rcases eq_or_ne r (s1.regno + 1) with rfl | hne2
    · refine ⟨d ++ pre2, [], by simp, ?_, rfl⟩
      rw [noKill_append, noKill_of_noTouch (haoh (s1.regno + 1) (by omega)),
        hpreK (s1.regno + 1)]
      rfl
    · have hk := hakol r hr1 (by omega) hne
      have hnt : noTouch (pre2 ++ [Ir.new .IrKill (s1.regno + 1) 0]) r = true := by
        rw [noTouch_append, hpreO r hne hne2, noTouch_cons,
          touches_kill_ne (s1.regno + 1) r (by omega), noTouch_nil]
        rfl
      have := killedOnceLast_append_right hk hnt
      simpa [List.append_assoc] using this

/-- Composition for the increment lowering: the lvalue's register is
loaded into a freshly-allocated result, written back, and killed; the
fresh register survives as the result. -/
theorem ExprSpec.killAndFresh {s0 s1 : GSt} {r1 : Nat} {d : List Ir}
    (h : ExprSpec s0 r1 s1 d) {pre2 : List Ir}
    (hpreO : ∀ r, r ≠ r1 → r ≠ s1.regno + 1 → noTouch pre2 r = true)
    (hpreK : ∀ r, noKill pre2 r = true) :
    ExprSpec s0 (s1.regno + 1) { s1 with regno := s1.regno + 1 }
      (d ++ pre2 ++ [Ir.new .IrKill r1 0]) := by
  obtain ⟨ha1, ha2, hal, harl, harr, hank, haok, haot, haoh, hakol⟩ := h
  have hkne : ∀ r, r ≠ r1 → noKill [Ir.new .IrKill r1 0] r = true := by
    intro r hne
    rw [noKill_cons]
    have : isKillI (Ir.new .IrKill r1 0) r = false := by
      simp [isKillI, Ir.new]
      omega
    rw [this]
    rfl
  refine ⟨by omega, by simp, hal, harl, harr, ?_, ?_, ?_, ?_, ?_⟩
  · rw [noKill_append, noKill_append,
      noKill_of_noTouch (haoh (s1.regno + 1) (by omega)),
      hpreK (s1.regno + 1), hkne (s1.regno + 1) (by omega)]
    rfl
  · intro r hr
    rw [noKill_append, noKill_append, haok r hr, hpreK r, hkne r (by omega)]
    rfl
  · intro r hr hex
    rw [noTouch_append, noTouch_append, haot r hr hex,
      hpreO r (by omega) (by omega), noTouch_cons,
      touches_kill_ne r1 r (by omega), noTouch_nil]
    rfl
  · intro r hr
    simp only [GSt.regno] at hr
    rw [noTouch_append, noTouch_append, haoh r (by omega),
      hpreO r (by omega) (by omega), noTouch_cons,
      touches_kill_ne r1 r (by omega), noTouch_nil]
    rfl
  · intro r hr1 hr2 hne
    simp only [GSt.regno] at hr2
    rcases eq_or_ne r r1 with rfl | hne1
    · refine ⟨d ++ pre2, [], by simp, ?_, rfl⟩
      rw [noKill_append, hank, hpreK r]
      rfl
    · have hk := hakol r hr1 (by omega) hne1
      have hnt : noTouch (pre2 ++ [Ir.new .IrKill r1 0]) r = true := by
        rw [noTouch_append, hpreO r hne1 (by omega), noTouch_cons,
          touches_kill_ne r1 r (by omega), noTouch_nil]
        rfl
      have := killedOnceLast_append_right hk hnt
      simpa [List.append_assoc] using this

end GenIr


namespace GenIr

theorem spec_lval (f : Nat)
    (ihe : ∀ n s rr s' d, GoodSt s → gen_expr f n s = .ok (rr, s', d) →
      ExprSpec s rr s' d)
    (ihl : ∀ n s rr s' d, GoodSt s → gen_lval f n s = .ok (rr, s', d) →
      ExprSpec s rr s' d) :
    ∀ n s rr s' d, GoodSt s → gen_lval (f+1) n s = .ok (rr, s', d) →
      ExprSpec s rr s' d := by
  intro n s rr s' d hg h
  cases n
  all_goals simp only [gen_lval] at h
  all_goals try exact Except.noConfusion h
  case Deref c e => exact ihe e s rr s' d hg h
  case Var v =>
    dsimp only [new_regno] at h
    cases hvl : v.is_local
    all_goals rw [hvl] at h
    · cases hln : v.labelname
      all_goals rw [hln] at h
      · exact Except.noConfusion h
      · simp only [pure, Except.pure, Except.ok.injEq, Prod.mk.injEq] at h
        obtain ⟨rfl, rfl, rfl⟩ := h
        refine ⟨by omega, le_refl _, le_refl _, rfl, rfl,
          by simp [noKill, isKillI, Ir.new], ?_, ?_, ?_, ?_⟩
        · intro r hr
          simp [noKill, isKillI, Ir.new]
        · intro r hr hex
          simp [noTouch, touches, lhsRegW, lhsRegR, rhsReg, isKillI, Ir.new]
          omega
        · intro r hr
          simp only [GSt.regno] at hr
          simp [noTouch, touches, lhsRegW, lhsRegR, rhsReg, isKillI, Ir.new]
          omega
        · intro r hr1 hr2 hne
          simp only [GSt.regno] at hr2
          omega
    · simp only [if_true, pure, Except.pure, Except.ok.injEq, Prod.mk.injEq] at h
      obtain ⟨rfl, rfl, rfl⟩ := h
      refine ⟨by omega, le_refl _, le_refl _, rfl, rfl,
        by simp [noKill, isKillI, Ir.new], ?_, ?_, ?_, ?_⟩
      · intro r hr
        simp [noKill, isKillI, Ir.new]
      · intro r hr hex
        simp [noTouch, touches, lhsRegW, lhsRegR, rhsReg, isKillI, Ir.new]
        omega
      · intro r hr
        simp only [GSt.regno] at hr
        simp [noTouch, touches, lhsRegW, lhsRegR, rhsReg, isKillI, Ir.new]
        omega
      · intro r hr1 hr2 hne
        simp only [GSt.regno] at hr2
        omega
  case Dot c e nm =>
    cases h1 : gen_lval f e s with
    | error er => rw [h1] at h; exact absurd h (by simp)
    | ok v =>
      obtain ⟨r1, s1, d1⟩ := v
      rw [h1] at h
      try dsimp only at h
      simp only [pure, Except.pure, Except.ok.injEq, Prod.mk.injEq] at h
      obtain ⟨rfl, rfl, rfl⟩ := h
      refine ExprSpec.appendResultOps (ihl e s r1 s1 d1 hg h1) ?_ ?_
      · intro r hne
        simp [noTouch, touches, lhsRegW, lhsRegR, rhsReg, isKillI, Ir.new]
        omega
      · simp [noKill, isKillI, Ir.new]

end GenIr

namespace GenIr

theorem spec_binop (f : Nat)
    (ihe : ∀ n s rr s' d, GoodSt s → gen_expr f n s = .ok (rr, s', d) →
      ExprSpec s rr s' d) :
    ∀ op n1 n2 s rr s' d, (op = .IrEqEq ∨ op = .IrNe) → GoodSt s →
      gen_binop (f+1) op n1 n2 s = .ok (rr, s', d) → ExprSpec s rr s' d := by
  intro op n1 n2 s rr s' d hop hg h
  simp only [gen_binop, bind, Except.bind] at h
  cases h1 : gen_expr f n1 s with
  | error e => rw [h1] at h; exact absurd h (by simp)
  | ok v =>
    obtain ⟨r1, s1, d1⟩ := v
    rw [h1] at h
    dsimp only at h
    cases h2 : gen_expr f n2 s1 with
    | error e => rw [h2] at h; exact absurd h (by simp)
    | ok w =>
      obtain ⟨r2, s2, d2⟩ := w
      rw [h2] at h
      dsimp only at h
      simp only [pure, Except.pure, Except.ok.injEq, Prod.mk.injEq] at h
      obtain ⟨rfl, rfl, rfl⟩ := h
      have e1 := ihe n1 s r1 s1 d1 hg h1
      obtain ⟨hb1, hb2, hl1, hrl1, hrr1, -, -, -, -, -⟩ := id e1
      have hg1 : GoodSt s1 := GoodSt.mono hg hrl1 hrr1 (by omega)
      have e2 := ihe n2 s1 r2 s2 d2 hg1 h2
      obtain ⟨hb3, hb4, -, -, -, -, -, -, -, -⟩ := id e2
      have hres := @ExprSpec.binSeq s s1 s1 s2 r1 r2 d1 d2 []
        [Ir.new op r1 r2] [] hg e1 e2 rfl (le_refl _) rfl rfl
        (fun r hne => rfl) (fun r => rfl)
        (by
          intro r ha hb
          rcases hop with rfl | rfl <;>
            simp [noTouch, touches, lhsRegW, lhsRegR, rhsReg, isKillI, Ir.new] <;>
            omega)
        (by
          intro r
          rcases hop with rfl | rfl <;> simp [noKill, isKillI, Ir.new])
        (fun r hne => rfl) (fun r => rfl)
      simpa using hres

theorem spec_pre_inc (f : Nat)
    (ihl : ∀ n s rr s' d, GoodSt s → gen_lval f n s = .ok (rr, s', d) →
      ExprSpec s rr s' d) :
    ∀ ct n num s rr s' d, GoodSt s →
      gen_pre_inc (f+1) ct n num s = .ok (rr, s', d) → ExprSpec s rr s' d := by
  intro ct n num s rr s' d hg h
  simp only [gen_pre_inc, bind, Except.bind] at h
  cases h1 : gen_lval f n s with
  | error e => rw [h1] at h; exact absurd h (by simp)
  | ok v =>
    obtain ⟨r1, s1, d1⟩ := v
    rw [h1] at h
    dsimp only [new_regno] at h
    cases hsc : gen_inc_scale ct with
    | none => rw [hsc] at h; exact Except.noConfusion h
    | some scale =>
      rw [hsc] at h
      simp only [pure, Except.pure, Except.ok.injEq, Prod.mk.injEq] at h
      obtain ⟨rfl, rfl, rfl⟩ := h
      have e1 := ihl n s r1 s1 d1 hg h1
      obtain ⟨hb1, hb2, -, -, -, -, -, -, -, -⟩ := id e1
      have hres := @ExprSpec.killAndFresh s s1 r1 d1 e1
        [Ir.new (.IrLoad ct.size) (s1.regno + 1) r1,
         Ir.new (.IrAdd true) (s1.regno + 1) ((usizeOfI num * scale) % 2^64),
         Ir.new (.IrStore ct.size) r1 (s1.regno + 1)]
        (by
          intro r ha hb
          simp [noTouch, touches, lhsRegW, lhsRegR, rhsReg, isKillI, Ir.new]
          omega)
        (by
          intro r
          simp [noKill, isKillI, Ir.new])
      simpa using hres

theorem spec_post_inc (f : Nat)
    (ihp : ∀ ct n num s rr s' d, GoodSt s →
      gen_pre_inc f ct n num s = .ok (rr, s', d) → ExprSpec s rr s' d) :
    ∀ ct n num s rr s' d, GoodSt s →
      gen_post_inc (f+1) ct n num s = .ok (rr, s', d) → ExprSpec s rr s' d := by
  intro ct n num s rr s' d hg h
  simp only [gen_post_inc, bind, Except.bind] at h
  cases h1 : gen_pre_inc f ct n num s with
  | error e => rw [h1] at h; exact absurd h (by simp)
  | ok v =>
    obtain ⟨r1, s1, d1⟩ := v
    rw [h1] at h
    dsimp only at h
    cases hsc : gen_inc_scale ct with
    | none => rw [hsc] at h; exact Except.noConfusion h
    | some scale =>
      rw [hsc] at h
      simp only [pure, Except.pure, Except.ok.injEq, Prod.mk.injEq] at h
      obtain ⟨rfl, rfl, rfl⟩ := h
      refine ExprSpec.appendResultOps (ihp ct n num s r1 s1 d1 hg h1) ?_ ?_
      · intro r hne
        simp [noTouch, touches, lhsRegW, lhsRegR, rhsReg, isKillI, Ir.new]
        omega
      · simp [noKill, isKillI, Ir.new]

end GenIr

namespace GenIr

theorem bittype_cases (ty : TokenType) (op : IrOp) (h : bittype ty = some op) :
    op = .IrAdd false ∨ op = .IrSub false ∨ op = .IrMul false ∨ op = .IrDiv ∨
    op = .IrLt ∨ op = .IrLe ∨ op = .IrShl ∨ op = .IrShr ∨ op = .IrMod ∨
    op = .IrAnd ∨ op = .IrOr ∨ op = .IrXor false 1 := by
  cases ty <;> simp_all [bittype]

theorem noTouch_killMap (rs : List Nat) (r : Nat) (h : r ∉ rs) :
    noTouch (rs.map (fun a => Ir.new .IrKill a 0)) r = true := by
  induction rs with
  | nil => rfl
  | cons a rest ih =>
    rw [List.map_cons, noTouch_cons,
      touches_kill_ne a r (fun he => h (he ▸ List.mem_cons_self a rest)),
      ih (fun hm => h (List.mem_cons_of_mem a hm))]
    rfl

theorem killTrail (rs : List Nat) (r : Nat) :
    ∀ base, List.Pairwise (fun a b => a ≠ b) rs → r ∈ rs →
    noKill base r = true →
    killedOnceLast (base ++ rs.map (fun a => Ir.new .IrKill a 0)) r := by
  induction rs with
  | nil =>
    intro base _ hmem
    cases hmem
  | cons a rest ih =>
    intro base hpw hmem hbase
    rw [List.map_cons]
    rcases List.mem_cons.mp hmem with rfl | hmem2
    · exact ⟨base, rest.map _, by simp, hbase,
        noTouch_killMap rest r (fun hm => (List.pairwise_cons.mp hpw).1 r hm rfl)⟩
    · have hne : a ≠ r := (List.pairwise_cons.mp hpw).1 r hmem2
      have hbase2 : noKill (base ++ [Ir.new .IrKill a 0]) r = true := by
        rw [noKill_append, hbase, noKill_cons]
        have : isKillI (Ir.new .IrKill a 0) r = false := by
          simp [isKillI, Ir.new]
          omega
        rw [this]
        rfl
      have hres := ih (base ++ [Ir.new .IrKill a 0])
        (List.pairwise_cons.mp hpw).2 hmem2 hbase2
      simpa [List.append_assoc] using hres

end GenIr

namespace GenIr

theorem touches_call_ne (nm : String) (len : Nat) (args : List Nat)
    (a b r : Nat) (h1 : a ≠ r) (h2 : r ∉ args) :
    touches (Ir.new (.IrCall nm len args) a b) r = false := by
  simp [touches, lhsRegW, lhsRegR, rhsReg, isKillI, Ir.new, h2]
  omega

theorem GSt.regno_mk (a b c d : Nat) : (GSt.mk a b c d).regno = a := rfl

theorem GSt.label_mk (a b c d : Nat) : (GSt.mk a b c d).label = b := rfl

theorem GSt.return_label_mk (a b c d : Nat) :
    (GSt.mk a b c d).return_label = c := rfl

theorem GSt.return_reg_mk (a b c d : Nat) :
    (GSt.mk a b c d).return_reg = d := rfl

theorem GoodSt.relabel (s : GSt) (h : GoodSt s) (x : Nat) :
    GoodSt { s with label := x } := h

theorem spec_expr (f : Nat)
    (ihe : ∀ n s rr s' d, GoodSt s → gen_expr f n s = .ok (rr, s', d) →
      ExprSpec s rr s' d)
    (ihl : ∀ n s rr s' d, GoodSt s → gen_lval f n s = .ok (rr, s', d) →
      ExprSpec s rr s' d)
    (ihb : ∀ op n1 n2 s rr s' d, (op = .IrEqEq ∨ op = .IrNe) → GoodSt s →
      gen_binop f op n1 n2 s = .ok (rr, s', d) → ExprSpec s rr s' d)
    (ihpost : ∀ ct n num s rr s' d, GoodSt s →
      gen_post_inc f ct n num s = .ok (rr, s', d) → ExprSpec s rr s' d)
    (ihs : ∀ n s s' d, GoodSt s → gen_stmt f n s = .ok (s', d) → StmtSpec s s' d)
    (ihel : ∀ ns s rs s' d, GoodSt s → gen_expr_list f ns s = .ok (rs, s', d) →
      ListSpec s rs s' d) :
    ∀ n s rr s' d, GoodSt s → gen_expr (f+1) n s = .ok (rr, s', d) →
      ExprSpec s rr s' d := by
  intro n s rr s' d hg h
  cases n
  all_goals simp only [gen_expr] at h
  all_goals try exact Except.noConfusion h
  case Num val =>
    dsimp only [new_regno] at h
    simp only [pure, Except.pure, Except.ok.injEq, Prod.mk.injEq] at h
    obtain ⟨rfl, rfl, rfl⟩ := h
    refine ⟨by omega, le_refl _, le_refl _, rfl, rfl,
      by simp [noKill, isKillI, Ir.new], ?_, ?_, ?_, ?_⟩
    · intro r hr
      simp [noKill, isKillI, Ir.new]
    · intro r hr hex
      simp [noTouch, touches, lhsRegW, lhsRegR, rhsReg, isKillI, Ir.new]
      omega
    · intro r hr
      simp only [GSt.regno] at hr
      simp [noTouch, touches, lhsRegW, lhsRegR, rhsReg, isKillI, Ir.new]
      omega
    · intro r hr1 hr2 hne
      simp only [GSt.regno] at hr2
      omega
  case LogAnd lhs rhs =>
    simp only [bind, Except.bind] at h
    cases h1 : gen_expr f lhs s with
    | error e => rw [h1] at h; exact absurd h (by simp)
    | ok v =>
      obtain ⟨r1, s1, d1⟩ := v
      rw [h1] at h
      dsimp only [new_labelG] at h
      cases h2 : gen_expr f rhs { s1 with label := s1.label + 1 } with
      | error e => rw [h2] at h; exact absurd h (by simp)
      | ok w =>
        obtain ⟨r2, s2, d2⟩ := w
        rw [h2] at h
        dsimp only at h
        simp only [pure, Except.pure, Except.ok.injEq, Prod.mk.injEq] at h
        obtain ⟨rfl, rfl, rfl⟩ := h
        have e1 := ihe lhs s r1 s1 d1 hg h1
        obtain ⟨hb1, hb2, hl1, hrl1, hrr1, -, -, -, -, -⟩ := id e1
        have hg1 : GoodSt { s1 with label := s1.label + 1 } :=
          GoodSt.relabel s1 (GoodSt.mono hg hrl1 hrr1 (by omega)) _
        have e2 := ihe rhs _ r2 s2 d2 hg1 h2
        obtain ⟨hb3, hb4, -, -, -, -, -, -, -, -⟩ := id e2
        simp only [GSt.regno_mk] at hb3
        have hres := @ExprSpec.binSeq s s1 { s1 with label := s1.label + 1 } s2
          r1 r2 d1 d2 [Ir.new .IrUnless r1 (s1.label + 1)]
          [Ir.new .IrMov r1 r2]
          [Ir.new .IrUnless r1 (s1.label + 1), Ir.new .IrImm r1 1,
           Ir.new .IrLabel (s1.label + 1) 0]
          hg e1 e2 rfl (Nat.le_succ _) rfl rfl
          (by
            intro r ha
            simp [noTouch, touches, lhsRegW, lhsRegR, rhsReg, isKillI, Ir.new]
            omega)
          (by
            intro r
            simp [noKill, isKillI, Ir.new])
          (by
            intro r ha hb
            simp [noTouch, touches, lhsRegW, lhsRegR, rhsReg, isKillI, Ir.new]
            omega)
          (by
            intro r
            simp [noKill, isKillI, Ir.new])
          (by
            intro r ha
            simp [noTouch, touches, lhsRegW, lhsRegR, rhsReg, isKillI, Ir.new]
            omega)
          (by
            intro r
            simp [noKill, isKillI, Ir.new])
        simpa using hres
  case LogOr lhs rhs =>
    simp only [bind, Except.bind] at h
    cases h1 : gen_expr f lhs s with
    | error e => rw [h1] at h; exact absurd h (by simp)
    | ok v =>
      obtain ⟨r1, s1, d1⟩ := v
      rw [h1] at h
      dsimp only [new_labelG] at h
      cases h2 : gen_expr f rhs
          { s1 with label := s1.label + 1 + 1 } with
      | error e => rw [h2] at h; exact absurd h (by simp)
      | ok w =>
        obtain ⟨r2, s2, d2⟩ := w
        rw [h2] at h
        dsimp only at h
        simp only [pure, Except.pure, Except.ok.injEq, Prod.mk.injEq] at h
        obtain ⟨rfl, rfl, rfl⟩ := h
        have e1 := ihe lhs s r1 s1 d1 hg h1
        obtain ⟨hb1, hb2, hl1, hrl1, hrr1, -, -, -, -, -⟩ := id e1
        have hg1 : GoodSt { s1 with label := s1.label + 1 + 1 } :=
          GoodSt.relabel s1 (GoodSt.mono hg hrl1 hrr1 (by omega)) _
        have e2 := ihe rhs _ r2 s2 d2 hg1 h2
        obtain ⟨hb3, hb4, -, -, -, -, -, -, -, -⟩ := id e2
        simp only [GSt.regno_mk] at hb3
        have hres := @ExprSpec.binSeq s s1
          { s1 with label := s1.label + 1 + 1 } s2
          r1 r2 d1 d2
          [Ir.new .IrUnless r1 (s1.label + 1), Ir.new .IrImm r1 1,
           Ir.new .IrJmp (s1.label + 1 + 1) 0, Ir.new .IrLabel (s1.label + 1) 0]
          [Ir.new .IrMov r1 r2]
          [Ir.new .IrUnless r1 (s1.label + 1 + 1), Ir.new .IrImm r1 1,
           Ir.new .IrLabel (s1.label + 1 + 1) 0]
          hg e1 e2 rfl (by simp only [GSt.label_mk]; omega) rfl rfl
          (by
            intro r ha
            simp [noTouch, touches, lhsRegW, lhsRegR, rhsReg, isKillI, Ir.new]
            omega)
          (by
            intro r
            simp [noKill, isKillI, Ir.new])
          (by
            intro r ha hb
            simp [noTouch, touches, lhsRegW, lhsRegR, rhsReg, isKillI, Ir.new]
            omega)
          (by
            intro r
            simp [noKill, isKillI, Ir.new])
          (by
            intro r ha
            simp [noTouch, touches, lhsRegW, lhsRegR, rhsReg, isKillI, Ir.new]
            omega)
          (by
            intro r
            simp [noKill, isKillI, Ir.new])
        simpa using hres
  case BinaryTree ct ty lhs rhs =>
    simp only [bind, Except.bind] at h
    cases h1 : gen_expr f lhs s with
    | error e => rw [h1] at h; exact absurd h (by simp)
    | ok v =>
      obtain ⟨r1, s1, d1⟩ := v
      rw [h1] at h
      dsimp only at h
      cases h2 : gen_expr f rhs s1 with
      | error e => rw [h2] at h; exact absurd h (by simp)
      | ok w =>
        obtain ⟨r2, s2, d2⟩ := w
        rw [h2] at h
        dsimp only at h
        have e1 := ihe lhs s r1 s1 d1 hg h1
        obtain ⟨hb1, hb2, hl1, hrl1, hrr1, -, -, -, -, -⟩ := id e1
        have hg1 : GoodSt s1 := GoodSt.mono hg hrl1 hrr1 (by omega)
        have e2 := ihe rhs s1 r2 s2 d2 hg1 h2
        obtain ⟨hb3, hb4, -, -, -, -, -, -, -, -⟩ := id e2
        cases hbt : ttBeq ty .TokenTilde
        all_goals rw [hbt] at h
        · cases hbty : bittype ty with
          | none => rw [hbty] at h; exact Except.noConfusion h
          | some op =>
            rw [hbty] at h
            simp only [pure, Except.pure, Except.ok.injEq, Prod.mk.injEq] at h
            have hopc := bittype_cases ty op hbty
            have hres := @ExprSpec.binSeq s s1 s1 s2 r1 r2 d1 d2 []
              [Ir.new op r1 r2] [] hg e1 e2 rfl (le_refl _) rfl rfl
              (fun r hne => rfl) (fun r => rfl)
              (by
                intro r ha hb
                rcases hopc with rfl|rfl|rfl|rfl|rfl|rfl|rfl|rfl|rfl|rfl|rfl|rfl <;>
                  simp [noTouch, touches, lhsRegW, lhsRegR, rhsReg, isKillI,
                    Ir.new] <;> omega)
              (by
                intro r
                rcases hopc with rfl|rfl|rfl|rfl|rfl|rfl|rfl|rfl|rfl|rfl|rfl|rfl <;>
                  simp [noKill, isKillI, Ir.new])
              (fun r hne => rfl) (fun r => rfl)
            obtain ⟨rfl, rfl, rfl⟩ := h
            simpa using hres
        · simp only [if_true, pure, Except.pure, Except.ok.injEq,
            Prod.mk.injEq] at h
          have hres := @ExprSpec.binSeq s s1 s1 s2 r1 r2 d1 d2 [] []
            [Ir.new (.IrXor true (-1)) r1 1]
            hg e1 e2 rfl (le_refl _) rfl rfl
            (fun r hne => rfl) (fun r => rfl)
            (fun r ha hb => rfl) (fun r => rfl)
            (by
              intro r ha
              simp [noTouch, touches, lhsRegW, lhsRegR, rhsReg, isKillI, Ir.new]
              omega)
            (by
              intro r
              simp [noKill, isKillI, Ir.new])
          obtain ⟨rfl, rfl, rfl⟩ := h
          simpa using hres
  case Var var =>
    simp only [bind, Except.bind] at h
    cases h1 : gen_lval f (.Var var) s with
    | error e => rw [h1] at h; exact absurd h (by simp)
    | ok v =>
      obtain ⟨r1, s1, d1⟩ := v
      rw [h1] at h
      dsimp only at h
      simp only [pure, Except.pure, Except.ok.injEq, Prod.mk.injEq] at h
      obtain ⟨rfl, rfl, rfl⟩ := h
      refine ExprSpec.appendResultOps (ihl _ s r1 s1 d1 hg h1) ?_ ?_
      · intro r hne
        simp [noTouch, touches, lhsRegW, lhsRegR, rhsReg, isKillI, Ir.new]
        omega
      · simp [noKill, isKillI, Ir.new]
  case Dot ct e nm =>
    simp only [bind, Except.bind] at h
    cases h1 : gen_lval f (.Dot ct e nm) s with
    | error er => rw [h1] at h; exact absurd h (by simp)
    | ok v =>
      obtain ⟨r1, s1, d1⟩ := v
      rw [h1] at h
      dsimp only at h
      simp only [pure, Except.pure, Except.ok.injEq, Prod.mk.injEq] at h
      obtain ⟨rfl, rfl, rfl⟩ := h
      refine ExprSpec.appendResultOps (ihl _ s r1 s1 d1 hg h1) ?_ ?_
      · intro r hne
        simp [noTouch, touches, lhsRegW, lhsRegR, rhsReg, isKillI, Ir.new]
        omega
      · simp [noKill, isKillI, Ir.new]
  case EqTree ct lhs rhs =>
    simp only [bind, Except.bind] at h
    cases h1 : gen_lval f lhs s with
    | error e => rw [h1] at h; exact absurd h (by simp)
    | ok v =>
      obtain ⟨r1, s1, d1⟩ := v
      rw [h1] at h
      dsimp only at h
      cases h2 : gen_expr f rhs s1 with
      | error e => rw [h2] at h; exact absurd h (by simp)
      | ok w =>
        obtain ⟨r2, s2, d2⟩ := w
        rw [h2] at h
        dsimp only at h
        simp only [pure, Except.pure, Except.ok.injEq, Prod.mk.injEq] at h
        obtain ⟨rfl, rfl, rfl⟩ := h
        have e1 := ihl lhs s r1 s1 d1 hg h1
        obtain ⟨hb1, hb2, hl1, hrl1, hrr1, -, -, -, -, -⟩ := id e1
        have hg1 : GoodSt s1 := GoodSt.mono hg hrl1 hrr1 (by omega)
        have e2 := ihe rhs s1 r2 s2 d2 hg1 h2
        obtain ⟨hb3, hb4, -, -, -, -, -, -, -, -⟩ := id e2
        have hres := @ExprSpec.binSeqR s s1 s1 s2 r1 r2 d1 d2
          [Ir.new (.IrStore ct.size) r1 r2]
          hg e1 e2 rfl (le_refl _) rfl rfl
          (by
            intro r ha hb
            simp [noTouch, touches, lhsRegW, lhsRegR, rhsReg, isKillI, Ir.new]
            omega)
          (by
            intro r
            simp [noKill, isKillI, Ir.new])
        simpa using hres
  case Call ct ident callarg =>
    simp only [bind, Except.bind] at h
    cases h1 : gen_expr_list f callarg s with
    | error e => rw [h1] at h; exact absurd h (by simp)
    | ok v =>
      obtain ⟨args, s1, d1⟩ := v
      rw [h1] at h
      dsimp only [new_regno] at h
      simp only [pure, Except.pure, Except.ok.injEq, Prod.mk.injEq] at h
      obtain ⟨rfl, rfl, rfl⟩ := h
      obtain ⟨hn, hl, hrl, hrr, hpw, hmem, hok, hot, hoh, hkol⟩ :=
        ihel callarg s args s1 d1 hg h1
      have hnotin_low : ∀ r, r ≤ s.regno → r ∉ args := by
        intro r hr hmem2
        have := (hmem r hmem2).1
        omega
      have hnotin_hi : ∀ r, s1.regno < r → r ∉ args := by
        intro r hr hmem2
        have := (hmem r hmem2).2.1
        omega
      refine ⟨by omega, le_refl _, hl, hrl, hrr, ?_, ?_, ?_, ?_, ?_⟩
      · rw [noKill_append, noKill_append,
          noKill_of_noTouch (hoh _ (by omega)),
          noKill_of_noTouch (noTouch_killMap args _ (hnotin_hi _ (by omega)))]
        have : noKill [Ir.new (.IrCall ident args.length args) (s1.regno + 1) 0]
            (s1.regno + 1) = true := by
          simp [noKill, isKillI, Ir.new]
        rw [this]
        rfl
      · intro r hr
        rw [noKill_append, noKill_append, hok r hr,
          noKill_of_noTouch (noTouch_killMap args r (hnotin_low r hr))]
        have : noKill [Ir.new (.IrCall ident args.length args) (s1.regno + 1) 0]
            r = true := by
          simp [noKill, isKillI, Ir.new]
        rw [this]
        rfl
      · intro r hr hex
        rw [noTouch_append, noTouch_append, hot r hr hex,
          noTouch_killMap args r (hnotin_low r hr), noTouch_cons,
          touches_call_ne ident args.length args (s1.regno + 1) 0 r
            (by omega) (hnotin_low r hr), noTouch_nil]
        rfl
      · intro r hr
        simp only [GSt.regno] at hr
        rw [noTouch_append, noTouch_append, hoh r (by omega),
          noTouch_killMap args r (hnotin_hi r (by omega)), noTouch_cons,
          touches_call_ne ident args.length args (s1.regno + 1) 0 r
            (by omega) (hnotin_hi r (by omega)), noTouch_nil]
        rfl
      · intro r hr1 hr2 hne
        simp only [GSt.regno] at hr2
        have hr2' : r ≤ s1.regno := by omega
        by_cases hmem2 : r ∈ args
        · have hbase : noKill
              (d1 ++ [Ir.new (.IrCall ident args.length args) (s1.regno + 1) 0])
              r = true := by
            rw [noKill_append, (hmem r hmem2).2.2]
            have : noKill
                [Ir.new (.IrCall ident args.length args) (s1.regno + 1) 0]
                r = true := by
              simp [noKill, isKillI, Ir.new]
            rw [this]
            rfl
          have := killTrail args r
            (d1 ++ [Ir.new (.IrCall ident args.length args) (s1.regno + 1) 0])
            hpw hmem2 hbase
          simpa [List.append_assoc] using this
        · have hk := hkol r hr1 hr2' hmem2
          have hnt : noTouch
              ([Ir.new (.IrCall ident args.length args) (s1.regno + 1) 0] ++
                args.map (fun a => Ir.new .IrKill a 0)) r = true := by
            rw [noTouch_append, noTouch_killMap args r hmem2, noTouch_cons,
              touches_call_ne ident args.length args (s1.regno + 1) 0 r
                (by omega) hmem2, noTouch_nil]
            rfl
          have := killedOnceLast_append_right hk hnt
          simpa [List.append_assoc] using this
  case Deref ct lhs =>
    simp only [bind, Except.bind] at h
    cases h1 : gen_expr f lhs s with
    | error e => rw [h1] at h; exact absurd h (by simp)
    | ok v =>
      obtain ⟨r1, s1, d1⟩ := v
      rw [h1] at h
      dsimp only at h
      cases hpt : (GNode.nodesctype lhs).ptr_to with
      | none => rw [hpt] at h; exact Except.noConfusion h
      | some pt =>
        rw [hpt] at h
        simp only [pure, Except.pure, Except.ok.injEq, Prod.mk.injEq] at h
        obtain ⟨rfl, rfl, rfl⟩ := h
        refine ExprSpec.appendResultOps (ihe lhs s r1 s1 d1 hg h1) ?_ ?_
        · intro r hne
          simp [noTouch, touches, lhsRegW, lhsRegR, rhsReg, isKillI, Ir.new]
          omega
        · simp [noKill, isKillI, Ir.new]
  case Addr ct lhs => exact ihl lhs s rr s' d hg h
  case EqEq lhs rhs => exact ihb .IrEqEq lhs rhs s rr s' d (Or.inl rfl) hg h
  case Ne lhs rhs => exact ihb .IrNe lhs rhs s rr s' d (Or.inr rfl) hg h
  case Not e =>
    simp only [bind, Except.bind] at h
    cases h1 : gen_expr f e s with
    | error er => rw [h1] at h; exact absurd h (by simp)
    | ok v =>
      obtain ⟨r1, s1, d1⟩ := v
      rw [h1] at h
      dsimp only [new_regno] at h
      simp only [pure, Except.pure, Except.ok.injEq, Prod.mk.injEq] at h
      obtain ⟨rfl, rfl, rfl⟩ := h
      have e1 := ihe e s r1 s1 d1 hg h1
      obtain ⟨hb1, hb2, -, -, -, -, -, -, -, -⟩ := id e1
      have hres := @ExprSpec.appendFreshKilled s s1 r1 d1 e1
        [Ir.new .IrImm (s1.regno + 1) 0, Ir.new .IrEqEq r1 (s1.regno + 1)]
        (by
          intro r ha hb
          simp [noTouch, touches, lhsRegW, lhsRegR, rhsReg, isKillI, Ir.new]
          omega)
        (by
          intro r
          simp [noKill, isKillI, Ir.new])
      simpa using hres
  case Ternary ct cond thenN els =>
    simp only [bind, Except.bind] at h
    dsimp only [new_labelG] at h
    cases h1 : gen_expr f cond { s with label := s.label + 1 + 1 } with
    | error e => rw [h1] at h; exact absurd h (by simp)
    | ok v =>
      obtain ⟨r1, s3, d1⟩ := v
      rw [h1] at h
      dsimp only at h
      cases h2 : gen_expr f thenN s3 with
      | error e => rw [h2] at h; exact absurd h (by simp)
      | ok w =>
        obtain ⟨r2, s4, d2⟩ := w
        rw [h2] at h
        dsimp only at h
        cases h3 : gen_expr f els s4 with
        | error e => rw [h3] at h; exact absurd h (by simp)
        | ok u =>
          obtain ⟨r3, s5, d3⟩ := u
          rw [h3] at h
          dsimp only at h
          simp only [pure, Except.pure, Except.ok.injEq, Prod.mk.injEq] at h
          obtain ⟨rfl, rfl, rfl⟩ := h
          have hg2 : GoodSt { s with label := s.label + 1 + 1 } :=
            GoodSt.relabel s hg _
          have e1 : ExprSpec s r1 s3 d1 :=
            (ihe cond _ r1 s3 d1 hg2 h1).relaxPreE rfl
              (by simp only [GSt.label_mk]; omega) rfl rfl
          obtain ⟨hb1, hb2, hl1, hrl1, hrr1, -, -, -, -, -⟩ := id e1
          have hg3 : GoodSt s3 := GoodSt.mono hg hrl1 hrr1 (by omega)
          have e2 := ihe thenN s3 r2 s4 d2 hg3 h2
          obtain ⟨hb3, hb4, hl2, hrl2, hrr2, -, -, -, -, -⟩ := id e2
          have hg4 : GoodSt s4 := GoodSt.mono hg3 hrl2 hrr2 (by omega)
          have e3 := ihe els s4 r3 s5 d3 hg4 h3
          obtain ⟨hb5, hb6, -, -, -, -, -, -, -, -⟩ := id e3
          have hT1 := @ExprSpec.binSeq s s3 s3 s4 r1 r2 d1 d2
            [Ir.new .IrUnless r1 (s.label + 1)]
            [Ir.new .IrMov r1 r2]
            [Ir.new .IrJmp (s.label + 1 + 1) 0, Ir.new .IrLabel (s.label + 1) 0]
            hg e1 e2 rfl (le_refl _) rfl rfl
            (by
              intro r ha
              simp [noTouch, touches, lhsRegW, lhsRegR, rhsReg, isKillI, Ir.new]
              omega)
            (by
              intro r
              simp [noKill, isKillI, Ir.new])
            (by
              intro r ha hb
              simp [noTouch, touches, lhsRegW, lhsRegR, rhsReg, isKillI, Ir.new]
              omega)
            (by
              intro r
              simp [noKill, isKillI, Ir.new])
            (by
              intro r ha
              simp [noTouch, touches, lhsRegW, lhsRegR, rhsReg, isKillI, Ir.new])
            (by
              intro r
              simp [noKill, isKillI, Ir.new])
          have hT2 := @ExprSpec.binSeq s s4 s4 s5 r1 r3
            (d1 ++ [Ir.new .IrUnless r1 (s.label + 1)] ++ d2 ++
              [Ir.new .IrMov r1 r2] ++
              Ir.new .IrKill r2 0 ::
                [Ir.new .IrJmp (s.label + 1 + 1) 0,
                 Ir.new .IrLabel (s.label + 1) 0])
            d3 [] [Ir.new .IrMov r1 r3]
            [Ir.new .IrLabel (s.label + 1 + 1) 0]
            hg hT1 e3 rfl (le_refl _) rfl rfl
            (fun r hne => rfl) (fun r => rfl)
            (by
              intro r ha hb
              simp [noTouch, touches, lhsRegW, lhsRegR, rhsReg, isKillI, Ir.new]
              omega)
            (by
              intro r
              simp [noKill, isKillI, Ir.new])
            (by
              intro r ha
              simp [noTouch, touches, lhsRegW, lhsRegR, rhsReg, isKillI, Ir.new])
            (by
              intro r
              simp [noKill, isKillI, Ir.new])
          simpa using hT2
  case TupleExpr ct lhs rhs =>
    simp only [bind, Except.bind] at h
    cases h1 : gen_expr f lhs s with
    | error e => rw [h1] at h; exact absurd h (by simp)
    | ok v =>
      obtain ⟨r1, s1, d1⟩ := v
      rw [h1] at h
      dsimp only at h
      cases h2 : gen_expr f rhs s1 with
      | error e => rw [h2] at h; exact absurd h (by simp)
      | ok w =>
        obtain ⟨r2, s2, d2⟩ := w
        rw [h2] at h
        dsimp only at h
        simp only [pure, Except.pure, Except.ok.injEq, Prod.mk.injEq] at h
        have e1 := ihe lhs s r1 s1 d1 hg h1
        obtain ⟨hb1, hb2, hl1, hrl1, hrr1, -, -, -, -, -⟩ := id e1
        have hg1 : GoodSt s1 := GoodSt.mono hg hrl1 hrr1 (by omega)
        have e2 := ihe rhs s1 r2 s2 d2 hg1 h2
        have hres := @ExprSpec.seqKillBetween s s1 s1 s2 r1 r2 d1 d2
          hg e1 e2 rfl (le_refl _) rfl rfl
        obtain ⟨rfl, rfl, rfl⟩ := h
        simpa using hres
  case Neg e =>
    simp only [bind, Except.bind] at h
    cases h1 : gen_expr f e s with
    | error er => rw [h1] at h; exact absurd h (by simp)
    | ok v =>
      obtain ⟨r1, s1, d1⟩ := v
      rw [h1] at h
      dsimp only at h
      simp only [pure, Except.pure, Except.ok.injEq, Prod.mk.injEq] at h
      obtain ⟨rfl, rfl, rfl⟩ := h
      refine ExprSpec.appendResultOps (ihe e s r1 s1 d1 hg h1) ?_ ?_
      · intro r hne
        simp [noTouch, touches, lhsRegW, lhsRegR, rhsReg, isKillI, Ir.new]
        omega
      · simp [noKill, isKillI, Ir.new]
  case IncDec ct selector lhs =>
    split at h
    · exact ihpost ct lhs 1 s rr s' d hg h
    · exact ihpost ct lhs (-1) s rr s' d hg h
  case StmtExpr ct body =>
    simp only [bind, Except.bind] at h
    cases h1 : gen_stmt f body ⟨s.regno + 1, s.label + 1, s.label + 1, s.regno + 1⟩ with
    | error e => rw [h1] at h; exact absurd h (by simp)
    | ok v =>
      obtain ⟨s3, dBody⟩ := v
      rw [h1] at h
      dsimp only at h
      simp only [pure, Except.pure, Except.ok.injEq, Prod.mk.injEq] at h
      obtain ⟨rfl, rfl, rfl⟩ := h
      have hgs2 : GoodSt ⟨s.regno + 1, s.label + 1, s.label + 1, s.regno + 1⟩ :=
        fun _ => le_refl _
      obtain ⟨hn, hl, hrl, hrr, hok, hot, hoh, hkol⟩ :=
        ihs body _ s3 dBody hgs2 h1
      simp only [GSt.regno_mk, GSt.label_mk, GSt.return_label_mk,
        GSt.return_reg_mk] at hn hl hrl hrr hok hot hoh hkol
      have hlab : ∀ r, noTouch [Ir.new .IrLabel s3.return_label 0] r = true := by
        intro r
        rw [noTouch_cons, touches_label s3.return_label 0 r, noTouch_nil]
        rfl
      refine ⟨by omega, by simp only [GSt.regno_mk]; omega,
        by simp only [GSt.label_mk]; omega,
        by simp only [GSt.return_label_mk], by simp only [GSt.return_reg_mk],
        ?_, ?_, ?_, ?_, ?_⟩
      · rw [noKill_append, hok (s.regno + 1) (by omega),
          noKill_of_noTouch (hlab (s.regno + 1))]
        rfl
      · intro r hr
        rw [noKill_append, hok r (by omega), noKill_of_noTouch (hlab r)]
        rfl
      · intro r hr hex
        rw [noTouch_append, hot r (by omega) (fun _ => by omega), hlab r]
        rfl
      · intro r hr
        simp only [GSt.regno] at hr
        rw [noTouch_append, hoh r (by omega), hlab r]
        rfl
      · intro r hr1 hr2 hne
        simp only [GSt.regno] at hr2
        exact killedOnceLast_append_right (hkol r (by omega) (by omega)) (hlab r)

end GenIr

namespace GenIr

theorem StmtSpec.nil (s : GSt) : StmtSpec s s [] :=
  ⟨le_refl _, le_refl _, rfl, rfl, fun _ _ => rfl, fun _ _ _ => rfl,
   fun _ _ => rfl, fun r h1 h2 => by omega⟩

theorem for_cond_aux (f : Nat)
    (ihe : ∀ n s rr s' d, GoodSt s → gen_expr f n s = .ok (rr, s', d) →
      ExprSpec s rr s' d)
    (c : GNode) (s : GSt) (y : Nat) (s' : GSt) (d : List Ir) (hg : GoodSt s)
    (h : (gen_expr f c s >>= fun v =>
        pure (v.2.1, v.2.2 ++ [Ir.new .IrUnless v.1 y, Ir.new .IrKill v.1 0]) :
        Except String (GSt × List Ir)) = .ok (s', d)) : StmtSpec s s' d := by
  simp only [bind, Except.bind] at h
  cases h1 : gen_expr f c s with
  | error e => rw [h1] at h; exact absurd h (by simp)
  | ok v =>
    obtain ⟨r2, s4, dc⟩ := v
    rw [h1] at h
    dsimp only at h
    simp only [pure, Except.pure, Except.ok.injEq, Prod.mk.injEq] at h
    have e1 := ihe c s r2 s4 dc hg h1
    have hres := @ExprSpec.killAfter s s4 r2 dc hg e1
      [Ir.new .IrUnless r2 y] [] (fun r => rfl)
      (by
        intro r ha hex
        simp [noTouch, touches, lhsRegW, lhsRegR, rhsReg, isKillI, Ir.new]
        omega)
      (fun r => rfl)
    obtain ⟨rfl, rfl⟩ := h
    simpa using hres

theorem spec_for_cond (f : Nat)
    (ihe : ∀ n s rr s' d, GoodSt s → gen_expr f n s = .ok (rr, s', d) →
      ExprSpec s rr s' d) :
    ∀ c s y s' d, GoodSt s → gen_for_cond (f+1) c s y = .ok (s', d) →
      StmtSpec s s' d := by
  intro c s y s' d hg h
  cases c
  all_goals simp only [gen_for_cond] at h
  case NULL =>
    simp only [pure, Except.pure, Except.ok.injEq, Prod.mk.injEq] at h
    obtain ⟨rfl, rfl⟩ := h
    exact StmtSpec.nil s
  all_goals exact for_cond_aux f ihe _ s y s' d hg h

theorem spec_expr_list (f : Nat)
    (ihe : ∀ n s rr s' d, GoodSt s → gen_expr f n s = .ok (rr, s', d) →
      ExprSpec s rr s' d)
    (ihel : ∀ ns s rs s' d, GoodSt s → gen_expr_list f ns s = .ok (rs, s', d) →
      ListSpec s rs s' d) :
    ∀ ns s rs s' d, GoodSt s → gen_expr_list (f+1) ns s = .ok (rs, s', d) →
      ListSpec s rs s' d := by
  intro ns s rs s' d hg h
  cases ns with
  | nil =>
    simp only [gen_expr_list, pure, Except.pure, Except.ok.injEq,
      Prod.mk.injEq] at h
    obtain ⟨rfl, rfl, rfl⟩ := h
    exact ⟨le_refl _, le_refl _, rfl, rfl, List.Pairwise.nil,
      fun a ha => absurd ha (List.not_mem_nil a),
      fun _ _ => rfl, fun _ _ _ => rfl, fun _ _ => rfl,
      fun r h1 h2 _ => by omega⟩
  | cons a rest =>
    simp only [gen_expr_list, bind, Except.bind] at h
    cases h1 : gen_expr f a s with
    | error e => rw [h1] at h; exact absurd h (by simp)
    | ok v =>
      obtain ⟨r1, s1, d1⟩ := v
      rw [h1] at h
      dsimp only at h
      cases h2 : gen_expr_list f rest s1 with
      | error e => rw [h2] at h; exact absurd h (by simp)
      | ok w =>
        obtain ⟨rs2, s2, d2⟩ := w
        rw [h2] at h
        dsimp only at h
        simp only [pure, Except.pure, Except.ok.injEq, Prod.mk.injEq] at h
        have e1 := ihe a s r1 s1 d1 hg h1
        obtain ⟨hb1, hb2, hl1, hrl1, hrr1, hnk1, hok1, hot1, hoh1, hkol1⟩ := id e1
        have hg1 : GoodSt s1 := GoodSt.mono hg hrl1 hrr1 (by omega)
        obtain ⟨hn2, hl2, hrl2, hrr2, hpw2, hmem2, hok2, hot2, hoh2, hkol2⟩ :=
          ihel rest s1 rs2 s2 d2 hg1 h2
        have hexd2 : ∀ r, s.regno < r → r ≤ s1.regno →
            noTouch d2 r = true := by
          intro r hra hrb
          refine hot2 r hrb ?_
          intro hl3
          rw [hrl1] at hl3
          have := hg hl3
          rw [hrr1]
          omega
        obtain ⟨rfl, rfl, rfl⟩ := h
        refine ⟨by omega, by omega, by rw [hrl2, hrl1], by rw [hrr2, hrr1],
          ?_, ?_, ?_, ?_, ?_, ?_⟩
        · refine List.Pairwise.cons ?_ hpw2
          intro b hb
          have := (hmem2 b hb).1
          omega
        · intro b hb
          rcases List.mem_cons.mp hb with rfl | hb2
          · refine ⟨hb1, by omega, ?_⟩
            rw [noKill_append, hnk1, noKill_of_noTouch (hexd2 b (by omega) hb2)]
            rfl
          · obtain ⟨hm1, hm2, hm3⟩ := hmem2 b hb2
            refine ⟨by omega, hm2, ?_⟩
            rw [noKill_append, noKill_of_noTouch (hoh1 b (by omega)), hm3]
            rfl
        · intro r hr
          rw [noKill_append, hok1 r hr, hok2 r (by omega)]
          rfl
        · intro r hr hex
          rw [noTouch_append, hot1 r hr hex, hot2 r (by omega)
            (fun hl3 => by
              rw [hrr1]
              exact hex (by rwa [hrl1] at hl3))]
          rfl
        · intro r hr
          rw [noTouch_append, hoh1 r (by omega), hoh2 r hr]
          rfl
        · intro r hr1 hr2 hnm
          have hnr1 : r ≠ r1 := fun he => hnm (he ▸ List.mem_cons_self r1 rs2)
          have hnm2 : r ∉ rs2 := fun hm => hnm (List.mem_cons_of_mem r1 hm)
          rcases le_or_lt r s1.regno with hle | hgt
          · exact killedOnceLast_append_right (hkol1 r hr1 hle hnr1)
              (hexd2 r hr1 hle)
          · exact killedOnceLast_append_left (hoh1 r hgt)
              (hkol2 r hgt hr2 hnm2)

theorem spec_stmt_list (f : Nat)
    (ihs : ∀ n s s' d, GoodSt s → gen_stmt f n s = .ok (s', d) →
      StmtSpec s s' d)
    (ihsl : ∀ ns s s' d, GoodSt s → gen_stmt_list f ns s = .ok (s', d) →
      StmtSpec s s' d) :
    ∀ ns s s' d, GoodSt s → gen_stmt_list (f+1) ns s = .ok (s', d) →
      StmtSpec s s' d := by
  intro ns s s' d hg h
  cases ns with
  | nil =>
    simp only [gen_stmt_list, pure, Except.pure, Except.ok.injEq,
      Prod.mk.injEq] at h
    obtain ⟨rfl, rfl⟩ := h
    exact StmtSpec.nil s
  | cons a rest =>
    simp only [gen_stmt_list, bind, Except.bind] at h
    cases h1 : gen_stmt f a s with
    | error e => rw [h1] at h; exact absurd h (by simp)
    | ok v =>
      obtain ⟨s1, d1⟩ := v
      rw [h1] at h
      dsimp only at h
      cases h2 : gen_stmt_list f rest s1 with
      | error e => rw [h2] at h; exact absurd h (by simp)
      | ok w =>
        obtain ⟨s2, d2⟩ := w
        rw [h2] at h
        dsimp only at h
        simp only [pure, Except.pure, Except.ok.injEq, Prod.mk.injEq] at h
        have S1 := ihs a s s1 d1 hg h1
        obtain ⟨hn1, hl1, hrl1, hrr1, -, -, -, -⟩ := id S1
        have hg1 : GoodSt s1 := GoodSt.mono hg hrl1 hrr1 hn1
        have S2 := ihsl rest s1 s2 d2 hg1 h2
        obtain ⟨rfl, rfl⟩ := h
        exact StmtSpec.seq hg S1 S2 rfl (le_refl _) rfl rfl

end GenIr

namespace GenIr

theorem spec_stmt (f : Nat)
    (ihe : ∀ n s rr s' d, GoodSt s → gen_expr f n s = .ok (rr, s', d) →
      ExprSpec s rr s' d)
    (ihs : ∀ n s s' d, GoodSt s → gen_stmt f n s = .ok (s', d) → StmtSpec s s' d)
    (ihfc : ∀ c s y s' d, GoodSt s → gen_for_cond f c s y = .ok (s', d) →
      StmtSpec s s' d)
    (ihsl : ∀ ns s s' d, GoodSt s → gen_stmt_list f ns s = .ok (s', d) →
      StmtSpec s s' d) :
    ∀ n s s' d, GoodSt s → gen_stmt (f+1) n s = .ok (s', d) →
      StmtSpec s s' d := by
  intro n s s' d hg h
  cases n
  all_goals simp only [gen_stmt] at h
  all_goals try exact Except.noConfusion h
  case NULL =>
    simp only [pure, Except.pure, Except.ok.injEq, Prod.mk.injEq] at h
    obtain ⟨rfl, rfl⟩ := h
    exact StmtSpec.nil s
  case Ret lhs =>
    simp only [bind, Except.bind] at h
    cases h1 : gen_expr f lhs s with
    | error e => rw [h1] at h; exact absurd h (by simp)
    | ok v =>
      obtain ⟨lhi, s1, d1⟩ := v
      rw [h1] at h
      dsimp only at h
      have e1 := ihe lhs s lhi s1 d1 hg h1
      obtain ⟨hb1, hb2, hl1, hrl1, hrr1, -, -, -, -, -⟩ := id e1
      split at h
      · simp only [pure, Except.pure, Except.ok.injEq, Prod.mk.injEq] at h
        rename_i hcond
        have hres := @ExprSpec.killAfter s s1 lhi d1 hg e1
          [Ir.new .IrMov s1.return_reg lhi] [Ir.new .IrJmp s1.return_label 0]
          (fun r => rfl)
          (by
            intro r ha hex
            have hner : r ≠ s1.return_reg := by
              rw [hrr1]
              exact hex (by rw [← hrl1]; omega)
            simp [noTouch, touches, lhsRegW, lhsRegR, rhsReg, isKillI, Ir.new]
            omega)
          (by
            intro r
            rw [noTouch_cons, touches_jmp, noTouch_nil]
            rfl)
        obtain ⟨rfl, rfl⟩ := h
        simpa using hres
      · simp only [pure, Except.pure, Except.ok.injEq, Prod.mk.injEq] at h
        have hres := @ExprSpec.killAfter s s1 lhi d1 hg e1
          [Ir.new .IrRet lhi 0] [] (fun r => rfl)
          (by
            intro r ha hex
            simp [noTouch, touches, lhsRegW, lhsRegR, rhsReg, isKillI, Ir.new]
            omega)
          (fun r => rfl)
        obtain ⟨rfl, rfl⟩ := h
        simpa using hres
  case Expr lhs =>
    simp only [bind, Except.bind] at h
    cases h1 : gen_expr f lhs s with
    | error e => rw [h1] at h; exact absurd h (by simp)
    | ok v =>
      obtain ⟨r1, s1, d1⟩ := v
      rw [h1] at h
      dsimp only at h
      simp only [pure, Except.pure, Except.ok.injEq, Prod.mk.injEq] at h
      have e1 := ihe lhs s r1 s1 d1 hg h1
      have hres := @ExprSpec.killAfter s s1 r1 d1 hg e1 [] []
        (fun r => rfl) (fun r _ _ => rfl) (fun r => rfl)
      obtain ⟨rfl, rfl⟩ := h
      simpa using hres
  case IfThen cond thenN elthen =>
    simp only [bind, Except.bind] at h
    cases h1 : gen_expr f cond s with
    | error e => rw [h1] at h; exact absurd h (by simp)
    | ok v =>
      obtain ⟨lhi, s1, d1⟩ := v
      rw [h1] at h
      dsimp only [new_labelG] at h
      cases h2 : gen_stmt f thenN { s1 with label := s1.label + 1 + 1 } with
      | error e => rw [h2] at h; exact absurd h (by simp)
      | ok w =>
        obtain ⟨s4, d2⟩ := w
        rw [h2] at h
        dsimp only at h
        have e1 := ihe cond s lhi s1 d1 hg h1
        obtain ⟨hb1, hb2, hl1, hrl1, hrr1, -, -, -, -, -⟩ := id e1
        have hg1 : GoodSt s1 := GoodSt.mono hg hrl1 hrr1 (by omega)
        have hg1x : GoodSt { s1 with label := s1.label + 1 + 1 } :=
          GoodSt.relabel s1 hg1 _
        have Sif := @ExprSpec.killAfter s s1 lhi d1 hg e1
          [Ir.new .IrUnless lhi (s1.label + 1)] [] (fun r => rfl)
          (by
            intro r ha hex
            simp [noTouch, touches, lhsRegW, lhsRegR, rhsReg, isKillI, Ir.new]
            omega)
          (fun r => rfl)
        have Sb := ihs thenN _ s4 d2 hg1x h2
        have T1 := StmtSpec.seq hg Sif Sb
          (by simp only [GSt.regno_mk]) (by simp only [GSt.label_mk]; omega)
          (by simp only [GSt.return_label_mk])
          (by simp only [GSt.return_reg_mk])
        cases elthen with
        | none =>
          dsimp only at h
          simp only [pure, Except.pure, Except.ok.injEq, Prod.mk.injEq] at h
          have T2 := StmtSpec.append_inert T1
            (t := [Ir.new .IrLabel (s1.label + 1) 0])
            (by
              intro r
              rw [noTouch_cons, touches_label, noTouch_nil]
              rfl)
          obtain ⟨rfl, rfl⟩ := h
          simpa using T2
        | some elnode =>
          dsimp only at h
          cases h3 : gen_stmt f elnode s4 with
          | error e => rw [h3] at h; exact absurd h (by simp)
          | ok u =>
            obtain ⟨s5, d3⟩ := u
            rw [h3] at h
            dsimp only at h
            simp only [pure, Except.pure, Except.ok.injEq, Prod.mk.injEq] at h
            obtain ⟨hnT, hlT, hrlT, hrrT, -, -, -, -⟩ := id T1
            have hg4 : GoodSt s4 := GoodSt.mono hg hrlT hrrT hnT
            have Sel := ihs elnode s4 s5 d3 hg4 h3
            have T2 := StmtSpec.append_inert T1
              (t := [Ir.new .IrJmp (s1.label + 1 + 1) 0,
                Ir.new .IrLabel (s1.label + 1) 0])
              (by
                intro r
                rw [noTouch_cons, touches_jmp, noTouch_cons, touches_label,
                  noTouch_nil]
                rfl)
            have T3 := StmtSpec.seq hg T2 Sel rfl (le_refl _) rfl rfl
            have T4 := StmtSpec.append_inert T3
              (t := [Ir.new .IrLabel (s1.label + 1 + 1) 0])
              (by
                intro r
                rw [noTouch_cons, touches_label, noTouch_nil]
                rfl)
            obtain ⟨rfl, rfl⟩ := h
            simpa using T4
  case CompStmt stmts => exact ihsl stmts s s' d hg h
  case For init cond inc body break_label =>
    simp only [bind, Except.bind] at h
    dsimp only [new_labelG] at h
    cases h1 : gen_stmt f init { s with label := s.label + 1 + 1 } with
    | error e => rw [h1] at h; exact absurd h (by simp)
    | ok v =>
      obtain ⟨s3, dInit⟩ := v
      rw [h1] at h
      dsimp only at h
      cases h2 : gen_for_cond f cond s3 (s.label + 1 + 1) with
      | error e => rw [h2] at h; exact absurd h (by simp)
      | ok w =>
        obtain ⟨s4, dCond⟩ := w
        rw [h2] at h
        dsimp only at h
        cases h3 : gen_stmt f body s4 with
        | error e => rw [h3] at h; exact absurd h (by simp)
        | ok u =>
          obtain ⟨s5, dBody⟩ := u
          rw [h3] at h
          dsimp only at h
          cases h4 : gen_stmt f inc s5 with
          | error e => rw [h4] at h; exact absurd h (by simp)
          | ok t =>
            obtain ⟨s6, dInc⟩ := t
            rw [h4] at h
            dsimp only at h
            simp only [pure, Except.pure, Except.ok.injEq, Prod.mk.injEq] at h
            have hg2 : GoodSt { s with label := s.label + 1 + 1 } :=
              GoodSt.relabel s hg _
            have S1 : StmtSpec s s3 dInit :=
              (ihs init _ s3 dInit hg2 h1).relaxPre
                (by simp only [GSt.regno_mk])
                (by simp only [GSt.label_mk]; omega)
                (by simp only [GSt.return_label_mk])
                (by simp only [GSt.return_reg_mk])
            obtain ⟨hn1, hl1, hrl1, hrr1, -, -, -, -⟩ := id S1
            have hg3 : GoodSt s3 := GoodSt.mono hg hrl1 hrr1 hn1
            have S2 := ihfc cond s3 (s.label + 1 + 1) s4 dCond hg3 h2
            obtain ⟨hn2, hl2, hrl2, hrr2, -, -, -, -⟩ := id S2
            have hg4 : GoodSt s4 := GoodSt.mono hg3 hrl2 hrr2 hn2
            have S3 := ihs body s4 s5 dBody hg4 h3
            obtain ⟨hn3, hl3, hrl3, hrr3, -, -, -, -⟩ := id S3
            have hg5 : GoodSt s5 := GoodSt.mono hg4 hrl3 hrr3 hn3
            have S4 := ihs inc s5 s6 dInc hg5 h4
            have hlab1 : ∀ r, noTouch [Ir.new .IrLabel (s.label + 1) 0] r = true := by
              intro r
              rw [noTouch_cons, touches_label, noTouch_nil]
              rfl
            have hlab3 : ∀ r, noTouch
                [Ir.new .IrJmp (s.label + 1) 0,
                 Ir.new .IrLabel (s.label + 1 + 1) 0,
                 Ir.new .IrLabel break_label 0] r = true := by
              intro r
              rw [noTouch_cons, touches_jmp, noTouch_cons, touches_label,
                noTouch_cons, touches_label, noTouch_nil]
              rfl
            have T1 := StmtSpec.append_inert S1 hlab1
            have T2 := StmtSpec.seq hg T1 S2 rfl (le_refl _) rfl rfl
            have T3 := StmtSpec.seq hg T2 S3 rfl (le_refl _) rfl rfl
            have T4 := StmtSpec.seq hg T3 S4 rfl (le_refl _) rfl rfl
            have T5 := StmtSpec.append_inert T4 hlab3
            obtain ⟨rfl, rfl⟩ := h
            simpa using T5
  case DoWhile body cond break_label =>
    simp only [bind, Except.bind] at h
    dsimp only [new_labelG] at h
    cases h1 : gen_stmt f body { s with label := s.label + 1 } with
    | error e => rw [h1] at h; exact absurd h (by simp)
    | ok v =>
      obtain ⟨s2, dBody⟩ := v
      rw [h1] at h
      dsimp only at h
      cases h2 : gen_expr f cond s2 with
      | error e => rw [h2] at h; exact absurd h (by simp)
      | ok w =>
        obtain ⟨r, s3, dCond⟩ := w
        rw [h2] at h
        dsimp only at h
        simp only [pure, Except.pure, Except.ok.injEq, Prod.mk.injEq] at h
        have hg1 : GoodSt { s with label := s.label + 1 } :=
          GoodSt.relabel s hg _
        have S1 : StmtSpec s s2 dBody :=
          (ihs body _ s2 dBody hg1 h1).relaxPre
            (by simp only [GSt.regno_mk])
            (by simp only [GSt.label_mk]; omega)
            (by simp only [GSt.return_label_mk])
            (by simp only [GSt.return_reg_mk])
        obtain ⟨hn1, hl1, hrl1, hrr1, -, -, -, -⟩ := id S1
        have hg2 : GoodSt s2 := GoodSt.mono hg hrl1 hrr1 hn1
        have e2 := ihe cond s2 r s3 dCond hg2 h2
        have S2 := @ExprSpec.killAfter s2 s3 r dCond hg2 e2
          [Ir.new .IrIf r (s.label + 1)] [Ir.new .IrLabel break_label 0]
          (fun rr2 => rfl)
          (by
            intro rr2 ha hex
            simp [noTouch, touches, lhsRegW, lhsRegR, rhsReg, isKillI, Ir.new]
            omega)
          (by
            intro rr2
            rw [noTouch_cons, touches_label, noTouch_nil]
            rfl)
        have T1 := StmtSpec.seq hg S1 S2 rfl (le_refl _) rfl rfl
        have T2 := StmtSpec.prepend_inert T1
          (t := [Ir.new .IrLabel (s.label + 1) 0])
          (by
            intro rr2
            rw [noTouch_cons, touches_label, noTouch_nil]
            rfl)
        obtain ⟨rfl, rfl⟩ := h
        simpa using T2
  case VarDef nm var ini =>
    cases ini with
    | none =>
      simp only [pure, Except.pure, Except.ok.injEq, Prod.mk.injEq] at h
      obtain ⟨rfl, rfl⟩ := h
      exact StmtSpec.nil s
    | some rhs =>
      simp only [bind, Except.bind] at h
      cases h1 : gen_expr f rhs s with
      | error e => rw [h1] at h; exact absurd h (by simp)
      | ok v =>
        obtain ⟨r2, s1, d1⟩ := v
        rw [h1] at h
        dsimp only [new_regno] at h
        simp only [pure, Except.pure, Except.ok.injEq, Prod.mk.injEq] at h
        have e1 := ihe rhs s r2 s1 d1 hg h1
        obtain ⟨hb1, hb2, -, -, -, -, -, -, -, -⟩ := id e1
        have E2 := @ExprSpec.appendFreshKilled s s1 r2 d1 e1
          [Ir.new .IrBpRel (s1.regno + 1) var.offset,
           Ir.new (.IrStore var.ctype.size) (s1.regno + 1) r2]
          (by
            intro r ha hb
            simp [noTouch, touches, lhsRegW, lhsRegR, rhsReg, isKillI, Ir.new]
            omega)
          (by
            intro r
            simp [noKill, isKillI, Ir.new])
        have hres := @ExprSpec.killAfter s { s1 with regno := s1.regno + 1 } r2
          _ hg E2 [] [] (fun r => rfl) (fun r _ _ => rfl) (fun r => rfl)
        obtain ⟨rfl, rfl⟩ := h
        simpa using hres
  case Break jmp_point =>
    simp only [pure, Except.pure, Except.ok.injEq, Prod.mk.injEq] at h
    obtain ⟨rfl, rfl⟩ := h
    have := StmtSpec.append_inert (StmtSpec.nil s)
      (t := [Ir.new .IrJmp jmp_point 0])
      (by
        intro r
        rw [noTouch_cons, touches_jmp, noTouch_nil]
        rfl)
    simpa using this

end GenIr

namespace GenIr

theorem genSpecAll : ∀ f, SpecAll f := by
  intro f
  induction f with
  | zero =>
    refine ⟨?_, ?_, ?_, ?_, ?_, ?_, ?_, ?_, ?_⟩
    · intro op n1 n2 s rr s' d hop hg h
      exact Except.noConfusion h
    · intro ct n num s rr s' d hg h
      exact Except.noConfusion h
    · intro ct n num s rr s' d hg h
      exact Except.noConfusion h
    · intro n s rr s' d hg h
      exact Except.noConfusion h
    · intro n s rr s' d hg h
      exact Except.noConfusion h
    · intro n s s' d hg h
      exact Except.noConfusion h
    · intro c s y s' d hg h
      exact Except.noConfusion h
    · intro ns s rs s' d hg h
      exact Except.noConfusion h
    · intro ns s s' d hg h
      exact Except.noConfusion h
  | succ f ih =>
    obtain ⟨ihb, ihpre, ihpost, ihl, ihe, ihs, ihfc, ihel, ihsl⟩ := ih
    exact ⟨fun op n1 n2 s rr s' d hop hg h =>
        spec_binop f ihe op n1 n2 s rr s' d hop hg h,
      spec_pre_inc f ihl, spec_post_inc f ihpre, spec_lval f ihe ihl,
      spec_expr f ihe ihl ihb ihpost ihs ihel,
      spec_stmt f ihe ihs ihfc ihsl, spec_for_cond f ihe,
      spec_expr_list f ihe ihel, spec_stmt_list f ihs ihsl⟩

theorem store_args_noTouch :
    ∀ (args : List GNode) (i : Nat) (d : List Ir),
    store_args args i = .ok d → ∀ r, noTouch d r = true := by
  intro args
  induction args with
  | nil =>
    intro i d h r
    simp only [store_args, pure, Except.pure, Except.ok.injEq] at h
    subst h
    rfl
  | cons a rest ih =>
    intro i d h r
    cases a
    all_goals simp only [store_args] at h
    all_goals try exact Except.noConfusion h
    case VarDef nm var ini =>
      simp only [bind, Except.bind] at h
      cases h1 : store_args rest (i+1) with
      | error e => rw [h1] at h; exact absurd h (by simp)
      | ok d2 =>
        rw [h1] at h
        dsimp only at h
        simp only [pure, Except.pure, Except.ok.injEq] at h
        subst h
        rw [noTouch_cons, ih (i+1) d2 h1 r]
        have : touches (Ir.new (.IrStoreArg var.ctype.size) var.offset i) r = false := by
          simp [touches, lhsRegW, lhsRegR, rhsReg, isKillI, Ir.new]
        rw [this]
        rfl

end GenIr

/-- C1 counterexample: the claim fails as stated.  For the function
`int main() { int a; return a; }` the generator emits
`[BpRel r2, Load r2 r2, Ret r2, Kill r2]`: register 2 is written by TWO
instructions (the address computation `BpRel` and then the `Load` that
overwrites the register with the loaded value), not defined by exactly
one. -/
theorem c1_counterexample :
    GenIr.gen_ir_fun 10 GenIr.mainNode ⟨1, 0, 0, 0⟩ =
      .ok (some (("main"), GenIr.mainIrs, 4), ⟨2, 0, 0, 0⟩) ∧
    GenIr.defCount GenIr.mainIrs 2 = 2 ∧
    GenIr.killCount GenIr.mainIrs 2 = 1 ∧
    (2 : Nat) ≠ 1 := ⟨rfl, rfl, rfl, by decide⟩

/-- C1 (amended): with the top-level return label unset (its initial
state), every virtual register allocated while generating a function is
the operand of exactly one `Kill` instruction, and no instruction of the
function mentions the register after its `Kill` — in particular every
write to it precedes the `Kill`.  (Registers are NOT defined by exactly
one instruction: a variable load writes its register twice, see the
counterexample; the true invariant is the unique, final `Kill`.)
Registers from outside the function's allocation range are never
mentioned, and no register at or below the initial allocation point is
ever killed. -/
theorem c1_amended :
    ∀ (f : Nat) (funode : GenIr.GNode) (s : GenIr.GSt) (name : String)
      (irs : List GenIr.Ir) (stacksize : Nat) (s' : GenIr.GSt),
      s.return_label = 0 →
      GenIr.gen_ir_fun f funode s = .ok (some (name, irs, stacksize), s') →
      (∀ r, 1 < r → r ≤ s'.regno → GenIr.killedOnceLast irs r) ∧
      (∀ r, s'.regno < r → GenIr.noTouch irs r = true) ∧
      (∀ r, r ≤ 1 → GenIr.noKill irs r = true) := by
  intro f funode s name irs stacksize s' hrl0 h
  cases funode
  all_goals simp only [GenIr.gen_ir_fun] at h
  all_goals try exact Except.noConfusion h
  case Func ctype fname args body ss =>
    cases hext : GenIr.GType.is_extern ctype
    all_goals rw [hext] at h
    case true =>
      simp only [if_true, pure, Except.pure, Except.ok.injEq,
        Prod.mk.injEq] at h
      exact absurd h.1 (by simp)
    case false =>
      simp only [if_false, bind, Except.bind] at h
      cases hsa : GenIr.store_args args 0 with
      | error e => rw [hsa] at h; exact absurd h (by simp)
      | ok dArgs =>
        rw [hsa] at h
        dsimp only at h
        cases hsb : GenIr.gen_stmt f body { s with regno := 1 } with
        | error e => rw [hsb] at h; exact absurd h (by simp)
        | ok v =>
          obtain ⟨s1, dBody⟩ := v
          rw [hsb] at h
          dsimp only at h
          simp only [pure, Except.pure, Except.ok.injEq, Prod.mk.injEq,
            Option.some.injEq] at h
          have hgood : GenIr.GoodSt { s with regno := 1 } := by
            intro hl
            simp only [GenIr.GSt.return_label_mk] at hl
            rw [hrl0] at hl
            exact absurd hl (by omega)
          obtain ⟨hn, hl, hrl, hrr, hok, hot, hoh, hkol⟩ :=
            (GenIr.genSpecAll f).2.2.2.2.2.1 body _ s1 dBody hgood hsb
          simp only [GenIr.GSt.regno_mk] at hn hok hot hoh hkol
          have hArgsNT := GenIr.store_args_noTouch args 0 dArgs hsa
          obtain ⟨⟨rfl, rfl, rfl⟩, rfl⟩ := h
          refine ⟨?_, ?_, ?_⟩
          · intro r hr1 hr2
            exact GenIr.killedOnceLast_append_left (hArgsNT r)
              (hkol r hr1 hr2)
          · intro r hr
            rw [GenIr.noTouch_append, hArgsNT r, hoh r hr]
            rfl
          · intro r hr
            rw [GenIr.noKill_append,
              GenIr.noKill_of_noTouch (hArgsNT r), hok r hr]
            rfl

/-- C1 witness: the amended statement applied to the concrete function
`int main() { int a; return a; }` at the initial generator state — its
one allocated register, register 2, is killed exactly once, by the final
instruction. -/
theorem c1_witness :
    ((⟨1, 0, 0, 0⟩ : GenIr.GSt).return_label = 0 ∧
     GenIr.gen_ir_fun 10 GenIr.mainNode ⟨1, 0, 0, 0⟩ =
       .ok (some (("main"), GenIr.mainIrs, 4), ⟨2, 0, 0, 0⟩) ∧
     1 < 2 ∧ 2 ≤ (⟨2, 0, 0, 0⟩ : GenIr.GSt).regno) ∧
    GenIr.killedOnceLast GenIr.mainIrs 2 :=
  ⟨⟨rfl, rfl, by decide, by decide⟩,
   (c1_amended 10 GenIr.mainNode ⟨1, 0, 0, 0⟩ ("main") GenIr.mainIrs 4
     ⟨2, 0, 0, 0⟩ rfl rfl).1 2 (by decide) (by decide)⟩

/-! ## The relational parse (C10) -/

theorem Parse.run_consume_lt_false (st : Parse.PSt) (t : Token)
    (h : st.tokens.get? st.pos = some t) (hne : ttBeq t.ty .TokenLt = false) :
    (Parse.consume_ty .TokenLt).run st = Except.ok (false, st) := by
  unfold Parse.consume_ty
  rw [Parse.run_bind, Parse.run_curToken st t h]
  simp only [Except.bind]
  obtain ⟨tty, tv, tp, ta, tb, tl⟩ := t
  cases tty <;> first
    | rfl
    | simp [ttBeq, TokenType.tag] at hne

theorem Parse.run_consume_rt_false (st : Parse.PSt) (t : Token)
    (h : st.tokens.get? st.pos = some t) (hne : ttBeq t.ty .TokenRt = false) :
    (Parse.consume_ty .TokenRt).run st = Except.ok (false, st) := by
  unfold Parse.consume_ty
  rw [Parse.run_bind, Parse.run_curToken st t h]
  simp only [Except.bind]
  obtain ⟨tty, tv, tp, ta, tb, tl⟩ := t
  cases tty <;> first
    | rfl
    | simp [ttBeq, TokenType.tag] at hne

theorem Parse.run_consume_le_false (st : Parse.PSt) (t : Token)
    (h : st.tokens.get? st.pos = some t) (hne : ttBeq t.ty .TokenLe = false) :
    (Parse.consume_ty .TokenLe).run st = Except.ok (false, st) := by
  unfold Parse.consume_ty
  rw [Parse.run_bind, Parse.run_curToken st t h]
  simp only [Except.bind]
  obtain ⟨tty, tv, tp, ta, tb, tl⟩ := t
  cases tty <;> first
    | rfl
    | simp [ttBeq, TokenType.tag] at hne

theorem Parse.run_consume_ge_false (st : Parse.PSt) (t : Token)
    (h : st.tokens.get? st.pos = some t) (hne : ttBeq t.ty .TokenGe = false) :
    (Parse.consume_ty .TokenGe).run st = Except.ok (false, st) := by
  unfold Parse.consume_ty
  rw [Parse.run_bind, Parse.run_curToken st t h]
  simp only [Except.bind]
  obtain ⟨tty, tv, tp, ta, tb, tl⟩ := t
  cases tty <;> first
    | rfl
    | simp [ttBeq, TokenType.tag] at hne

theorem Parse.run_consume_rt_true (st : Parse.PSt) (t : Token)
    (h : st.tokens.get? st.pos = some t) (hty : t.ty = .TokenRt) :
    (Parse.consume_ty .TokenRt).run st =
      Except.ok (true, { st with pos := st.pos + 1 }) := by
  unfold Parse.consume_ty
  rw [Parse.run_bind, Parse.run_curToken st t h]
  simp only [Except.bind]
  rw [hty]
  rfl

theorem Parse.run_consume_lt_true (st : Parse.PSt) (t : Token)
    (h : st.tokens.get? st.pos = some t) (hty : t.ty = .TokenLt) :
    (Parse.consume_ty .TokenLt).run st =
      Except.ok (true, { st with pos := st.pos + 1 }) := by
  unfold Parse.consume_ty
  rw [Parse.run_bind, Parse.run_curToken st t h]
  simp only [Except.bind]
  rw [hty]
  rfl

theorem Parse.run_consume_ge_true (st : Parse.PSt) (t : Token)
    (h : st.tokens.get? st.pos = some t) (hty : t.ty = .TokenGe) :
    (Parse.consume_ty .TokenGe).run st =
      Except.ok (true, { st with pos := st.pos + 1 }) := by
  unfold Parse.consume_ty
  rw [Parse.run_bind, Parse.run_curToken st t h]
  simp only [Except.bind]
  rw [hty]
  rfl

theorem Parse.run_consume_le_true (st : Parse.PSt) (t : Token)
    (h : st.tokens.get? st.pos = some t) (hty : t.ty = .TokenLe) :
    (Parse.consume_ty .TokenLe).run st =
      Except.ok (true, { st with pos := st.pos + 1 }) := by
  unfold Parse.consume_ty
  rw [Parse.run_bind, Parse.run_curToken st t h]
  simp only [Except.bind]
  rw [hty]
  rfl

/-- C10: for any left operand parse `A` followed by `>` and a right
operand parse `B` (with no further relational token), and the mirrored
input where `B` is followed by `<` and then `A`, `relational` produces
the IDENTICAL node `BinaryTree INT_TY TokenLt B A` for both: `a > b` is
normalized to `b < a` by swapping the operands.  Likewise for any left
operand parse `C` followed by `>=` and a right operand parse `D`, and
the mirrored input where `D` is followed by `<=` and then `C`,
`relational` produces the IDENTICAL node `BinaryTree INT_TY TokenLe D C`
for both: `a >= b` is normalized to `b <= a`.  Moreover the IR opcode
table has no mapping for `TokenRt` or `TokenGe` (only `TokenLt` and
`TokenLe` map, to `IrLt` and `IrLe`), so no greater-than comparison ever
reaches the IR. -/
theorem c10_relational_swap :
    ∀ (g : Nat) (st1 st2 st3 st4 : Parse.PSt) (A B C D : Node)
      (st1' st1'' st2' st2'' st3' st3'' st4' st4'' : Parse.PSt)
      (t1 t2 t3 t4 u1 u2 u3 u4 : Token),
      (Parse.shift (g+2)).run st1 = .ok (A, st1') →
      st1'.tokens.get? st1'.pos = some t1 → t1.ty = .TokenRt →
      (Parse.shift (g+1)).run { st1' with pos := st1'.pos + 1 } =
        .ok (B, st1'') →
      st1''.tokens.get? st1''.pos = some u1 →
      ttBeq u1.ty .TokenLt = false → ttBeq u1.ty .TokenRt = false →
      ttBeq u1.ty .TokenLe = false → ttBeq u1.ty .TokenGe = false →
      (Parse.shift (g+2)).run st2 = .ok (B, st2') →
      st2'.tokens.get? st2'.pos = some t2 → t2.ty = .TokenLt →
      (Parse.shift (g+1)).run { st2' with pos := st2'.pos + 1 } =
        .ok (A, st2'') →
      st2''.tokens.get? st2''.pos = some u2 →
      ttBeq u2.ty .TokenLt = false → ttBeq u2.ty .TokenRt = false →
      ttBeq u2.ty .TokenLe = false → ttBeq u2.ty .TokenGe = false →
      (Parse.shift (g+2)).run st3 = .ok (C, st3') →
      st3'.tokens.get? st3'.pos = some t3 → t3.ty = .TokenGe →
      (Parse.shift (g+1)).run { st3' with pos := st3'.pos + 1 } =
        .ok (D, st3'') →
      st3''.tokens.get? st3''.pos = some u3 →
      ttBeq u3.ty .TokenLt = false → ttBeq u3.ty .TokenRt = false →
      ttBeq u3.ty .TokenLe = false → ttBeq u3.ty .TokenGe = false →
      (Parse.shift (g+2)).run st4 = .ok (D, st4') →
      st4'.tokens.get? st4'.pos = some t4 → t4.ty = .TokenLe →
      (Parse.shift (g+1)).run { st4' with pos := st4'.pos + 1 } =
        .ok (C, st4'') →
      st4''.tokens.get? st4''.pos = some u4 →
      ttBeq u4.ty .TokenLt = false → ttBeq u4.ty .TokenRt = false →
      ttBeq u4.ty .TokenLe = false → ttBeq u4.ty .TokenGe = false →
      (Parse.relational (g+3)).run st1 =
        .ok (Node.BinaryTree INT_TY .TokenLt B A, st1'') ∧
      (Parse.relational (g+3)).run st2 =
        .ok (Node.BinaryTree INT_TY .TokenLt B A, st2'') ∧
      (Parse.relational (g+3)).run st3 =
        .ok (Node.BinaryTree INT_TY .TokenLe D C, st3'') ∧
      (Parse.relational (g+3)).run st4 =
        .ok (Node.BinaryTree INT_TY .TokenLe D C, st4'') ∧
      GenIr.bittype .TokenRt = none ∧ GenIr.bittype .TokenGe = none ∧
      GenIr.bittype .TokenLt = some .IrLt ∧
      GenIr.bittype .TokenLe = some .IrLe := by
  intro g st1 st2 st3 st4 A B C D
  intro st1' st1'' st2' st2'' st3' st3'' st4' st4''
  intro t1 t2 t3 t4 u1 u2 u3 u4
  intro h1 htok1 ht1 h2 htokE1 hbLt1 hbRt1 hbLe1 hbGe1
  intro h3 htok2 ht2 h4 htokE2 hbLt2 hbRt2 hbLe2 hbGe2
  intro h5 htok3 ht3 h6 htokE3 hbLt3 hbRt3 hbLe3 hbGe3
  intro h7 htok4 ht4 h8 htokE4 hbLt4 hbRt4 hbLe4 hbGe4
  have hcLt1 : (Parse.consume_ty .TokenLt).run st1' = Except.ok (false, st1') :=
    Parse.run_consume_lt_false st1' t1 htok1 (by rw [ht1]; rfl)
  have hcRt1 : (Parse.consume_ty .TokenRt).run st1' =
      Except.ok (true, { st1' with pos := st1'.pos + 1 }) :=
    Parse.run_consume_rt_true st1' t1 htok1 ht1
  have hcLt2 : (Parse.consume_ty .TokenLt).run st2' =
      Except.ok (true, { st2' with pos := st2'.pos + 1 }) :=
    Parse.run_consume_lt_true st2' t2 htok2 ht2
  have hcGe3 : (Parse.consume_ty .TokenGe).run st3' =
      Except.ok (true, { st3' with pos := st3'.pos + 1 }) :=
    Parse.run_consume_ge_true st3' t3 htok3 ht3
  have hcLe4 : (Parse.consume_ty .TokenLe).run st4' =
      Except.ok (true, { st4' with pos := st4'.pos + 1 }) :=
    Parse.run_consume_le_true st4' t4 htok4 ht4
  refine ⟨?_, ?_, ?_, ?_, rfl, rfl, rfl, rfl⟩
  · show ((Parse.shift (g+2) >>= _)).run st1 = _
    rw [Parse.run_bind, h1]
    simp only [Except.bind]
    show ((Parse.consume_ty .TokenLt >>= _)).run st1' = _
    rw [Parse.run_bind, hcLt1]
    simp only [Except.bind]
    show ((Parse.consume_ty .TokenRt >>= _)).run st1' = _
    rw [Parse.run_bind, hcRt1]
    simp only [Except.bind]
    show ((Parse.shift (g+1) >>= _)).run ({ st1' with pos := st1'.pos + 1 }) = _
    rw [Parse.run_bind, h2]
    simp only [Except.bind]
    show ((Parse.consume_ty .TokenLt >>= _)).run st1'' = _
    rw [Parse.run_bind, Parse.run_consume_lt_false st1'' u1 htokE1 hbLt1]
    simp only [Except.bind]
    show ((Parse.consume_ty .TokenRt >>= _)).run st1'' = _
    rw [Parse.run_bind, Parse.run_consume_rt_false st1'' u1 htokE1 hbRt1]
    simp only [Except.bind]
    show ((Parse.consume_ty .TokenLe >>= _)).run st1'' = _
    rw [Parse.run_bind, Parse.run_consume_le_false st1'' u1 htokE1 hbLe1]
    simp only [Except.bind]
    show ((Parse.consume_ty .TokenGe >>= _)).run st1'' = _
    rw [Parse.run_bind, Parse.run_consume_ge_false st1'' u1 htokE1 hbGe1]
    simp only [Except.bind]
    rfl
  · show ((Parse.shift (g+2) >>= _)).run st2 = _
    rw [Parse.run_bind, h3]
    simp only [Except.bind]
    show ((Parse.consume_ty .TokenLt >>= _)).run st2' = _
    rw [Parse.run_bind, hcLt2]
    simp only [Except.bind]
    show ((Parse.shift (g+1) >>= _)).run ({ st2' with pos := st2'.pos + 1 }) = _
    rw [Parse.run_bind, h4]
    simp only [Except.bind]
    show ((Parse.consume_ty .TokenLt >>= _)).run st2'' = _
    rw [Parse.run_bind, Parse.run_consume_lt_false st2'' u2 htokE2 hbLt2]
    simp only [Except.bind]
    show ((Parse.consume_ty .TokenRt >>= _)).run st2'' = _
    rw [Parse.run_bind, Parse.run_consume_rt_false st2'' u2 htokE2 hbRt2]
    simp only [Except.bind]
    show ((Parse.consume_ty .TokenLe >>= _)).run st2'' = _
    rw [Parse.run_bind, Parse.run_consume_le_false st2'' u2 htokE2 hbLe2]
    simp only [Except.bind]
    show ((Parse.consume_ty .TokenGe >>= _)).run st2'' = _
    rw [Parse.run_bind, Parse.run_consume_ge_false st2'' u2 htokE2 hbGe2]
    simp only [Except.bind]
    rfl
  · show ((Parse.shift (g+2) >>= _)).run st3 = _
    rw [Parse.run_bind, h5]
    simp only [Except.bind]
    show ((Parse.consume_ty .TokenLt >>= _)).run st3' = _
    rw [Parse.run_bind, Parse.run_consume_lt_false st3' t3 htok3 (by rw [ht3]; rfl)]
    simp only [Except.bind]
    show ((Parse.consume_ty .TokenRt >>= _)).run st3' = _
    rw [Parse.run_bind, Parse.run_consume_rt_false st3' t3 htok3 (by rw [ht3]; rfl)]
    simp only [Except.bind]
    show ((Parse.consume_ty .TokenLe >>= _)).run st3' = _
    rw [Parse.run_bind, Parse.run_consume_le_false st3' t3 htok3 (by rw [ht3]; rfl)]
    simp only [Except.bind]
    show ((Parse.consume_ty .TokenGe >>= _)).run st3' = _
    rw [Parse.run_bind, hcGe3]
    simp only [Except.bind]
    show ((Parse.shift (g+1) >>= _)).run ({ st3' with pos := st3'.pos + 1 }) = _
    rw [Parse.run_bind, h6]
    simp only [Except.bind]
    show ((Parse.consume_ty .TokenLt >>= _)).run st3'' = _
    rw [Parse.run_bind, Parse.run_consume_lt_false st3'' u3 htokE3 hbLt3]
    simp only [Except.bind]
    show ((Parse.consume_ty .TokenRt >>= _)).run st3'' = _
    rw [Parse.run_bind, Parse.run_consume_rt_false st3'' u3 htokE3 hbRt3]
    simp only [Except.bind]
    show ((Parse.consume_ty .TokenLe >>= _)).run st3'' = _
    rw [Parse.run_bind, Parse.run_consume_le_false st3'' u3 htokE3 hbLe3]
    simp only [Except.bind]
    show ((Parse.consume_ty .TokenGe >>= _)).run st3'' = _
    rw [Parse.run_bind, Parse.run_consume_ge_false st3'' u3 htokE3 hbGe3]
    simp only [Except.bind]
    rfl
  · show ((Parse.shift (g+2) >>= _)).run st4 = _
    rw [Parse.run_bind, h7]
    simp only [Except.bind]
    show ((Parse.consume_ty .TokenLt >>= _)).run st4' = _
    rw [Parse.run_bind, Parse.run_consume_lt_false st4' t4 htok4 (by rw [ht4]; rfl)]
    simp only [Except.bind]
    show ((Parse.consume_ty .TokenRt >>= _)).run st4' = _
    rw [Parse.run_bind, Parse.run_consume_rt_false st4' t4 htok4 (by rw [ht4]; rfl)]
    simp only [Except.bind]
    show ((Parse.consume_ty .TokenLe >>= _)).run st4' = _
    rw [Parse.run_bind, hcLe4]
    simp only [Except.bind]
    show ((Parse.shift (g+1) >>= _)).run ({ st4' with pos := st4'.pos + 1 }) = _
    rw [Parse.run_bind, h8]
    simp only [Except.bind]
    show ((Parse.consume_ty .TokenLt >>= _)).run st4'' = _
    rw [Parse.run_bind, Parse.run_consume_lt_false st4'' u4 htokE4 hbLt4]
    simp only [Except.bind]
    show ((Parse.consume_ty .TokenRt >>= _)).run st4'' = _
    rw [Parse.run_bind, Parse.run_consume_rt_false st4'' u4 htokE4 hbRt4]
    simp only [Except.bind]
    show ((Parse.consume_ty .TokenLe >>= _)).run st4'' = _
    rw [Parse.run_bind, Parse.run_consume_le_false st4'' u4 htokE4 hbLe4]
    simp only [Except.bind]
    show ((Parse.consume_ty .TokenGe >>= _)).run st4'' = _
    rw [Parse.run_bind, Parse.run_consume_ge_false st4'' u4 htokE4 hbGe4]
    simp only [Except.bind]
    rfl

/-- C10 witness: the concrete inputs `1 > 2` and `2 < 1` — both parse to
the node `BinaryTree INT_TY TokenLt (Num 2) (Num 1)` — and the concrete
inputs `1 >= 2` and `2 <= 1` — both parse to
`BinaryTree INT_TY TokenLe (Num 2) (Num 1)`. -/
theorem c10_witness :
    ((Parse.shift 12).run c10GtSt =
        .ok (Node.Num 1, { c10GtSt with pos := 1 }) ∧
      (Parse.shift 11).run { c10GtSt with pos := 2 } =
        .ok (Node.Num 2, { c10GtSt with pos := 3 }) ∧
      (Parse.shift 12).run c10LtSt =
        .ok (Node.Num 2, { c10LtSt with pos := 1 }) ∧
      (Parse.shift 11).run { c10LtSt with pos := 2 } =
        .ok (Node.Num 1, { c10LtSt with pos := 3 }) ∧
      (Parse.shift 12).run c10GeSt =
        .ok (Node.Num 1, { c10GeSt with pos := 1 }) ∧
      (Parse.shift 11).run { c10GeSt with pos := 2 } =
        .ok (Node.Num 2, { c10GeSt with pos := 3 }) ∧
      (Parse.shift 12).run c10LeSt =
        .ok (Node.Num 2, { c10LeSt with pos := 1 }) ∧
      (Parse.shift 11).run { c10LeSt with pos := 2 } =
        .ok (Node.Num 1, { c10LeSt with pos := 3 })) ∧
    ((Parse.relational 13).run c10GtSt =
        .ok (Node.BinaryTree INT_TY .TokenLt (Node.Num 2) (Node.Num 1),
          { c10GtSt with pos := 3 }) ∧
      (Parse.relational 13).run c10LtSt =
        .ok (Node.BinaryTree INT_TY .TokenLt (Node.Num 2) (Node.Num 1),
          { c10LtSt with pos := 3 }) ∧
      (Parse.relational 13).run c10GeSt =
        .ok (Node.BinaryTree INT_TY .TokenLe (Node.Num 2) (Node.Num 1),
          { c10GeSt with pos := 3 }) ∧
      (Parse.relational 13).run c10LeSt =
        .ok (Node.BinaryTree INT_TY .TokenLe (Node.Num 2) (Node.Num 1),
          { c10LeSt with pos := 3 }) ∧
      GenIr.bittype .TokenRt = none ∧ GenIr.bittype .TokenGe = none ∧
      GenIr.bittype .TokenLt = some .IrLt ∧
      GenIr.bittype .TokenLe = some .IrLe) :=
  ⟨⟨rfl, rfl, rfl, rfl, rfl, rfl, rfl, rfl⟩,
   c10_relational_swap 10 c10GtSt c10LtSt c10GeSt c10LeSt
     (Node.Num 1) (Node.Num 2) (Node.Num 1) (Node.Num 2)
     { c10GtSt with pos := 1 } { c10GtSt with pos := 3 }
     { c10LtSt with pos := 1 } { c10LtSt with pos := 3 }
     { c10GeSt with pos := 1 } { c10GeSt with pos := 3 }
     { c10LeSt with pos := 1 } { c10LeSt with pos := 3 }
     (tok .TokenRt 0) (tok .TokenLt 0) (tok .TokenGe 0) (tok .TokenLe 0)
     (tok .TokenEof 0) (tok .TokenEof 0) (tok .TokenEof 0) (tok .TokenEof 0)
     rfl rfl rfl rfl rfl rfl rfl rfl rfl
     rfl rfl rfl rfl rfl rfl rfl rfl rfl
     rfl rfl rfl rfl rfl rfl rfl rfl rfl
     rfl rfl rfl rfl rfl rfl rfl rfl rfl⟩

/-! ## The decay walk (C3) -/

/-- C3 counterexample: the claim fails as stated, in both directions.
The walk does NOT clear the decay flag for the operand of `&`: on
`&a` where `a` is a local `int a[2]`, the operand is walked with the
flag set, so the array reference decays to an `Addr` wrapper, which
then fails the lvalue check — the walk panics `not an lvalue`, although
the operand walked without decay is a perfectly good lvalue.  And not
every decay-context node of array type is wrapped: the assignment node
`a = 0` keeps its raw array type without any `Addr` wrapper even though
it is walked with the decay flag set. -/
theorem c3_counterexample :
    Sema.walk 5 (.Addr Sema.INT_S (.Ident ("a"))) Sema.c3Env true Sema.c3St =
      Except.error ("not an lvalue") ∧
    Sema.walk 4 (.Ident ("a")) Sema.c3Env false Sema.c3St =
      Except.ok (.Lvar Sema.ARY2_S 8, Sema.c3Env, Sema.c3St) ∧
    Sema.checklval (.Lvar Sema.ARY2_S 8) = Except.ok () ∧
    Sema.walk 5 (.EqTree Sema.INT_S (.Ident ("a")) (.Num 0)) Sema.c3Env true
        Sema.c3St =
      Except.ok (.EqTree Sema.ARY2_S (.Lvar Sema.ARY2_S 8) (.Num 0),
        Sema.c3Env, Sema.c3St) ∧
    Sema.SNode.isAddr (.EqTree Sema.ARY2_S (.Lvar Sema.ARY2_S 8) (.Num 0)) =
      false ∧
    (Sema.SNode.nodesctype
      (.EqTree Sema.ARY2_S (.Lvar Sema.ARY2_S 8) (.Num 0))).ty = .ARY :=
  ⟨rfl, rfl, rfl, rfl, rfl, rfl⟩

/-- C3 (amended): `maybe_decay` wraps exactly the array-typed variable
references (local or global) in an `Addr` node typed pointer-to-element
when the flag is set, and leaves them unchanged when the flag is clear
or the type is not an array; the walk clears the decay flag for the
operands of `sizeof` and `_Alignof` and for the left-hand side of an
assignment (an operand error under the cleared flag is the result), but
passes the flag SET for the operand of `&`. -/
theorem c3_amended :
    (∀ (ct : Sema.SType) (off : Nat) (nm : String) (at2 : Sema.SType),
      ct.ty = .ARY → ct.ary_to = some at2 →
      Sema.maybe_decay (.Lvar ct off) true =
        .ok (.Addr (Sema.SType.ptrTo at2) (.Lvar ct off)) ∧
      Sema.maybe_decay (.Gvar ct nm) true =
        .ok (.Addr (Sema.SType.ptrTo at2) (.Gvar ct nm))) ∧
    (∀ (ct : Sema.SType) (off : Nat) (nm : String),
      Sema.maybe_decay (.Lvar ct off) false = .ok (.Lvar ct off) ∧
      Sema.maybe_decay (.Gvar ct nm) false = .ok (.Gvar ct nm)) ∧
    (∀ (ct : Sema.SType) (off : Nat) (nm : String) (dec : Bool),
      ct.ty ≠ .ARY →
      Sema.maybe_decay (.Lvar ct off) dec = .ok (.Lvar ct off) ∧
      Sema.maybe_decay (.Gvar ct nm) dec = .ok (.Gvar ct nm)) ∧
    (∀ (f : Nat) (ct : Sema.SType) (v : Int) (lhs : Sema.SNode)
      (env : Sema.SEnv) (dec : Bool) (st : Sema.SSt) (e : String),
      Sema.walk f lhs env false st = .error e →
      Sema.walk (f+1) (.Sizeof ct v lhs) env dec st = .error e) ∧
    (∀ (f : Nat) (lhs : Sema.SNode) (env : Sema.SEnv) (dec : Bool)
      (st : Sema.SSt) (e : String),
      Sema.walk f lhs env false st = .error e →
      Sema.walk (f+1) (.Alignof lhs) env dec st = .error e) ∧
    (∀ (f : Nat) (d : Sema.SType) (lhs rhs : Sema.SNode) (env : Sema.SEnv)
      (dec : Bool) (st : Sema.SSt) (e : String),
      Sema.walk f lhs env false st = .error e →
      Sema.walk (f+1) (.EqTree d lhs rhs) env dec st = .error e) ∧
    (∀ (f : Nat) (d : Sema.SType) (lhs : Sema.SNode) (env : Sema.SEnv)
      (dec : Bool) (st : Sema.SSt) (e : String),
      Sema.walk f lhs env true st = .error e →
      Sema.walk (f+1) (.Addr d lhs) env dec st = .error e) := by
  refine ⟨?_, ?_, ?_, ?_, ?_, ?_, ?_⟩
  · intro ct off nm at2 hty hat
    constructor
    all_goals simp [Sema.maybe_decay, hty, hat, pure, Except.pure]
  · intro ct off nm
    constructor
    all_goals simp [Sema.maybe_decay, pure, Except.pure]
  · intro ct off nm dec hne
    constructor
    all_goals simp [Sema.maybe_decay, hne, pure, Except.pure]
  · intro f ct v lhs env dec st e hlhs
    simp only [Sema.walk, bind, Except.bind]
    rw [hlhs]
  · intro f lhs env dec st e hlhs
    simp only [Sema.walk, bind, Except.bind]
    rw [hlhs]
  · intro f d lhs rhs env dec st e hlhs
    simp only [Sema.walk, bind, Except.bind]
    rw [hlhs]
  · intro f d lhs env dec st e hlhs
    simp only [Sema.walk, bind, Except.bind]
    rw [hlhs]

/-- C3 witness: the amended statement applied to a concrete `int [2]`
array variable (the decay wrap) and to the `&` of an undefined name
(the operand of `&` walked with the flag set, propagating its error). -/
theorem c3_witness :
    (Sema.ARY2_S.ty = .ARY ∧ Sema.ARY2_S.ary_to = some Sema.INT_S ∧
     Sema.maybe_decay (.Lvar Sema.ARY2_S 8) true =
       .ok (.Addr (Sema.SType.ptrTo Sema.INT_S) (.Lvar Sema.ARY2_S 8))) ∧
    (Sema.walk 4 (.Ident ("zz")) Sema.c3Env true Sema.c3St =
       .error ("is not defined.") ∧
     Sema.walk 5 (.Addr Sema.INT_S (.Ident ("zz"))) Sema.c3Env true Sema.c3St =
       .error ("is not defined.")) :=
  ⟨⟨rfl, rfl, (c3_amended.1 Sema.ARY2_S 8 ("x") Sema.INT_S rfl rfl).1⟩,
   ⟨rfl, c3_amended.2.2.2.2.2.2 4 Sema.INT_S (.Ident ("zz")) Sema.c3Env true
     Sema.c3St ("is not defined.") rfl⟩⟩
